import Mathlib

/-!
# Prodigal `sequence.c`: packed sequences, genetic-code tables and scorers

A shallow embedding of the routines of `src/sequence.c` that work on a packed
sequence: the base predicates, the codon classification (`is_stop`,
`is_start`, `amino`), the per-character encoding of the sequence readers,
`reverse_seq`, `gc_content`, `prob_stop`, `max_fr`, `calc_most_gc_frame`,
`mer_index`, `calc_mer_bg` and the two Shine-Dalgarno scorers, followed by
theorems about them.

Conventions of the embedding:

* a C `int` is a Lean `Int`; positions and bit indices of a sequence are far
  from the `int` range (sequence lengths are capped by `MAX_SEQ`), so no
  wrap-around is modelled for them; the `int`s of `mer_index` and
  `calc_mer_bg`, which a word length of 16 takes out of range, are wrapped to
  32 bits by `int32`;
* a C `double` that only holds counts, small integer scores or their
  quotients is an `Int` or an exact rational; the weights `rwt` are values of
  any linear order;
* an `unsigned char *` bitmap is a bit array addressed by an integer bit
  index (`Bitmap`); the bit operations of `bitmap.c` are modelled on it; an
  `int` or `double` array is a function on integer indices, stored to by
  `upd`;
* a C function made of a run of `if (...) return ...;` statements closed by
  a final `return` is written as the list of its statements, each an
  `Option` (`none` when the statement falls through), run by `first_return`;
* a `for` loop that threads a state is `for_loop`, `for_loop_down` or
  `for_loop_step`.
-/

namespace Prodigal

/-! ## Bitmaps -/

/-- A bit array addressed by a bit index, standing for the memory reached
through an `unsigned char *` bitmap pointer. -/
abbrev Bitmap := Int → Bool

/-- Modelled from the spec: `test` of `bitmap.c` (not among the sources),
the indexed read of one bit of a bit array, returned as 0 or 1. -/
def test (bm : Bitmap) (ndx : Int) : Int := if bm ndx then 1 else 0

/-- Modelled from the spec: `set` of `bitmap.c` (not among the sources),
which turns one bit of a bit array on and leaves the others alone. -/
def set (bm : Bitmap) (ndx : Int) : Bitmap :=
  fun j => if j = ndx then true else bm j

/-- Modelled from the spec: `clear` of `bitmap.c` (not among the sources),
which turns one bit of a bit array off and leaves the others alone. -/
def clear (bm : Bitmap) (ndx : Int) : Bitmap :=
  fun j => if j = ndx then false else bm j

/-- Modelled from the spec: `toggle` of `bitmap.c` (not among the sources),
which flips one bit of a bit array and leaves the others alone. -/
def toggle (bm : Bitmap) (ndx : Int) : Bitmap :=
  fun j => if j = ndx then !(bm j) else bm j

/-- The zero-filled buffer. -/
def zero_filled : Bitmap := fun _ => false

/-! ## Control-flow helpers -/

/-- Runs a straight-line sequence of `if (...) return v;` statements: the
value of the first statement that returns, or the final `return dflt`. -/
def first_return {α : Type} (stmts : List (Option α)) (dflt : α) : α :=
  (stmts.findSome? id).getD dflt

/-- The loop `for (i = lo; i < hi; i++) s = body(i, s);`. -/
def for_loop {σ : Type} (lo hi : Int) (body : Int → σ → σ) (s : σ) : σ :=
  (List.range (hi - lo).toNat).foldl
    (fun (acc : σ) (k : Nat) => body (lo + (k : Int)) acc) s

/-- The loop `for (i = hi; i >= lo; i--) s = body(i, s);`. -/
def for_loop_down {σ : Type} (hi lo : Int) (body : Int → σ → σ) (s : σ) : σ :=
  (List.range (hi - lo + 1).toNat).foldl
    (fun (acc : σ) (k : Nat) => body (hi - (k : Int)) acc) s

/-- The loop `for (i = lo; i < hi; i += step) s = body(i, s);` for a positive
`step`. -/
def for_loop_step {σ : Type} (lo hi step : Int) (body : Int → σ → σ) (s : σ) :
    σ :=
  (List.range ((hi - lo + step - 1) / step).toNat).foldl
    (fun (acc : σ) (k : Nat) => body (lo + (k : Int) * step) acc) s

/-- The array store `a[i] = v`. -/
def upd {β : Type} (a : Int → β) (i : Int) (v : β) : Int → β :=
  fun j => if j = i then v else a j

/-! ## Base predicates (`is_a` .. `is_t`, `is_n`, `is_gc`) -/

/-- Source `is_a`: both bits of position `n` are clear. -/
def is_a (seq : Bitmap) (n : Int) : Int :=
  let index := n * 2
  if test seq index = 1 ∨ test seq (index + 1) = 1 then 0 else 1

/-- Source `is_c`: first bit clear, second bit set. -/
def is_c (seq : Bitmap) (n : Int) : Int :=
  let index := n * 2
  if test seq index = 1 ∨ test seq (index + 1) = 0 then 0 else 1

/-- Source `is_g`: first bit set, second bit clear. -/
def is_g (seq : Bitmap) (n : Int) : Int :=
  let index := n * 2
  if test seq index = 0 ∨ test seq (index + 1) = 1 then 0 else 1

/-- Source `is_t`: both bits set. -/
def is_t (seq : Bitmap) (n : Int) : Int :=
  let index := n * 2
  if test seq index = 0 ∨ test seq (index + 1) = 0 then 0 else 1

/-- Source `is_n`: the ambiguity bit of position `n`. -/
def is_n (useq : Bitmap) (n : Int) : Int :=
  if test useq n = 0 then 0 else 1

/-- Source `is_gc`: the two bits of position `n` differ. -/
def is_gc (seq : Bitmap) (n : Int) : Int :=
  let index := n * 2
  if test seq index ≠ test seq (index + 1) then 1 else 0

/-! ## Codon classification -/

/-- Source `is_stop`. -/
def is_stop (seq : Bitmap) (n : Int) (trans_table : Int) : Int :=
  first_return [
    -- TAG: Not a stop in genetic codes 6, 15, 16, and 22
    if is_t seq n = 1 ∧ is_a seq (n + 1) = 1 ∧ is_g seq (n + 2) = 1 then
      (if trans_table = 6 ∨ trans_table = 15 ∨
          trans_table = 16 ∨ trans_table = 22 then some 0 else some 1)
    else none,
    -- TGA: Not a stop in genetic codes 2-5, 9-10, 13-14, 21, 24-25
    if is_t seq n = 1 ∧ is_g seq (n + 1) = 1 ∧ is_a seq (n + 2) = 1 then
      (if (trans_table ≥ 2 ∧ trans_table ≤ 5) ∨
          trans_table = 9 ∨ trans_table = 10 ∨
          trans_table = 13 ∨ trans_table = 14 ∨
          trans_table = 21 ∨ trans_table = 24 ∨
          trans_table = 25 then some 0 else some 1)
    else none,
    -- TAA: Not a stop in genetic codes 6 and 14
    if is_t seq n = 1 ∧ is_a seq (n + 1) = 1 ∧ is_a seq (n + 2) = 1 then
      (if trans_table = 6 ∨ trans_table = 14 then some 0 else some 1)
    else none,
    -- Code 2
    if trans_table = 2 ∧ is_a seq n = 1 ∧ is_g seq (n + 1) = 1 ∧
       is_a seq (n + 2) = 1 then some 1 else none,
    if trans_table = 2 ∧ is_a seq n = 1 ∧ is_g seq (n + 1) = 1 ∧
       is_g seq (n + 2) = 1 then some 1 else none,
    -- Code 22
    if trans_table = 22 ∧ is_t seq n = 1 ∧ is_c seq (n + 1) = 1 ∧
       is_a seq (n + 2) = 1 then some 1 else none,
    -- Code 23
    if trans_table = 23 ∧ is_t seq n = 1 ∧ is_t seq (n + 1) = 1 ∧
       is_a seq (n + 2) = 1 then some 1 else none
  ] 0

/-- Source `is_start`: only ATG/GTG/TTG are ever starts. -/
def is_start (seq : Bitmap) (n : Int) (trans_table : Int) : Int :=
  first_return [
    -- ATG: Always a start codon
    if is_a seq n = 1 ∧ is_t seq (n + 1) = 1 ∧ is_g seq (n + 2) = 1 then
      some 1
    else none,
    -- GTG: Start codon in 2/4/5/9/11/13/21/23/24/25
    if is_g seq n = 1 ∧ is_t seq (n + 1) = 1 ∧ is_g seq (n + 2) = 1 then
      (if trans_table = 2 ∨ trans_table = 4 ∨
          trans_table = 5 ∨ trans_table = 9 ∨
          trans_table = 11 ∨ trans_table = 13 ∨
          trans_table = 21 ∨ trans_table = 23 ∨
          trans_table = 24 ∨ trans_table = 25 then some 1 else none)
    else none,
    -- TTG: Start codon in 4/5/11/13/24/25
    if is_t seq n = 1 ∧ is_t seq (n + 1) = 1 ∧ is_g seq (n + 2) = 1 then
      (if trans_table = 4 ∨ trans_table = 5 ∨
          trans_table = 11 ∨ trans_table = 13 ∨
          trans_table = 24 ∨ trans_table = 25 then some 1 else none)
    else none
  ] 0

/-- Source `amino`, the statements for codons starting with T (source lines
747-820), in source order. -/
def amino_t (seq : Bitmap) (n : Int) (trans_table : Int) : List (Option Char) :=
  [
    if is_t seq n = 1 ∧ is_t seq (n + 1) = 1 ∧ is_t seq (n + 2) = 1 then
      some 'F' else none,
    if is_t seq n = 1 ∧ is_t seq (n + 1) = 1 ∧ is_c seq (n + 2) = 1 then
      some 'F' else none,
    if is_t seq n = 1 ∧ is_t seq (n + 1) = 1 ∧ is_a seq (n + 2) = 1 then
      some 'L' else none,
    if is_t seq n = 1 ∧ is_t seq (n + 1) = 1 ∧ is_g seq (n + 2) = 1 then
      some 'L' else none,
    if is_t seq n = 1 ∧ is_c seq (n + 1) = 1 then some 'S' else none,
    if is_t seq n = 1 ∧ is_a seq (n + 1) = 1 ∧ is_t seq (n + 2) = 1 then
      some 'Y' else none,
    if is_t seq n = 1 ∧ is_a seq (n + 1) = 1 ∧ is_c seq (n + 2) = 1 then
      some 'Y' else none,
    if is_t seq n = 1 ∧ is_a seq (n + 1) = 1 ∧ is_a seq (n + 2) = 1 then
      (if trans_table = 6 then some 'Q'
       else if trans_table = 14 then some 'Y'
       else none)
    else none,
    if is_t seq n = 1 ∧ is_a seq (n + 1) = 1 ∧ is_g seq (n + 2) = 1 then
      (if trans_table = 6 ∨ trans_table = 15 then some 'Q'
       else if trans_table = 16 ∨ trans_table = 22 then some 'L'
       else none)
    else none,
    if is_t seq n = 1 ∧ is_g seq (n + 1) = 1 ∧ is_t seq (n + 2) = 1 then
      some 'C' else none,
    if is_t seq n = 1 ∧ is_g seq (n + 1) = 1 ∧ is_c seq (n + 2) = 1 then
      some 'C' else none,
    if is_t seq n = 1 ∧ is_g seq (n + 1) = 1 ∧ is_a seq (n + 2) = 1 then
      (if trans_table = 10 then some 'C'
       else if trans_table = 25 then some 'G'
       else some 'W')
    else none,
    if is_t seq n = 1 ∧ is_g seq (n + 1) = 1 ∧ is_g seq (n + 2) = 1 then
      some 'W' else none
  ]

/-- Source `amino`, the statements for codons starting with C (source lines
821-880), in source order. -/
def amino_c (seq : Bitmap) (n : Int) (trans_table : Int) : List (Option Char) :=
  [
    if is_c seq n = 1 ∧ is_t seq (n + 1) = 1 ∧ is_t seq (n + 2) = 1 then
      (if trans_table = 3 then some 'T' else some 'L')
    else none,
    if is_c seq n = 1 ∧ is_t seq (n + 1) = 1 ∧ is_c seq (n + 2) = 1 then
      (if trans_table = 3 then some 'T' else some 'L')
    else none,
    if is_c seq n = 1 ∧ is_t seq (n + 1) = 1 ∧ is_a seq (n + 2) = 1 then
      (if trans_table = 3 then some 'T' else some 'L')
    else none,
    if is_c seq n = 1 ∧ is_t seq (n + 1) = 1 ∧ is_g seq (n + 2) = 1 then
      (if trans_table = 3 then some 'T'
       else if trans_table = 12 then some 'S'
       else some 'L')
    else none,
    if is_c seq n = 1 ∧ is_c seq (n + 1) = 1 then some 'P' else none,
    if is_c seq n = 1 ∧ is_a seq (n + 1) = 1 ∧ is_t seq (n + 2) = 1 then
      some 'H' else none,
    if is_c seq n = 1 ∧ is_a seq (n + 1) = 1 ∧ is_c seq (n + 2) = 1 then
      some 'H' else none,
    if is_c seq n = 1 ∧ is_a seq (n + 1) = 1 ∧ is_a seq (n + 2) = 1 then
      some 'Q' else none,
    if is_c seq n = 1 ∧ is_a seq (n + 1) = 1 ∧ is_g seq (n + 2) = 1 then
      some 'Q' else none,
    if is_c seq n = 1 ∧ is_g seq (n + 1) = 1 then some 'R' else none
  ]

/-- Source `amino`, the statements for codons starting with A (source lines
881-966), in source order. -/
def amino_a (seq : Bitmap) (n : Int) (trans_table : Int) : List (Option Char) :=
  [
    if is_a seq n = 1 ∧ is_t seq (n + 1) = 1 ∧ is_t seq (n + 2) = 1 then
      some 'I' else none,
    if is_a seq n = 1 ∧ is_t seq (n + 1) = 1 ∧ is_c seq (n + 2) = 1 then
      some 'I' else none,
    if is_a seq n = 1 ∧ is_t seq (n + 1) = 1 ∧ is_a seq (n + 2) = 1 then
      (if trans_table = 2 ∨ trans_table = 3 ∨
          trans_table = 5 ∨ trans_table = 13 ∨
          trans_table = 21 then some 'M' else some 'I')
    else none,
    if is_a seq n = 1 ∧ is_t seq (n + 1) = 1 ∧ is_g seq (n + 2) = 1 then
      some 'M' else none,
    if is_a seq n = 1 ∧ is_c seq (n + 1) = 1 then some 'T' else none,
    if is_a seq n = 1 ∧ is_a seq (n + 1) = 1 ∧ is_t seq (n + 2) = 1 then
      some 'N' else none,
    if is_a seq n = 1 ∧ is_a seq (n + 1) = 1 ∧ is_c seq (n + 2) = 1 then
      some 'N' else none,
    if is_a seq n = 1 ∧ is_a seq (n + 1) = 1 ∧ is_a seq (n + 2) = 1 then
      (if trans_table = 9 ∨ trans_table = 14 ∨
          trans_table = 21 then some 'N' else some 'K')
    else none,
    if is_a seq n = 1 ∧ is_a seq (n + 1) = 1 ∧ is_g seq (n + 2) = 1 then
      some 'K' else none,
    if is_a seq n = 1 ∧ is_g seq (n + 1) = 1 ∧ is_t seq (n + 2) = 1 then
      some 'S' else none,
    if is_a seq n = 1 ∧ is_g seq (n + 1) = 1 ∧ is_c seq (n + 2) = 1 then
      some 'S' else none,
    if is_a seq n = 1 ∧ is_g seq (n + 1) = 1 ∧ is_a seq (n + 2) = 1 then
      (if trans_table = 13 then some 'G'
       else if trans_table = 5 ∨ trans_table = 9 ∨
               trans_table = 14 ∨ trans_table = 21 ∨
               trans_table = 24 then some 'S'
       else some 'R')
    else none,
    if is_a seq n = 1 ∧ is_g seq (n + 1) = 1 ∧ is_g seq (n + 2) = 1 then
      (if trans_table = 13 then some 'G'
       else if trans_table = 5 ∨ trans_table = 9 ∨
               trans_table = 14 ∨ trans_table = 21 then some 'S'
       else if trans_table = 24 then some 'K'
       else some 'R')
    else none
  ]

/-- Source `amino`, the statements for codons starting with G (source lines
967-994), in source order. -/
def amino_g (seq : Bitmap) (n : Int) : List (Option Char) :=
  [
    if is_g seq n = 1 ∧ is_t seq (n + 1) = 1 then some 'V' else none,
    if is_g seq n = 1 ∧ is_c seq (n + 1) = 1 then some 'A' else none,
    if is_g seq n = 1 ∧ is_a seq (n + 1) = 1 ∧ is_t seq (n + 2) = 1 then
      some 'D' else none,
    if is_g seq n = 1 ∧ is_a seq (n + 1) = 1 ∧ is_c seq (n + 2) = 1 then
      some 'D' else none,
    if is_g seq n = 1 ∧ is_a seq (n + 1) = 1 ∧ is_a seq (n + 2) = 1 then
      some 'E' else none,
    if is_g seq n = 1 ∧ is_a seq (n + 1) = 1 ∧ is_g seq (n + 2) = 1 then
      some 'E' else none,
    if is_g seq n = 1 ∧ is_g seq (n + 1) = 1 then some 'G' else none
  ]

/-- Source `amino`: the amino-acid letter of the codon at `n`. The body is the
two opening statements (stop, initiator start) followed by the statement
blocks `amino_t`, `amino_c`, `amino_a`, `amino_g` and the final
`return 'X'`. -/
def amino (seq : Bitmap) (n : Int) (trans_table : Int) (is_init : Int) : Char :=
  first_return
    ([ if is_stop seq n trans_table = 1 then some '*' else none,
       if is_start seq n trans_table = 1 ∧ is_init = 1 then some 'M' else none ]
      ++ amino_t seq n trans_table ++ amino_c seq n trans_table
      ++ amino_a seq n trans_table ++ amino_g seq n)
    'X'

/-! ## GC counting -/

/-- Source `gc_content`, its loop: the final values of the two accumulators
`gc` and `sum` after `for (i = a; i <= b; i++)`. -/
def gc_content_counts (seq : Bitmap) (a b : Int) : Nat × Nat :=
  for_loop a (b + 1)
    (fun i acc =>
      let gc := if is_g seq i = 1 ∨ is_c seq i = 1 then acc.1 + 1 else acc.1
      (gc, acc.2 + 1))
    (0, 0)

/-- Source `gc_content` in exact arithmetic: `gc/sum` (Lean's `0/0 = 0`
stands for the NaN the C code produces on an empty range). -/
def gc_content (seq : Bitmap) (a b : Int) : ℚ :=
  let r := gc_content_counts seq a b
  (r.1 : ℚ) / (r.2 : ℚ)

/-- The GC count of the range `a..b` taken with `is_gc` instead of
`is_g || is_c`: the same loop with the other test. -/
def gc_count_by_is_gc (seq : Bitmap) (a b : Int) : Nat :=
  for_loop a (b + 1) (fun i gc => if is_gc seq i = 1 then gc + 1 else gc) 0

/-! ## Reverse complement -/

/-- Source `reverse_seq`: returns the final contents of `rseq`. The first
loop sets, for every clear bit of `seq`, the mirrored bit of `rseq`; the
second toggles both bits back at the positions flagged in `useq`. -/
def reverse_seq (seq rseq useq : Bitmap) (len : Int) : Bitmap :=
  let slen := len * 2
  let rseq1 := for_loop 0 slen
    (fun i r =>
      if test seq i = 0 then
        set r (slen - i - 1 + (if Int.tmod i 2 = 0 then -1 else 1))
      else r)
    rseq
  for_loop 0 len
    (fun i r =>
      if test useq i = 1 then
        toggle (toggle r (slen - 1 - i * 2)) (slen - 2 - i * 2)
      else r)
    rseq1

/-! ## Sequence readers: the per-character encoding -/

/-- The part of the reader state the per-character code touches: the two
bitmaps, the bit counter `bctr`, the base counter `len` and `gc_cont`. -/
structure ReadState where
  seq : Bitmap
  useq : Bitmap
  bctr : Int
  len : Int
  gc_cont : Int

/-- Source `read_seq_training`, the body of the loop over the characters of a
sequence line (lines 89-115), for the character `c = line[i]`. -/
def read_seq_training_char (c : Char) (st : ReadState) : ReadState :=
  if c < 'A' ∨ c > 'z' then st
  else
    let st1 : ReadState :=
      if c = 'g' ∨ c = 'G' then
        { st with seq := set st.seq st.bctr, gc_cont := st.gc_cont + 1 }
      else if c = 't' ∨ c = 'T' ∨ c = 'u' ∨ c = 'U' then
        { st with seq := set (set st.seq st.bctr) (st.bctr + 1) }
      else if c = 'c' ∨ c = 'C' then
        { st with seq := set st.seq (st.bctr + 1), gc_cont := st.gc_cont + 1 }
      else if c ≠ 'a' ∧ c ≠ 'A' then
        { st with seq := set st.seq (st.bctr + 1), useq := set st.useq st.len }
      else st
    { st1 with bctr := st1.bctr + 2, len := st1.len + 1 }

/-- Source `next_seq_multi`, the body of the loop over the characters of a
sequence line (lines 252-278), for the character `c = line[i]`. -/
def next_seq_multi_char (c : Char) (st : ReadState) : ReadState :=
  if c < 'A' ∨ c > 'z' then st
  else
    let st1 : ReadState :=
      if c = 'g' ∨ c = 'G' then
        { st with seq := set st.seq st.bctr, gc_cont := st.gc_cont + 1 }
      else if c = 't' ∨ c = 'T' ∨ c = 'u' ∨ c = 'U' then
        { st with seq := set (set st.seq st.bctr) (st.bctr + 1) }
      else if c = 'c' ∨ c = 'C' then
        { st with seq := set st.seq (st.bctr + 1), gc_cont := st.gc_cont + 1 }
      else if c ≠ 'a' ∧ c ≠ 'A' then
        { st with seq := set st.seq (st.bctr + 1), useq := set st.useq st.len }
      else st
    { st1 with bctr := st1.bctr + 2, len := st1.len + 1 }

/-- The reader state on entry: zeroed bitmaps and counters. -/
def read_init : ReadState :=
  { seq := zero_filled, useq := zero_filled, bctr := 0, len := 0, gc_cont := 0 }

/-- Source `read_seq_training`, the loop `for (i = 0; i < strlen(line); i++)`
over one sequence line. -/
def read_seq_training_line (line : List Char) (st : ReadState) : ReadState :=
  line.foldl (fun acc c => read_seq_training_char c acc) st

/-! ## Stop-codon probability -/

/-- Source `prob_stop`, its nest of six two-way loops (lines 623-717): bit `k`
of `codon` is cleared in round 0 and set in round 1 of loop `k`, and `body`
stands for the innermost statements, run on every one of the 64 codons. -/
def codon_loop {σ : Type} (body : Bitmap → σ → σ) (codon : Bitmap) (s : σ) :
    Bitmap × σ :=
  for_loop 0 2 (fun i1 st1 =>
    let c1 := if i1 = 0 then clear st1.1 0 else set st1.1 0
    for_loop 0 2 (fun i2 st2 =>
      let c2 := if i2 = 0 then clear st2.1 1 else set st2.1 1
      for_loop 0 2 (fun i3 st3 =>
        let c3 := if i3 = 0 then clear st3.1 2 else set st3.1 2
        for_loop 0 2 (fun i4 st4 =>
          let c4 := if i4 = 0 then clear st4.1 3 else set st4.1 3
          for_loop 0 2 (fun i5 st5 =>
            let c5 := if i5 = 0 then clear st5.1 4 else set st5.1 4
            for_loop 0 2 (fun i6 st6 =>
              let c6 := if i6 = 0 then clear st6.1 5 else set st6.1 5
              (c6, body c6 st6.2))
              (c5, st5.2))
            (c4, st4.2))
          (c3, st3.2))
        (c2, st2.2))
      (c1, st1.2))
    (codon, s)

/-- Source `prob_stop`, the innermost statements (lines 683-711): the
probability `cprob` of the codon under GC content `gc`, added to `stop_prob`
when the codon is a stop. Doubles are held as exact rationals. -/
def prob_stop_body (tt : Int) (gc : ℚ) (codon : Bitmap) (stop_prob : ℚ) : ℚ :=
  let cprob : ℚ := 1
  let cprob := if is_gc codon 0 = 1 then cprob * (gc / 2) else cprob * ((1 - gc) / 2)
  let cprob := if is_gc codon 1 = 1 then cprob * (gc / 2) else cprob * ((1 - gc) / 2)
  let cprob := if is_gc codon 2 = 1 then cprob * (gc / 2) else cprob * ((1 - gc) / 2)
  if is_stop codon 0 tt = 1 then stop_prob + cprob else stop_prob

/-- Source `prob_stop` in exact arithmetic. The local `codon` starts from a
zeroed array: its six bits are all written before they are read. -/
def prob_stop (tt : Int) (gc : ℚ) : ℚ :=
  let codon := for_loop 0 6 (fun i1 c => clear c i1) zero_filled
  (codon_loop (prob_stop_body tt gc) codon 0).2

/-- The loop nest of `prob_stop` with the probability accumulator replaced by
a counter: the number of codons visited on which `is_stop` answers 1. -/
def prob_stop_visits (tt : Int) : Nat :=
  let codon := for_loop 0 6 (fun i1 c => clear c i1) zero_filled
  (codon_loop (fun c (k : Nat) => if is_stop c 0 tt = 1 then k + 1 else k)
    codon 0).2

/-! ## GC frame plot -/

/-- Source `max_fr`. -/
def max_fr (n1 n2 n3 : Int) : Int :=
  if n1 > n2 then
    if n1 > n3 then 0 else 2
  else
    if n2 > n3 then 1 else 2

/-- Source `calc_most_gc_frame`, lines 1238-1259: the arrays `fwd` and `bwd`
after the three passes of the prefix-sum loops, from zeroed arrays. -/
def gc_frame_sums (seq : Bitmap) (slen : Int) : (Int → Int) × (Int → Int) :=
  for_loop 0 3 (fun i st =>
    for_loop (0 + i) slen (fun j st =>
      let fwd := st.1
      let bwd := st.2
      let fwd := if j < 3 then upd fwd j (is_gc seq j)
                 else upd fwd j (fwd (j - 3) + is_gc seq j)
      let bwd := if j < 3 then upd bwd (slen - j - 1) (is_gc seq (slen - j - 1))
                 else upd bwd (slen - j - 1)
                   (bwd (slen - j + 2) + is_gc seq (slen - j - 1))
      (fwd, bwd)) st)
    (for_loop 0 slen (fun i st => (upd st.1 i 0, upd st.2 i 0))
      (fun _ => 0, fun _ => 0))

/-- Source `calc_most_gc_frame`, lines 1260-1271: the array `tot` of windowed
totals. `WINDOW` is the macro of `sequence.h`. -/
def gc_frame_tot (WINDOW : Int) (seq : Bitmap) (slen : Int) : Int → Int :=
  let fwd := (gc_frame_sums seq slen).1
  let bwd := (gc_frame_sums seq slen).2
  for_loop 0 slen (fun i tot =>
    let tot := upd tot i (fwd i + bwd i - is_gc seq i)
    let tot := if i - Int.tdiv WINDOW 2 ≥ 0 then
        upd tot i (tot i - fwd (i - Int.tdiv WINDOW 2)) else tot
    let tot := if i + Int.tdiv WINDOW 2 < slen then
        upd tot i (tot i - bwd (i + Int.tdiv WINDOW 2)) else tot
    tot)
    (for_loop 0 slen (fun i tot => upd tot i 0) (fun _ => 0))

/-- Source `calc_most_gc_frame`: the returned array `gp`. -/
def calc_most_gc_frame (WINDOW : Int) (seq : Bitmap) (slen : Int) : Int → Int :=
  let tot := gc_frame_tot WINDOW seq slen
  for_loop_step 0 (slen - 2) 3 (fun i gp =>
    let win := max_fr (tot i) (tot (i + 1)) (tot (i + 2))
    for_loop 0 3 (fun j gp => upd gp (i + j) win) gp)
    (for_loop 0 slen (fun i gp => upd gp i (-1)) (fun _ => 0))

/-! ## k-mer background -/

/-- The value a C `int` holds when the exact result of an operation is `x`:
32 bits, two's complement, wrapping around. -/
def int32 (x : Int) : Int := (x + 2147483648) % 4294967296 - 2147483648

/-- Source `mer_index`. The `int` `index` is held as its 32-bit pattern, a
`Nat` below `2^32` on which `|=` is the bitwise or; the pattern of
`test(..) << i` loses what is shifted beyond bit 31; the value returned is
the signed reading `int32` of the pattern. -/
def mer_index (len : Int) (seq : Bitmap) (pos : Int) : Int :=
  int32 ((for_loop 0 (int32 (2 * len))
    (fun i (index : Nat) =>
      (index ||| ((test seq (int32 (int32 (pos * 2) + i))).toNat <<< i.toNat))
        % 4294967296) 0 : Nat) : Int)

/-- Source `calc_mer_bg`, lines 1345-1359: the table size, the array `counts`
and the total `glob` after the counting loop. The three are `int`s: each
product, increment and sum is wrapped by `int32`. -/
def calc_mer_bg_counts (len : Int) (seq rseq : Bitmap) (slen : Int) :
    Int × (Int → Int) × Int :=
  let size := for_loop 1 (len + 1) (fun _ size => int32 (size * 4)) (1 : Int)
  let counts := for_loop 0 size (fun i counts => upd counts i 0) (fun _ => 0)
  let r := for_loop 0 (slen - len + 1) (fun i st =>
      let counts := st.1
      let glob := st.2
      let counts := upd counts (mer_index len seq i)
        (int32 (counts (mer_index len seq i) + 1))
      let counts := upd counts (mer_index len rseq i)
        (int32 (counts (mer_index len rseq i) + 1))
      (counts, int32 (glob + 2)))
    (counts, (0 : Int))
  (size, r.1, r.2)

/-- Source `calc_mer_bg` in exact arithmetic: the final contents of `bg`. -/
def calc_mer_bg (len : Int) (seq rseq : Bitmap) (slen : Int) (bg : Int → ℚ) :
    Int → ℚ :=
  let r := calc_mer_bg_counts len seq rseq slen
  for_loop 0 r.1 (fun i bg =>
    upd bg i (((r.2.1 i : ℚ) * 1) / ((r.2.2 : ℚ) * 1))) bg

/-! ## Shine-Dalgarno scoring -/

/-- Source `imin`. -/
def imin (x y : Int) : Int := if x < y then x else y

/-- Source `shine_dalgarno_exact`, lines 1377-1402: the array `match` (its
doubles 2.0, 3.0, -10.0 held as integers). `match0` is the indeterminate
content of the local array on entry. -/
def sd_exact_match (seq : Bitmap) (pos start : Int) (match0 : Int → Int) :
    Int → Int :=
  let limit := imin 6 (start - 4 - pos)
  let m := for_loop limit 6 (fun i m => upd m i (-10)) match0
  for_loop 0 limit (fun i m =>
    if pos + i < 0 then m
    else if Int.tmod i 3 = 0 ∧ is_a seq (pos + i) = 1 then upd m i 2
    else if Int.tmod i 3 ≠ 0 ∧ is_g seq (pos + i) = 1 then upd m i 3
    else upd m i (-10)) m

/-- Source `shine_dalgarno_exact`, lines 1410-1419: `cur_ctr` and `mism` of
the sub-window of length `i` at offset `j`. -/
def sd_exact_window (m : Int → Int) (i j : Int) : Int × Int :=
  for_loop j (j + i) (fun k st =>
    (st.1 + m k, if m k < 0 then st.2 + 1 else st.2)) (-2, 0)

/-- Source `shine_dalgarno_exact`, lines 1425-1448: `dis_flag`. -/
def sd_exact_dis_flag (rdis i : Int) : Int :=
  if rdis < 5 ∧ i < 5 then 2
  else if rdis < 5 ∧ i ≥ 5 then 1
  else if rdis > 10 ∧ rdis ≤ 12 ∧ i < 5 then 1
  else if rdis > 10 ∧ rdis ≤ 12 ∧ i ≥ 5 then 2
  else if rdis ≥ 13 then 3
  else 0

/-- Source `shine_dalgarno_exact`, lines 1455-1554: the motif table. The last
argument is the value `cur_val` holds on entry, kept when no branch fires. -/
def sd_exact_cur_val (cur_ctr dis_flag cur_val : Int) : Int :=
  if cur_ctr < 6 then 0
  else if cur_ctr = 6 ∧ dis_flag = 2 then 1
  else if cur_ctr = 6 ∧ dis_flag = 3 then 2
  else if cur_ctr = 8 ∧ dis_flag = 3 then 3
  else if cur_ctr = 9 ∧ dis_flag = 3 then 3
  else if cur_ctr = 6 ∧ dis_flag = 1 then 6
  else if cur_ctr = 11 ∧ dis_flag = 3 then 10
  else if cur_ctr = 12 ∧ dis_flag = 3 then 10
  else if cur_ctr = 14 ∧ dis_flag = 3 then 10
  else if cur_ctr = 8 ∧ dis_flag = 2 then 11
  else if cur_ctr = 9 ∧ dis_flag = 2 then 11
  else if cur_ctr = 8 ∧ dis_flag = 1 then 12
  else if cur_ctr = 9 ∧ dis_flag = 1 then 12
  else if cur_ctr = 6 ∧ dis_flag = 0 then 13
  else if cur_ctr = 8 ∧ dis_flag = 0 then 15
  else if cur_ctr = 9 ∧ dis_flag = 0 then 16
  else if cur_ctr = 11 ∧ dis_flag = 2 then 20
  else if cur_ctr = 11 ∧ dis_flag = 1 then 21
  else if cur_ctr = 11 ∧ dis_flag = 0 then 22
  else if cur_ctr = 12 ∧ dis_flag = 2 then 20
  else if cur_ctr = 12 ∧ dis_flag = 1 then 23
  else if cur_ctr = 12 ∧ dis_flag = 0 then 24
  else if cur_ctr = 14 ∧ dis_flag = 2 then 25
  else if cur_ctr = 14 ∧ dis_flag = 1 then 26
  else if cur_ctr = 14 ∧ dis_flag = 0 then 27
  else cur_val

/-- Source `shine_dalgarno_exact`, lines 1410-1554 for the sub-window of
length `i` at offset `j`: `none` when the round ends at a `continue`,
otherwise the class `cur_val` that reaches the weight comparison. -/
def sd_exact_candidate (m : Int → Int) (pos start i j cur_val : Int) :
    Option Int :=
  let w := sd_exact_window m i j
  let cur_ctr := w.1
  let mism := w.2
  if mism > 0 then none
  else
    let rdis := start - (pos + j + i)
    let dis_flag := sd_exact_dis_flag rdis i
    if rdis > 15 ∨ cur_ctr < 6 then none
    else some (sd_exact_cur_val cur_ctr dis_flag cur_val)

/-- Source `shine_dalgarno_exact` and `shine_dalgarno_mm`, the closing
statements of a round (lines 1556-1564, 1718-1726): the new `max_val`. The
weights are any linearly ordered values. -/
def sd_update {α : Type} [LinearOrder α] (rwt : Int → α)
    (cur_val max_val : Int) : Int :=
  if rwt cur_val < rwt max_val then max_val
  else if rwt cur_val = rwt max_val ∧ cur_val < max_val then max_val
  else cur_val

/-- One round of the search loops of either scorer on the state
`(max_val, cur_val)`, given the outcome of the round's candidate code. -/
def sd_round {α : Type} [LinearOrder α] (rwt : Int → α) (cand : Option Int)
    (st : Int × Int) : Int × Int :=
  match cand with
  | none => st
  | some c => (sd_update rwt c st.1, c)

/-- Source `shine_dalgarno_exact`. -/
def shine_dalgarno_exact {α : Type} [LinearOrder α] (seq : Bitmap)
    (pos start : Int) (rwt : Int → α) (match0 : Int → Int) : Int :=
  let limit := imin 6 (start - 4 - pos)
  let m := sd_exact_match seq pos start match0
  (for_loop_down limit 3 (fun i st =>
    for_loop 0 (limit - i + 1) (fun j st =>
      sd_round rwt (sd_exact_candidate m pos start i j st.2) st) st)
    ((0 : Int), (0 : Int))).1

/-- Source `shine_dalgarno_mm`, lines 1581-1616: the array `match` (its
doubles 2.0, 3.0, -2.0, -3.0, -10.0 held as integers). -/
def sd_mm_match (seq : Bitmap) (pos start : Int) (match0 : Int → Int) :
    Int → Int :=
  let limit := imin 6 (start - 4 - pos)
  let m := for_loop limit 6 (fun i m => upd m i (-10)) match0
  for_loop 0 limit (fun i m =>
    if pos + i < 0 then m
    else if Int.tmod i 3 = 0 then
      (if is_a seq (pos + i) = 1 then upd m i 2 else upd m i (-3))
    else
      (if is_g seq (pos + i) = 1 then upd m i 3 else upd m i (-2))) m

/-- Source `shine_dalgarno_mm`, lines 1624-1637: `cur_ctr` and `mism` of the
sub-window of length `i` at offset `j`, a mismatch within two positions of
either end costing 10 more. -/
def sd_mm_window (m : Int → Int) (i j : Int) : Int × Int :=
  for_loop j (j + i) (fun k st =>
    let cur_ctr := st.1 + m k
    let mism := if m k < 0 then st.2 + 1 else st.2
    let cur_ctr := if m k < 0 ∧ (k ≤ j + 1 ∨ k ≥ j + i - 2) then cur_ctr - 10
                   else cur_ctr
    (cur_ctr, mism)) (-2, 0)

/-- Source `shine_dalgarno_mm`, lines 1643-1658: `dis_flag`. -/
def sd_mm_dis_flag (rdis : Int) : Int :=
  if rdis < 5 then 1
  else if rdis > 10 ∧ rdis ≤ 12 then 2
  else if rdis ≥ 13 then 3
  else 0

/-- Source `shine_dalgarno_mm`, lines 1665-1716: the motif table. The last
argument is the value `cur_val` holds on entry, kept when no branch fires. -/
def sd_mm_cur_val (cur_ctr dis_flag cur_val : Int) : Int :=
  if cur_ctr < 6 then 0
  else if cur_ctr = 6 ∧ dis_flag = 3 then 2
  else if cur_ctr = 7 ∧ dis_flag = 3 then 2
  else if cur_ctr = 9 ∧ dis_flag = 3 then 3
  else if cur_ctr = 6 ∧ dis_flag = 2 then 4
  else if cur_ctr = 6 ∧ dis_flag = 1 then 5
  else if cur_ctr = 6 ∧ dis_flag = 0 then 9
  else if cur_ctr = 7 ∧ dis_flag = 2 then 7
  else if cur_ctr = 7 ∧ dis_flag = 1 then 8
  else if cur_ctr = 7 ∧ dis_flag = 0 then 14
  else if cur_ctr = 9 ∧ dis_flag = 2 then 17
  else if cur_ctr = 9 ∧ dis_flag = 1 then 18
  else if cur_ctr = 9 ∧ dis_flag = 0 then 19
  else cur_val

/-- Source `shine_dalgarno_mm`, lines 1624-1716 for the sub-window of length
`i` at offset `j`: `none` when the round ends at a `continue`, otherwise the
class `cur_val` that reaches the weight comparison. -/
def sd_mm_candidate (m : Int → Int) (pos start i j cur_val : Int) :
    Option Int :=
  let w := sd_mm_window m i j
  let cur_ctr := w.1
  let mism := w.2
  if mism ≠ 1 then none
  else
    let rdis := start - (pos + j + i)
    let dis_flag := sd_mm_dis_flag rdis
    if rdis > 15 ∨ cur_ctr < 6 then none
    else some (sd_mm_cur_val cur_ctr dis_flag cur_val)

/-- Source `shine_dalgarno_mm`. -/
def shine_dalgarno_mm {α : Type} [LinearOrder α] (seq : Bitmap)
    (pos start : Int) (rwt : Int → α) (match0 : Int → Int) : Int :=
  let limit := imin 6 (start - 4 - pos)
  let m := sd_mm_match seq pos start match0
  (for_loop_down limit 5 (fun i st =>
    for_loop 0 (limit - i + 1) (fun j st =>
      sd_round rwt (sd_mm_candidate m pos start i j st.2) st) st)
    ((0 : Int), (0 : Int))).1

/-! ## Reference data for the statements -/

/-- The four bases. -/
inductive Base
  | A | C | G | T
  deriving DecidableEq, Repr

/-- The source predicate that recognises base `b`. -/
def base_pred (b : Base) (seq : Bitmap) (n : Int) : Int :=
  match b with
  | .A => is_a seq n
  | .C => is_c seq n
  | .G => is_g seq n
  | .T => is_t seq n

/-- The codon at `n` reads `b1 b2 b3` according to the source predicates. -/
abbrev codon_is (seq : Bitmap) (n : Int) (b1 b2 b3 : Base) : Prop :=
  base_pred b1 seq n = 1 ∧ base_pred b2 seq (n + 1) = 1 ∧
    base_pred b3 seq (n + 2) = 1

/-- Watson-Crick complement. -/
def Base.complement : Base → Base
  | .A => .T
  | .C => .G
  | .G => .C
  | .T => .A

/-- Rank of a base in the order T, C, A, G in which NCBI prints its
translation tables. -/
def ncbi_rank : Base → Nat
  | .T => 0
  | .C => 1
  | .A => 2
  | .G => 3

/-- NCBI translation table 1 (the standard code), the `AAs` line as
published: codons in the order TTT, TTC, TTA, TTG, TCT, ... GGG. -/
def ncbi_table1 : List Char :=
  "FFLLSSSSYY**CC*WLLLLPPPPHHQQRRRRIIIMTTTTNNKKSSRRVVVVAAAADDEEGGGG".toList

/-- The standard genetic code, read off `ncbi_table1`. -/
def standard_code (b1 b2 b3 : Base) : Char :=
  ncbi_table1.getD (16 * ncbi_rank b1 + 4 * ncbi_rank b2 + ncbi_rank b3) 'X'

/-- Packs a list of bases the way the sequence readers do: A = (0,0),
C = (0,1), G = (1,0), T = (1,1), position `k` in bits `2k` and `2k+1`. -/
def pack (bs : List Base) : Bitmap := fun j =>
  if j < 0 then false
  else match bs.get? (j / 2).toNat with
    | some .C => j % 2 = 1
    | some .G => j % 2 = 0
    | some .T => true
    | _ => false

/-- The twenty amino-acid letters, the ones `amino_num` maps to 0..19. -/
def amino_letters : List Char := "ACDEFGHIKLMNPQRSTVWY".toList

/-- The sequence ATGAAATAG, packed. -/
def seq_ATGAAATAG : Bitmap :=
  pack [.A, .T, .G, .A, .A, .A, .T, .A, .G]

/-- The sequence TAGTGATAA (the three standard stop codons), packed. -/
def seq_TAGTGATAA : Bitmap :=
  pack [.T, .A, .G, .T, .G, .A, .T, .A, .A]

/-- The sequence GTGTTG, packed. -/
def seq_GTGTTG : Bitmap :=
  pack [.G, .T, .G, .T, .T, .G]

/-- The one-base sequence the readers store for a lone `N`: the bit pair of
C, to go with the ambiguity map `useq_N`. -/
def seq_N : Bitmap := pack [.C]

/-- The ambiguity map flagging position 0 only. -/
def useq_N : Bitmap := set zero_filled 0

/-- The sequence ACGT, packed. -/
def seq_ACGT : Bitmap := pack [.A, .C, .G, .T]

/-- The ambiguity map flagging position 1 only. -/
def useq_flag1 : Bitmap := set zero_filled 1

/-- The ambiguity map flagging position 2 only (`useq_flag1` mirrored in a
sequence of length 4). -/
def useq_flag2 : Bitmap := set zero_filled 2

/-- The table ids the codon routines test for: 1..6, 9..16 and 21..25. -/
def special_tables : List Int :=
  [1, 2, 3, 4, 5, 6, 9, 10, 11, 12, 13, 14, 15, 16, 21, 22, 23, 24, 25]

/-- The encoding table of the sequence readers, as (first bit, second bit,
ambiguity bit): a/A, c/C, g/G, t/T/u/U, and every other symbol. -/
def stored_code (c : Char) : Int × Int × Int :=
  if c = 'a' ∨ c = 'A' then (0, 0, 0)
  else if c = 'c' ∨ c = 'C' then (0, 1, 0)
  else if c = 'g' ∨ c = 'G' then (1, 0, 0)
  else if c = 't' ∨ c = 'T' ∨ c = 'u' ∨ c = 'U' then (1, 1, 0)
  else (0, 1, 1)

/-- The base whose bit pair `stored_code` gives to a symbol: C for every
symbol other than a, c, g, t, u. -/
def stored_base (c : Char) : Base :=
  if c = 'a' ∨ c = 'A' then .A
  else if c = 'c' ∨ c = 'C' then .C
  else if c = 'g' ∨ c = 'G' then .G
  else if c = 't' ∨ c = 'T' ∨ c = 'u' ∨ c = 'U' then .T
  else .C

/-- The bits that are set to hold base `b` in the pair starting at bit
`bctr`. -/
def store_base (b : Base) (seq : Bitmap) (bctr : Int) : Bitmap :=
  match b with
  | .A => seq
  | .C => set seq (bctr + 1)
  | .G => set seq bctr
  | .T => set (set seq bctr) (bctr + 1)

/-- The 64 codons. -/
def all_codons : List (Base × Base × Base) :=
  [Base.T, Base.C, Base.A, Base.G].flatMap fun b1 =>
    [Base.T, Base.C, Base.A, Base.G].flatMap fun b2 =>
      [Base.T, Base.C, Base.A, Base.G].map fun b3 => (b1, b2, b3)

/-- The number of the 64 codons on which `is_stop` answers 1 under table
`tt`. -/
def stop_count (tt : Int) : Nat :=
  all_codons.countP fun c => is_stop (pack [c.1, c.2.1, c.2.2]) 0 tt = 1

/-- The recurrences the prefix-sum arrays `fwd` and `bwd` of
`calc_most_gc_frame` obey on `0 .. slen-1`: each entry is the `is_gc` of its
position plus the entry three positions before (`fwd`) or after (`bwd`). -/
def gc_sums_rec (seq : Bitmap) (slen : Int)
    (st : (Int → Int) × (Int → Int)) : Prop :=
  (∀ j, 0 ≤ j → j < slen →
    st.1 j = if j < 3 then is_gc seq j else st.1 (j - 3) + is_gc seq j) ∧
  (∀ k, 0 ≤ k → k < slen →
    st.2 k = if slen - k - 1 < 3 then is_gc seq k
             else st.2 (k + 3) + is_gc seq k)

/-- The sequence with G at every position. -/
def seq_all_G : Bitmap := fun j => j % 2 = 0

/-- The number of offsets `i` in `0 .. slen-len` with
`mer_index(len, seq, i) = b`. -/
def mer_count (len : Int) (seq : Bitmap) (slen : Int) (b : Int) : Nat :=
  (List.range (slen - len + 1).toNat).countP
    fun (i : Nat) => mer_index len seq (i : Int) = b

/-- What the search loops of either scorer keep true of the state
`(max_val, cur_val)`, for the rounds `(i, j)` in `S` done so far: `max_val`
is 0 or the class of a round, weighs at least as much as class 0 and as the
class of every round done, and has the higher index on equal weight. -/
def sd_search_inv {α : Type} [LinearOrder α] (rwt : Int → α)
    (cand : Int → Int → Int → Option Int) (S : Int → Int → Prop)
    (st : Int × Int) : Prop :=
  (st.1 = 0 ∨ ∃ i j cv, S i j ∧ cand i j cv = some st.1) ∧
  rwt 0 ≤ rwt st.1 ∧ (rwt 0 = rwt st.1 → 0 ≤ st.1) ∧
  ∀ i j cv c, S i j → cand i j cv = some c →
    rwt c ≤ rwt st.1 ∧ (rwt c = rwt st.1 → c ≤ st.1)

/-- The sequence AGGAGGTTTTTTATG: the motif AGGAGG at positions 0..5 and a
start codon at position 12. -/
def seq_AGGAGG : Bitmap :=
  pack [.A, .G, .G, .A, .G, .G, .T, .T, .T, .T, .T, .T, .A, .T, .G]

/-- The `match` array of `shine_dalgarno_exact` when the six window
positions are in range: entry `k` scores its motif base (2 for the A of
offsets 0 and 3, 3 for a G elsewhere) when `hit k`, and -10 otherwise. -/
def sd_exact_pattern (hit : Int → Bool) : Int → Int :=
  fun k => if hit k then (if k % 3 = 0 then 2 else 3) else -10

/-- The `match` array of `shine_dalgarno_mm` when the six window positions
are in range: entry `k` scores its motif base when `hit k` and the mismatch
penalty (-3 for a missed A, -2 for a missed G) otherwise. -/
def sd_mm_pattern (hit : Int → Bool) : Int → Int :=
  fun k => if hit k then (if k % 3 = 0 then 2 else 3)
           else (if k % 3 = 0 then -3 else -2)

/-- The hit pattern with the given answers at offsets 0..5. -/
def hits (b0 b1 b2 b3 b4 b5 : Bool) : Int → Bool :=
  fun k => if k = 0 then b0 else if k = 1 then b1 else if k = 2 then b2
    else if k = 3 then b3 else if k = 4 then b4 else b5

/-- The sub-windows `(i, j)` (length, offset) the search loop of
`shine_dalgarno_exact` can visit: `3 ≤ i`, `0 ≤ j`, `i + j ≤ 6`. -/
def sd_exact_windows : List (Int × Int) :=
  [(3, 0), (3, 1), (3, 2), (3, 3), (4, 0), (4, 1), (4, 2), (5, 0), (5, 1),
   (6, 0)]

/-- The sub-windows `(i, j)` the search loop of `shine_dalgarno_mm` can
visit: `5 ≤ i`, `0 ≤ j`, `i + j ≤ 6`. -/
def sd_mm_windows : List (Int × Int) := [(5, 0), (5, 1), (6, 0)]

/-- Offset `k` of the window at `pos` holds its base of the motif AGGAGG: an
A at offsets 0 and 3, a G at offsets 1, 2, 4, 5. -/
def sd_hit (seq : Bitmap) (pos : Int) : Int → Bool :=
  fun k => (k % 3 = 0 ∧ is_a seq (pos + k) = 1) ∨
    (k % 3 ≠ 0 ∧ is_g seq (pos + k) = 1)

/-! ## Further routines and reference data -/

/-- Source `amino_num`: the number 0..19 of an amino-acid letter, -1 for any
other character. -/
def amino_num (aa : Char) : Int :=
  if aa = 'a' ∨ aa = 'A' then 0
  else if aa = 'c' ∨ aa = 'C' then 1
  else if aa = 'd' ∨ aa = 'D' then 2
  else if aa = 'e' ∨ aa = 'E' then 3
  else if aa = 'f' ∨ aa = 'F' then 4
  else if aa = 'g' ∨ aa = 'G' then 5
  else if aa = 'h' ∨ aa = 'H' then 6
  else if aa = 'i' ∨ aa = 'I' then 7
  else if aa = 'k' ∨ aa = 'K' then 8
  else if aa = 'l' ∨ aa = 'L' then 9
  else if aa = 'm' ∨ aa = 'M' then 10
  else if aa = 'n' ∨ aa = 'N' then 11
  else if aa = 'p' ∨ aa = 'P' then 12
  else if aa = 'q' ∨ aa = 'Q' then 13
  else if aa = 'r' ∨ aa = 'R' then 14
  else if aa = 's' ∨ aa = 'S' then 15
  else if aa = 't' ∨ aa = 'T' then 16
  else if aa = 'v' ∨ aa = 'V' then 17
  else if aa = 'w' ∨ aa = 'W' then 18
  else if aa = 'y' ∨ aa = 'Y' then 19
  else -1

/-- The three buffers `reverse_seq` is handed. -/
structure SeqMem where
  seq : Bitmap
  rseq : Bitmap
  useq : Bitmap

/-- Source `reverse_seq` as a transformer of the three buffers: every `set`
and `toggle` of the source is applied to the buffer it names. -/
def reverse_seq_mem (mem : SeqMem) (len : Int) : SeqMem :=
  let slen := len * 2
  let mem1 := for_loop 0 slen
    (fun i (m : SeqMem) =>
      if test m.seq i = 0 then
        { seq := m.seq,
          rseq := set m.rseq
            (slen - i - 1 + (if Int.tmod i 2 = 0 then -1 else 1)),
          useq := m.useq }
      else m)
    mem
  for_loop 0 len
    (fun i (m : SeqMem) =>
      if test m.useq i = 1 then
        { seq := m.seq,
          rseq := toggle (toggle m.rseq (slen - 1 - i * 2)) (slen - 2 - i * 2),
          useq := m.useq }
      else m)
    mem1

/-- The answer of `is_gc` at a position of the sequence, 0 outside
`0 .. slen-1`. -/
def gc_at (seq : Bitmap) (slen p : Int) : Int :=
  if 0 ≤ p ∧ p < slen then is_gc seq p else 0

/-- The naive windowed GC count `T(q)`: the number of positions `p` with
`0 ≤ p < slen`, `p` congruent to `q` modulo 3, `|p - q| < WINDOW/2` and
`is_gc(seq, p) = 1`. -/
def windowed_gc_count (WINDOW : Int) (seq : Bitmap) (slen q : Int) : Nat :=
  ((Finset.range slen.toNat).filter fun (p : Nat) =>
    ((p : Int) - q) % 3 = 0 ∧ |(p : Int) - q| < WINDOW / 2 ∧
      is_gc seq (p : Int) = 1).card

/-- The sequence AGTAGGTTTTTTATG: the motif with a mismatch at offset 2. -/
def seq_AGTAGG : Bitmap :=
  pack [.A, .G, .T, .A, .G, .G, .T, .T, .T, .T, .T, .T, .A, .T, .G]

/-- The sequence ATGAGGTTTTTTATG: the motif with a mismatch at offset 1. -/
def seq_ATGAGG : Bitmap :=
  pack [.A, .T, .G, .A, .G, .G, .T, .T, .T, .T, .T, .T, .A, .T, .G]

/-- The sequence AGGATGTTTTTTATG: the motif with a mismatch at offset 4. -/
def seq_AGGATG : Bitmap :=
  pack [.A, .G, .G, .A, .T, .G, .T, .T, .T, .T, .T, .T, .A, .T, .G]

/-- The sequence with T at every position: both bits of every pair set. -/
def seq_all_T : Bitmap := fun _ => true

/-- The 16-base sequence AAAAAAAAAAAAAAAT: only the two bits of position 15
set. -/
def seq_A15T : Bitmap := set (set zero_filled 30) 31

end Prodigal

namespace Prodigal

/-! ## Base predicates: shared facts -/

/-- At every position exactly one predicate answers 1 and the other three
answer 0. -/
theorem base_cases (seq : Bitmap) (n : Int) :
    (is_a seq n = 1 ∧ is_c seq n = 0 ∧ is_g seq n = 0 ∧ is_t seq n = 0) ∨
    (is_a seq n = 0 ∧ is_c seq n = 1 ∧ is_g seq n = 0 ∧ is_t seq n = 0) ∨
    (is_a seq n = 0 ∧ is_c seq n = 0 ∧ is_g seq n = 1 ∧ is_t seq n = 0) ∨
    (is_a seq n = 0 ∧ is_c seq n = 0 ∧ is_g seq n = 0 ∧ is_t seq n = 1) := by
  simp only [is_a, is_c, is_g, is_t, test]
  by_cases h0 : seq (n * 2) = true <;> by_cases h1 : seq (n * 2 + 1) = true <;>
    simp [h0, h1]

/-- The answer of `is_gc` in terms of the stored bits and of `is_g`, `is_c`. -/
theorem is_gc_facts (seq : Bitmap) (n : Int) :
    (is_gc seq n = 1 ↔ test seq (n * 2) ≠ test seq (n * 2 + 1)) ∧
    (is_gc seq n = 1 ↔ (is_g seq n = 1 ∨ is_c seq n = 1)) ∧
    (is_gc seq n = 1 ∨ is_gc seq n = 0) := by
  simp only [is_gc, is_g, is_c, test]
  by_cases h0 : seq (n * 2) = true <;> by_cases h1 : seq (n * 2 + 1) = true <;>
    simp [h0, h1]

/-- The predicate of a base answers 1 exactly at the positions holding it. -/
theorem base_pred_facts (b : Base) (seq : Bitmap) (n : Int)
    (h : base_pred b seq n = 1) :
    is_a seq n = (if b = Base.A then 1 else 0) ∧
    is_c seq n = (if b = Base.C then 1 else 0) ∧
    is_g seq n = (if b = Base.G then 1 else 0) ∧
    is_t seq n = (if b = Base.T then 1 else 0) := by
  rcases base_cases seq n with ⟨ha, hc, hg, ht⟩ | ⟨ha, hc, hg, ht⟩ |
    ⟨ha, hc, hg, ht⟩ | ⟨ha, hc, hg, ht⟩ <;>
  cases b <;> simp_all [base_pred]

end Prodigal

namespace Prodigal

/-! ## Statement lists and loops: shared facts -/

/-- A statement list whose statements only return values satisfying `ok`,
closed by a `return` of such a value, returns such a value. -/
theorem first_return_mem {α : Type} (ok : α → Prop) (stmts : List (Option α))
    (dflt : α) (h : ∀ s ∈ stmts, ∀ c, s = some c → ok c) (hd : ok dflt) :
    ok (first_return stmts dflt) := by
  induction stmts with
  | nil => simpa [first_return] using hd
  | cons s rest ih =>
    cases hs : s with
    | none =>
      have := ih (fun s' hs' => h s' (List.mem_cons_of_mem _ hs'))
      simpa [first_return, hs] using this
    | some c =>
      have := h s (List.mem_cons_self _ _) c hs
      simpa [first_return, hs] using this

/-- Invariant rule for a counted fold: `P k` holds of the state after `k`
rounds. -/
theorem foldl_range_inv {σ : Type} (f : σ → Nat → σ) (P : Nat → σ → Prop)
    (s : σ) (n : Nat) (h0 : P 0 s)
    (hstep : ∀ k st, k < n → P k st → P (k + 1) (f st k)) :
    P n ((List.range n).foldl f s) := by
  induction n with
  | zero => simpa using h0
  | succ m ih =>
    rw [List.range_succ, List.foldl_append]
    simp only [List.foldl_cons, List.foldl_nil]
    exact hstep m _ (Nat.lt_succ_self m)
      (ih (fun k st hk hP => hstep k st (Nat.lt_succ_of_lt hk) hP))

/-- Invariant rule for `for_loop`: an invariant that holds on entry and is
kept by every round `lo ≤ i < hi` holds on exit, with the exit index. -/
theorem for_loop_inv {σ : Type} (lo hi : Int) (body : Int → σ → σ)
    (P : Int → σ → Prop) (s : σ) (hle : lo ≤ hi) (h0 : P lo s)
    (hstep : ∀ i st, lo ≤ i → i < hi → P i st → P (i + 1) (body i st)) :
    P hi (for_loop lo hi body s) := by
  have key := foldl_range_inv (fun acc k => body (lo + (k : Int)) acc)
    (fun k st => P (lo + (k : Int)) st) s (hi - lo).toNat (by simpa using h0)
    (by
      intro k st hk hP
      have h1 : (k : Int) < hi - lo := by
        have := Int.toNat_of_nonneg (sub_nonneg.mpr hle)
        omega
      have := hstep (lo + k) st (by omega) (by omega) hP
      simpa [add_assoc] using this)
  have h2 : lo + ((hi - lo).toNat : Int) = hi := by
    have := Int.toNat_of_nonneg (sub_nonneg.mpr hle)
    omega
  have key' : P (lo + ((hi - lo).toNat : Int)) (for_loop lo hi body s) := key
  rw [h2] at key'
  exact key'

/-- A `for_loop` whose range is empty leaves the state alone. -/
theorem for_loop_empty {σ : Type} (lo hi : Int) (body : Int → σ → σ) (s : σ)
    (h : hi ≤ lo) : for_loop lo hi body s = s := by
  have : (hi - lo).toNat = 0 := by
    apply Int.toNat_eq_zero.mpr
    omega
  simp [for_loop, this]

/-- Two loops over the same range whose bodies keep a relation between their
states end in related states. -/
theorem for_loop_rel {σ τ : Type} (lo hi : Int) (body : Int → σ → σ)
    (body' : Int → τ → τ) (R : σ → τ → Prop) (s : σ) (t : τ) (h0 : R s t)
    (hstep : ∀ i st st', R st st' → R (body i st) (body' i st')) :
    R (for_loop lo hi body s) (for_loop lo hi body' t) := by
  unfold for_loop
  generalize (List.range (hi - lo).toNat) = l
  induction l generalizing s t with
  | nil => simpa using h0
  | cons k rest ih =>
    exact ih _ _ (hstep _ _ _ h0)

end Prodigal

namespace Prodigal
open Base

/-! ## Codon routines: shared facts -/

/-- A packed triple reads back as itself. -/
theorem codon_is_pack (b1 b2 b3 : Base) :
    codon_is (pack [b1, b2, b3]) 0 b1 b2 b3 := by
  cases b1 <;> cases b2 <;> cases b3 <;> decide

/-- The codon routines read a sequence only through the answers of the base
predicates at `n`, `n+1`, `n+2`: two sequences holding the same codon get the
same answers. -/
theorem codon_routines_congr (seq seq' : Bitmap) (n n' tt init : Int)
    (b1 b2 b3 : Base) (h : codon_is seq n b1 b2 b3)
    (h' : codon_is seq' n' b1 b2 b3) :
    is_stop seq n tt = is_stop seq' n' tt ∧
    is_start seq n tt = is_start seq' n' tt ∧
    amino seq n tt init = amino seq' n' tt init := by
  obtain ⟨h1, h2, h3⟩ := h
  obtain ⟨h1', h2', h3'⟩ := h'
  obtain ⟨a0, c0, g0, t0⟩ := base_pred_facts b1 seq n h1
  obtain ⟨a1, c1, g1, t1⟩ := base_pred_facts b2 seq (n + 1) h2
  obtain ⟨a2, c2, g2, t2⟩ := base_pred_facts b3 seq (n + 2) h3
  obtain ⟨a0', c0', g0', t0'⟩ := base_pred_facts b1 seq' n' h1'
  obtain ⟨a1', c1', g1', t1'⟩ := base_pred_facts b2 seq' (n' + 1) h2'
  obtain ⟨a2', c2', g2', t2'⟩ := base_pred_facts b3 seq' (n' + 2) h3'
  simp only [amino, amino_t, amino_c, amino_a, amino_g, is_stop, is_start,
    a0, c0, g0, t0, a1, c1, g1, t1, a2, c2, g2, t2,
    a0', c0', g0', t0', a1', c1', g1', t1', a2', c2', g2', t2', and_self]

/-- No codon is both a stop and a start, whatever the table id. -/
theorem stop_start_disjoint (seq : Bitmap) (n tt : Int) :
    ¬ (is_stop seq n tt = 1 ∧ is_start seq n tt = 1) := by
  rcases base_cases seq n with ⟨a0, c0, g0, t0⟩ | ⟨a0, c0, g0, t0⟩ |
    ⟨a0, c0, g0, t0⟩ | ⟨a0, c0, g0, t0⟩ <;>
  rcases base_cases seq (n + 1) with ⟨a1, c1, g1, t1⟩ | ⟨a1, c1, g1, t1⟩ |
    ⟨a1, c1, g1, t1⟩ | ⟨a1, c1, g1, t1⟩ <;>
  rcases base_cases seq (n + 2) with ⟨a2, c2, g2, t2⟩ | ⟨a2, c2, g2, t2⟩ |
    ⟨a2, c2, g2, t2⟩ | ⟨a2, c2, g2, t2⟩ <;>
  simp [is_stop, is_start, first_return, a0, c0, g0, t0, a1, c1, g1, t1,
    a2, c2, g2, t2]

/-- Every statement of the T block of `amino` returns an amino-acid letter. -/
theorem amino_t_letters (seq : Bitmap) (n tt : Int) :
    ∀ s ∈ amino_t seq n tt, ∀ c, s = some c → c ∈ amino_letters := by
  simp only [amino_t, List.forall_mem_cons]
  repeat' apply And.intro
  all_goals first
    | (intro s hs; cases hs)
    | (intro c hc; split_ifs at hc <;> simp_all [amino_letters] <;>
        (subst hc; decide))

/-- Every statement of the C block of `amino` returns an amino-acid letter. -/
theorem amino_c_letters (seq : Bitmap) (n tt : Int) :
    ∀ s ∈ amino_c seq n tt, ∀ c, s = some c → c ∈ amino_letters := by
  simp only [amino_c, List.forall_mem_cons]
  repeat' apply And.intro
  all_goals first
    | (intro s hs; cases hs)
    | (intro c hc; split_ifs at hc <;> simp_all [amino_letters] <;>
        (subst hc; decide))

/-- Every statement of the A block of `amino` returns an amino-acid letter. -/
theorem amino_a_letters (seq : Bitmap) (n tt : Int) :
    ∀ s ∈ amino_a seq n tt, ∀ c, s = some c → c ∈ amino_letters := by
  simp only [amino_a, List.forall_mem_cons]
  repeat' apply And.intro
  all_goals first
    | (intro s hs; cases hs)
    | (intro c hc; split_ifs at hc <;> simp_all [amino_letters] <;>
        (subst hc; decide))

/-- Every statement of the G block of `amino` returns an amino-acid letter. -/
theorem amino_g_letters (seq : Bitmap) (n : Int) :
    ∀ s ∈ amino_g seq n, ∀ c, s = some c → c ∈ amino_letters := by
  simp only [amino_g, List.forall_mem_cons]
  repeat' apply And.intro
  all_goals first
    | (intro s hs; cases hs)
    | (intro c hc; split_ifs at hc; simp_all [amino_letters]; subst hc; decide)

/-- What `amino` returns is `'*'`, an amino-acid letter or `'X'`; it is `'*'`
only through the opening stop test. -/
theorem amino_not_star_of_not_stop (seq : Bitmap) (n tt init : Int)
    (hs : ¬ is_stop seq n tt = 1) : amino seq n tt init ≠ '*' := by
  unfold amino
  apply first_return_mem (fun c => c ≠ '*')
  · intro s hmem c hc
    simp only [List.cons_append, List.nil_append, List.mem_cons,
      List.mem_append] at hmem
    have hl : c ∈ amino_letters → c ≠ '*' := by
      intro h1 h2
      subst h2
      revert h1
      decide
    rcases hmem with rfl | rfl | ((hm | hm) | hm) | hm
    · simp [hs] at hc
    · split_ifs at hc
      · simp only [Option.some.injEq] at hc
        subst hc
        decide
    · exact hl (amino_t_letters seq n tt s hm c hc)
    · exact hl (amino_c_letters seq n tt s hm c hc)
    · exact hl (amino_a_letters seq n tt s hm c hc)
    · exact hl (amino_g_letters seq n s hm c hc)
  · decide

end Prodigal

namespace Prodigal
open Base

/-! ## Claims on the genetic-code routines and the base predicates -/

/-- C1: for table ids 1 and 11 and `is_init = 0`, `amino` agrees with the
standard genetic code (NCBI translation table 1) on each of the 64 codons:
`'*'` for TAA, TAG, TGA and the standard letter for the other 61. -/
theorem amino_standard_code (seq : Bitmap) (n tt : Int) (b1 b2 b3 : Base)
    (htt : tt = 1 ∨ tt = 11) (h : codon_is seq n b1 b2 b3) :
    amino seq n tt 0 = standard_code b1 b2 b3 := by
  rw [(codon_routines_congr seq (pack [b1, b2, b3]) n 0 tt 0 b1 b2 b3 h
    (codon_is_pack b1 b2 b3)).2.2]
  rcases htt with rfl | rfl <;> cases b1 <;> cases b2 <;> cases b3 <;> decide

/-- Witness for C1: AAA at position 3 of ATGAAATAG under table 11 is `'K'`. -/
theorem amino_standard_code_witness :
    codon_is seq_ATGAAATAG 3 A A A ∧ standard_code A A A = 'K' ∧
      amino seq_ATGAAATAG 3 11 0 = standard_code A A A :=
  ⟨by decide, by decide,
    amino_standard_code seq_ATGAAATAG 3 11 A A A (Or.inr rfl) (by decide)⟩

/-- C2: for every table id, `is_stop` answers 1 on TAG iff the id is not in
{6,15,16,22}, on TGA iff it is not in {2,3,4,5,9,10,13,14,21,24,25}, and on
TAA iff it is not in {6,14}. -/
theorem is_stop_standard_stops (seq : Bitmap) (n tt : Int) :
    (codon_is seq n T A G →
      (is_stop seq n tt = 1 ↔ tt ∉ ([6, 15, 16, 22] : List Int))) ∧
    (codon_is seq n T G A →
      (is_stop seq n tt = 1 ↔
        tt ∉ ([2, 3, 4, 5, 9, 10, 13, 14, 21, 24, 25] : List Int))) ∧
    (codon_is seq n T A A →
      (is_stop seq n tt = 1 ↔ tt ∉ ([6, 14] : List Int))) := by
  refine ⟨?_, ?_, ?_⟩ <;>
  · rintro ⟨h1, h2, h3⟩
    obtain ⟨a0, c0, g0, t0⟩ := base_pred_facts _ seq n h1
    obtain ⟨a1, c1, g1, t1⟩ := base_pred_facts _ seq (n + 1) h2
    obtain ⟨a2, c2, g2, t2⟩ := base_pred_facts _ seq (n + 2) h3
    simp [is_stop, first_return, a0, c0, g0, t0, a1, c1, g1, t1, a2, c2, g2, t2]
    split_ifs with hc <;> first | (simp; done) | (simp; omega)

/-- Witness for C2: TAG, TGA and TAA of TAGTGATAA under tables 11, 4, 6. -/
theorem is_stop_standard_stops_witness :
    (is_stop seq_TAGTGATAA 0 11 = 1 ↔ (11 : Int) ∉ ([6, 15, 16, 22] : List Int)) ∧
    (is_stop seq_TAGTGATAA 3 4 = 1 ↔
      (4 : Int) ∉ ([2, 3, 4, 5, 9, 10, 13, 14, 21, 24, 25] : List Int)) ∧
    (is_stop seq_TAGTGATAA 6 6 = 1 ↔ (6 : Int) ∉ ([6, 14] : List Int)) :=
  ⟨(is_stop_standard_stops seq_TAGTGATAA 0 11).1 (by decide),
   (is_stop_standard_stops seq_TAGTGATAA 3 4).2.1 (by decide),
   (is_stop_standard_stops seq_TAGTGATAA 6 6).2.2 (by decide)⟩

/-- C3: for every table id and every codon, `is_start` answers 1 exactly when
the codon is ATG, or GTG with the id in {2,4,5,9,11,13,21,23,24,25}, or TTG
with the id in {4,5,11,13,24,25}; on every other codon it answers 0. -/
theorem is_start_iff (seq : Bitmap) (n tt : Int) :
    (is_start seq n tt = 1 ↔
      codon_is seq n A T G ∨
      (codon_is seq n G T G ∧
        tt ∈ ([2, 4, 5, 9, 11, 13, 21, 23, 24, 25] : List Int)) ∨
      (codon_is seq n T T G ∧ tt ∈ ([4, 5, 11, 13, 24, 25] : List Int))) ∧
    (is_start seq n tt = 1 ∨ is_start seq n tt = 0) := by
  rcases base_cases seq n with ⟨a0, c0, g0, t0⟩ | ⟨a0, c0, g0, t0⟩ |
    ⟨a0, c0, g0, t0⟩ | ⟨a0, c0, g0, t0⟩ <;>
  rcases base_cases seq (n + 1) with ⟨a1, c1, g1, t1⟩ | ⟨a1, c1, g1, t1⟩ |
    ⟨a1, c1, g1, t1⟩ | ⟨a1, c1, g1, t1⟩ <;>
  rcases base_cases seq (n + 2) with ⟨a2, c2, g2, t2⟩ | ⟨a2, c2, g2, t2⟩ |
    ⟨a2, c2, g2, t2⟩ | ⟨a2, c2, g2, t2⟩ <;>
  simp only [is_start, first_return, codon_is, base_pred, a0, c0, g0, t0, a1,
    c1, g1, t1, a2, c2, g2, t2] <;>
  simp <;> split_ifs <;> simp_all

/-- C4: for every table id and every codon, `is_stop` and `is_start` never
both answer 1. -/
theorem is_stop_is_start_never_both (seq : Bitmap) (n tt : Int) :
    ¬ (is_stop seq n tt = 1 ∧ is_start seq n tt = 1) :=
  stop_start_disjoint seq n tt

/-- C5: for every table id, codon and `is_init`, `amino` returns `'*'` if and
only if `is_stop` answers 1 for that codon and table. -/
theorem amino_star_iff_is_stop (seq : Bitmap) (n tt init : Int) :
    amino seq n tt init = '*' ↔ is_stop seq n tt = 1 := by
  constructor
  · intro h
    by_contra hs
    exact amino_not_star_of_not_stop seq n tt init hs h
  · intro hs
    simp [amino, first_return, hs]

/-- C6: whenever `is_start` answers 1, `amino` called with `is_init = 1`
returns `'M'`, overriding the codon's ordinary meaning. -/
theorem amino_init_start (seq : Bitmap) (n tt : Int)
    (h : is_start seq n tt = 1) : amino seq n tt 1 = 'M' := by
  have hs : ¬ is_stop seq n tt = 1 := fun hs => stop_start_disjoint seq n tt ⟨hs, h⟩
  simp [amino, first_return, hs, h]

/-- Witness for C6: GTG and TTG under table 11 give `'M'` as initiators and
`'V'`, `'L'` otherwise; ATG at position 0 of ATGAAATAG gives `'M'`. -/
theorem amino_init_start_witness :
    (amino seq_GTGTTG 0 11 1 = 'M' ∧ amino seq_GTGTTG 0 11 0 = 'V') ∧
    (amino seq_GTGTTG 3 11 1 = 'M' ∧ amino seq_GTGTTG 3 11 0 = 'L') ∧
    amino seq_ATGAAATAG 0 11 1 = 'M' :=
  ⟨⟨amino_init_start seq_GTGTTG 0 11 (by decide), by decide⟩,
   ⟨amino_init_start seq_GTGTTG 3 11 (by decide), by decide⟩,
   amino_init_start seq_ATGAAATAG 0 11 (by decide)⟩

/-- C7: at every position exactly one of `is_a`, `is_c`, `is_g`, `is_t`
answers 1 (the other three answer 0), and which one is fixed by the stored
bit pair alone. -/
theorem exactly_one_base_pred (seq : Bitmap) (n : Int) :
    ((is_a seq n = 1 ∧ is_c seq n = 0 ∧ is_g seq n = 0 ∧ is_t seq n = 0) ∨
     (is_a seq n = 0 ∧ is_c seq n = 1 ∧ is_g seq n = 0 ∧ is_t seq n = 0) ∨
     (is_a seq n = 0 ∧ is_c seq n = 0 ∧ is_g seq n = 1 ∧ is_t seq n = 0) ∨
     (is_a seq n = 0 ∧ is_c seq n = 0 ∧ is_g seq n = 0 ∧ is_t seq n = 1)) ∧
    (is_a seq n = 1 ↔ test seq (n * 2) = 0 ∧ test seq (n * 2 + 1) = 0) ∧
    (is_c seq n = 1 ↔ test seq (n * 2) = 0 ∧ test seq (n * 2 + 1) = 1) ∧
    (is_g seq n = 1 ↔ test seq (n * 2) = 1 ∧ test seq (n * 2 + 1) = 0) ∧
    (is_t seq n = 1 ↔ test seq (n * 2) = 1 ∧ test seq (n * 2 + 1) = 1) := by
  refine ⟨base_cases seq n, ?_⟩
  simp only [is_a, is_c, is_g, is_t, test]
  by_cases h0 : seq (n * 2) = true <;> by_cases h1 : seq (n * 2 + 1) = true <;>
    simp [h0, h1]

/-- C8: `is_gc` answers 1 iff the two stored bits of the position differ,
which holds iff `is_g` or `is_c` answers 1 there; hence the GC count of any
range taken with `is_gc` equals the one `gc_content` takes with
`is_g || is_c`. -/
theorem is_gc_iff_g_or_c (seq : Bitmap) :
    (∀ n, (is_gc seq n = 1 ↔ test seq (n * 2) ≠ test seq (n * 2 + 1)) ∧
          (is_gc seq n = 1 ↔ (is_g seq n = 1 ∨ is_c seq n = 1)) ∧
          (is_gc seq n = 1 ∨ is_gc seq n = 0)) ∧
    (∀ a b, gc_count_by_is_gc seq a b = (gc_content_counts seq a b).1) := by
  have hpt := is_gc_facts seq
  refine ⟨hpt, ?_⟩
  intro a b
  unfold gc_count_by_is_gc gc_content_counts
  apply for_loop_rel a (b + 1) _ _ (fun (g : Nat) (st : Nat × Nat) => g = st.1)
  · rfl
  · intro i g st hg
    subst hg
    by_cases h : is_gc seq i = 1
    · have := (hpt i).2.1.mp h
      simp [h, this]
    · have : ¬ (is_g seq i = 1 ∨ is_c seq i = 1) := fun h' => h ((hpt i).2.1.mpr h')
      simp [h, this]

end Prodigal

namespace Prodigal
open Base

/-! ## Reverse complement -/

/-- First loop of `reverse_seq` run up to bit `m`: bit `j` of the buffer is
set iff it was set before or it mirrors a clear bit of `seq` below `m`. -/
theorem reverse_seq_loop1 (seq r0 : Bitmap) (len m : Int) (hm : 0 ≤ m) :
    ∀ j, (for_loop 0 m
      (fun i r =>
        if test seq i = 0 then
          set r (len * 2 - i - 1 + (if Int.tmod i 2 = 0 then -1 else 1))
        else r) r0) j = true ↔
      (r0 j = true ∨
        (0 ≤ len * 2 - j - (if j % 2 = 0 then 2 else 0) ∧
         len * 2 - j - (if j % 2 = 0 then 2 else 0) < m ∧
         seq (len * 2 - j - (if j % 2 = 0 then 2 else 0)) = false)) := by
  apply for_loop_inv 0 m _
    (fun k r => ∀ j, r j = true ↔
      (r0 j = true ∨
        (0 ≤ len * 2 - j - (if j % 2 = 0 then 2 else 0) ∧
         len * 2 - j - (if j % 2 = 0 then 2 else 0) < k ∧
         seq (len * 2 - j - (if j % 2 = 0 then 2 else 0)) = false))) r0 hm
  · intro j
    constructor
    · intro h; exact Or.inl h
    · rintro (h | ⟨h1, h2, _⟩)
      · exact h
      · omega
  · intro i st hi0 _ ih j
    have htm : Int.tmod i 2 = i % 2 := Int.tmod_eq_emod hi0 (by decide)
    have hsrc : j = len * 2 - i - 1 + (if i % 2 = 0 then -1 else 1) ↔
        len * 2 - j - (if j % 2 = 0 then 2 else 0) = i := by
      split_ifs <;> omega
    by_cases hsi : seq i = true
    · have ht : ¬ test seq i = 0 := by simp [test, hsi]
      simp only [ht, if_false]
      rw [ih j]
      constructor
      · rintro (h | ⟨h1, h2, h3⟩)
        · exact Or.inl h
        · exact Or.inr ⟨h1, by omega, h3⟩
      · rintro (h | ⟨h1, h2, h3⟩)
        · exact Or.inl h
        · refine Or.inr ⟨h1, ?_, h3⟩
          rcases (show len * 2 - j - (if j % 2 = 0 then 2 else 0) < i ∨
              len * 2 - j - (if j % 2 = 0 then 2 else 0) = i by omega) with h | h
          · exact h
          · rw [h] at h3; rw [h3] at hsi; cases hsi
    · have hsi' : seq i = false := by simpa using hsi
      have ht : test seq i = 0 := by simp [test, hsi']
      simp only [ht, if_true, htm]
      by_cases hj : j = len * 2 - i - 1 + (if i % 2 = 0 then -1 else 1)
      · have hs := hsrc.mp hj
        have : set st (len * 2 - i - 1 + (if i % 2 = 0 then -1 else 1)) j = true :=
          if_pos hj
        simp only [this, true_iff]
        right
        rw [hs]
        exact ⟨hi0, by omega, hsi'⟩
      · have hs : ¬ len * 2 - j - (if j % 2 = 0 then 2 else 0) = i := fun h => hj (hsrc.mpr h)
        have : set st (len * 2 - i - 1 + (if i % 2 = 0 then -1 else 1)) j = st j :=
          if_neg hj
        rw [this, ih j]
        constructor
        · rintro (h | ⟨h1, h2, h3⟩)
          · exact Or.inl h
          · exact Or.inr ⟨h1, by omega, h3⟩
        · rintro (h | ⟨h1, h2, h3⟩)
          · exact Or.inl h
          · exact Or.inr ⟨h1, by omega, h3⟩

/-- Second loop of `reverse_seq` run up to position `m`: bit `j` has been
flipped iff the position it mirrors is below `m` and flagged in `useq`. -/
theorem reverse_seq_loop2 (useq r1 : Bitmap) (len m : Int) (hm : 0 ≤ m) :
    ∀ j, (for_loop 0 m
      (fun i r =>
        if test useq i = 1 then
          toggle (toggle r (len * 2 - 1 - i * 2)) (len * 2 - 2 - i * 2)
        else r) r1) j =
      (if 0 ≤ len - 1 - j / 2 ∧ len - 1 - j / 2 < m ∧ useq (len - 1 - j / 2) = true
        then !(r1 j) else r1 j) := by
  apply for_loop_inv 0 m _
    (fun k r => ∀ j, r j =
      (if 0 ≤ len - 1 - j / 2 ∧ len - 1 - j / 2 < k ∧ useq (len - 1 - j / 2) = true
        then !(r1 j) else r1 j)) r1 hm
  · intro j
    have : ¬ (0 ≤ len - 1 - j / 2 ∧ len - 1 - j / 2 < 0 ∧ useq (len - 1 - j / 2) = true) := by
      rintro ⟨h1, h2, _⟩; omega
    rw [if_neg this]
  · intro i st hi0 _ ih j
    have hpos : (j = len * 2 - 1 - i * 2 ∨ j = len * 2 - 2 - i * 2) ↔ len - 1 - j / 2 = i := by
      omega
    have hne : len * 2 - 1 - i * 2 ≠ len * 2 - 2 - i * 2 := by omega
    by_cases hu : useq i = true
    · have ht : test useq i = 1 := by simp [test, hu]
      simp only [ht, if_true]
      by_cases hj : len - 1 - j / 2 = i
      · have hc : 0 ≤ len - 1 - j / 2 ∧ len - 1 - j / 2 < i + 1 ∧ useq (len - 1 - j / 2) = true := by
          rw [hj]; exact ⟨hi0, by omega, hu⟩
        have hc' : ¬ (0 ≤ len - 1 - j / 2 ∧ len - 1 - j / 2 < i ∧ useq (len - 1 - j / 2) = true) := by
          rintro ⟨_, h2, _⟩; omega
        have ihj := ih j
        simp only [hc', if_false] at ihj
        simp only [hc, and_self, if_true]
        rw [← ihj]
        rcases hpos.mpr hj with h | h
        · have h2 : ¬ j = len * 2 - 2 - i * 2 := by omega
          show (if j = len * 2 - 2 - i * 2 then _ else
            (if j = len * 2 - 1 - i * 2 then !(st j) else st j)) = _
          rw [if_neg h2, if_pos h]
        · show (if j = len * 2 - 2 - i * 2 then
              !(if j = len * 2 - 1 - i * 2 then !(st j) else st j) else _) = _
          have h1 : ¬ j = len * 2 - 1 - i * 2 := by omega
          rw [if_pos h, if_neg h1]
      · have hj1 : j ≠ len * 2 - 1 - i * 2 := fun h => hj (hpos.mp (Or.inl h))
        have hj2 : j ≠ len * 2 - 2 - i * 2 := fun h => hj (hpos.mp (Or.inr h))
        have : toggle (toggle st (len * 2 - 1 - i * 2)) (len * 2 - 2 - i * 2) j = st j := by
          show (if j = len * 2 - 2 - i * 2 then _ else
            (if j = len * 2 - 1 - i * 2 then !(st j) else st j)) = _
          rw [if_neg hj2, if_neg hj1]
        rw [this, ih j]
        have : (len - 1 - j / 2 < i + 1) ↔ (len - 1 - j / 2 < i) := by omega
        simp only [this]
    · have hu' : useq i = false := by simpa using hu
      have ht : ¬ test useq i = 1 := by simp [test, hu']
      simp only [ht, if_false]
      rw [ih j]
      by_cases hj : len - 1 - j / 2 = i
      · have hc : ¬ (0 ≤ len - 1 - j / 2 ∧ len - 1 - j / 2 < i + 1 ∧ useq (len - 1 - j / 2) = true) := by
          rw [hj]; simp [hu']
        have hc' : ¬ (0 ≤ len - 1 - j / 2 ∧ len - 1 - j / 2 < i ∧ useq (len - 1 - j / 2) = true) := by
          rintro ⟨_, h2, _⟩; omega
        simp only [hc, hc', if_false]
      · have : (len - 1 - j / 2 < i + 1) ↔ (len - 1 - j / 2 < i) := by omega
        simp only [this]
/-- Bits of the reverse complement built in a zero-filled buffer: the pair
mirrored from position `i` holds the flipped bits of `seq` at `i` when `i` is
not flagged in `useq`, and the bits of `seq` at `i` unchanged when it is. -/
theorem reverse_seq_bits (seq useq : Bitmap) (len i : Int) (h0 : 0 ≤ i)
    (h1 : i < len) :
    (reverse_seq seq zero_filled useq len) ((len - 1 - i) * 2) =
      (if useq i = true then seq (i * 2) else !(seq (i * 2))) ∧
    (reverse_seq seq zero_filled useq len) ((len - 1 - i) * 2 + 1) =
      (if useq i = true then seq (i * 2 + 1) else !(seq (i * 2 + 1))) := by
  have hlen : 0 ≤ len := by omega
  have hslen : 0 ≤ len * 2 := by omega
  have key : ∀ k, (k = 0 ∨ k = 1) →
      (reverse_seq seq zero_filled useq len) ((len - 1 - i) * 2 + k) =
        (if useq i = true then seq (i * 2 + k) else !(seq (i * 2 + k))) := by
    intro k hk
    unfold reverse_seq
    rw [reverse_seq_loop2 useq _ len len hlen]
    have hp : len - 1 - ((len - 1 - i) * 2 + k) / 2 = i := by omega
    have hsrc : len * 2 - ((len - 1 - i) * 2 + k) -
        (if ((len - 1 - i) * 2 + k) % 2 = 0 then 2 else 0) = i * 2 + k := by
      split_ifs <;> omega
    have hl1 := reverse_seq_loop1 seq zero_filled len (len * 2) hslen
      ((len - 1 - i) * 2 + k)
    rw [hsrc] at hl1
    have hl1' : (for_loop 0 (len * 2)
        (fun i r =>
          if test seq i = 0 then
            set r (len * 2 - i - 1 + (if Int.tmod i 2 = 0 then -1 else 1))
          else r) zero_filled) ((len - 1 - i) * 2 + k) = !(seq (i * 2 + k)) := by
      cases hs : seq (i * 2 + k)
      · have : 0 ≤ i * 2 + k ∧ i * 2 + k < len * 2 := by omega
        simpa [zero_filled, hs, this] using hl1
      · simpa [zero_filled, hs] using hl1
    rw [hl1', hp]
    by_cases hu : useq i = true
    · have : 0 ≤ i ∧ i < len ∧ useq i = true := ⟨h0, h1, hu⟩
      rw [if_pos this, if_pos hu]
      simp
    · have : ¬ (0 ≤ i ∧ i < len ∧ useq i = true) := fun h => hu h.2.2
      rw [if_neg this, if_neg hu]
  have k0 := key 0 (Or.inl rfl)
  have k1 := key 1 (Or.inr rfl)
  simp only [add_zero] at k0
  exact ⟨k0, k1⟩

/-- The base stored by `reverse_seq` at the mirror of `i`: the complement of
the base of `seq` at `i` when `i` is unflagged, the same base when flagged. -/
theorem reverse_seq_base (seq useq : Bitmap) (len i : Int) (h0 : 0 ≤ i)
    (h1 : i < len) (b : Base) (hb : base_pred b seq i = 1) :
    base_pred (if useq i = true then b else b.complement)
      (reverse_seq seq zero_filled useq len) (len - 1 - i) = 1 := by
  obtain ⟨e0, e1⟩ := reverse_seq_bits seq useq len i h0 h1
  by_cases hu : useq i = true
  · simp only [hu, if_true] at e0 e1 ⊢
    cases b <;>
      simp only [base_pred, is_a, is_c, is_g, is_t, test, e0, e1] at hb ⊢ <;>
      exact hb
  · simp only [hu, if_false] at e0 e1 ⊢
    cases b <;>
      simp only [base_pred, Base.complement, is_a, is_c, is_g, is_t, test, e0, e1]
        at hb ⊢ <;>
      by_cases x0 : seq (i * 2) = true <;> by_cases x1 : seq (i * 2 + 1) = true <;>
      simp_all

end Prodigal

namespace Prodigal
open Base

/-! ## Claims on `reverse_seq` -/

/-- C9, as stated, fails at a flagged position: for the one-base sequence
holding C with position 0 flagged as ambiguous, `reverse_seq` leaves C at the
mirrored index 0, not the complement G. -/
theorem reverse_seq_flagged_counterexample :
    is_c seq_N 0 = 1 ∧ is_n useq_N 0 = 1 ∧
    is_g (reverse_seq seq_N zero_filled useq_N 1) 0 = 0 ∧
    is_c (reverse_seq seq_N zero_filled useq_N 1) 0 = 1 := by
  decide

/-- C9 (amended): after `reverse_seq` on a zero-filled `rseq`, for every
position `0 ≤ i < len` that `useq` does not flag, the base stored in `rseq` at
the mirrored index `len-1-i` is the complement of the base of `seq` at `i`. -/
theorem reverse_seq_complement_unflagged (seq useq : Bitmap) (len i : Int)
    (h0 : 0 ≤ i) (h1 : i < len) (hu : test useq i = 0) (b : Base)
    (hb : base_pred b seq i = 1) :
    base_pred b.complement (reverse_seq seq zero_filled useq len)
      (len - 1 - i) = 1 := by
  have hu' : ¬ useq i = true := by
    intro h
    simp [test, h] at hu
  have := reverse_seq_base seq useq len i h0 h1 b hb
  rwa [if_neg hu'] at this

/-- Witness for C9 (amended): in ACGT with only position 1 flagged, the G at
position 2 puts a C at the mirrored position 1. -/
theorem reverse_seq_complement_unflagged_witness :
    base_pred G seq_ACGT 2 = 1 ∧ test useq_flag1 2 = 0 ∧
    base_pred C (reverse_seq seq_ACGT zero_filled useq_flag1 4) (4 - 1 - 2) = 1 :=
  ⟨by decide, by decide,
   reverse_seq_complement_unflagged seq_ACGT useq_flag1 4 2 (by decide)
     (by decide) (by decide) G (by decide)⟩

/-- C10: reverse-complementing twice, each time into a zero-filled buffer and
the second time with the mirrored ambiguity map, gives back at every position
`0 ≤ i < len` the base `seq` holds at `i` (both stored bits, hence the answer
of each base predicate), also at flagged positions. -/
theorem reverse_seq_twice (seq useq useq' : Bitmap) (len : Int)
    (hmir : ∀ j, 0 ≤ j → j < len → test useq' j = test useq (len - 1 - j))
    (i : Int) (h0 : 0 ≤ i) (h1 : i < len) :
    test (reverse_seq (reverse_seq seq zero_filled useq len) zero_filled useq'
      len) (i * 2) = test seq (i * 2) ∧
    test (reverse_seq (reverse_seq seq zero_filled useq len) zero_filled useq'
      len) (i * 2 + 1) = test seq (i * 2 + 1) ∧
    is_a (reverse_seq (reverse_seq seq zero_filled useq len) zero_filled useq'
      len) i = is_a seq i ∧
    is_c (reverse_seq (reverse_seq seq zero_filled useq len) zero_filled useq'
      len) i = is_c seq i ∧
    is_g (reverse_seq (reverse_seq seq zero_filled useq len) zero_filled useq'
      len) i = is_g seq i ∧
    is_t (reverse_seq (reverse_seq seq zero_filled useq len) zero_filled useq'
      len) i = is_t seq i := by
  obtain ⟨a0, a1⟩ := reverse_seq_bits seq useq len i h0 h1
  obtain ⟨b0, b1⟩ := reverse_seq_bits (reverse_seq seq zero_filled useq len)
    useq' len (len - 1 - i) (by omega) (by omega)
  have hidx : len - 1 - (len - 1 - i) = i := by omega
  rw [hidx] at b0 b1
  have hm := hmir (len - 1 - i) (by omega) (by omega)
  rw [hidx] at hm
  have hflag : useq' (len - 1 - i) = useq i := by
    simp only [test] at hm
    by_cases x : useq' (len - 1 - i) = true <;> by_cases y : useq i = true <;>
      simp_all
  rw [hflag, a0] at b0
  rw [hflag, a1] at b1
  have c0 : (reverse_seq (reverse_seq seq zero_filled useq len) zero_filled
      useq' len) (i * 2) = seq (i * 2) := by
    rw [b0]; by_cases y : useq i = true <;> simp [y]
  have c1 : (reverse_seq (reverse_seq seq zero_filled useq len) zero_filled
      useq' len) (i * 2 + 1) = seq (i * 2 + 1) := by
    rw [b1]; by_cases y : useq i = true <;> simp [y]
  simp only [is_a, is_c, is_g, is_t, test, c0, c1, and_self]

/-- Witness for C10: ACGT with position 1 flagged, reversed twice (the second
time with position 2 flagged), holds C again at the flagged position 1. -/
theorem reverse_seq_twice_witness :
    is_c (reverse_seq (reverse_seq seq_ACGT zero_filled useq_flag1 4)
      zero_filled useq_flag2 4) 1 = is_c seq_ACGT 1 :=
  (reverse_seq_twice seq_ACGT useq_flag1 useq_flag2 4
    (by
      intro j hj0 hj4
      have : j = 0 ∨ j = 1 ∨ j = 2 ∨ j = 3 := by omega
      rcases this with rfl | rfl | rfl | rfl <;> decide)
    1 (by decide) (by decide)).2.2.2.1

end Prodigal

namespace Prodigal
open Base

/-! ## Table ids, the readers' encoding, and `amino` on ambiguous codons -/

/-- Every position holds some codon. -/
theorem codon_exists (seq : Bitmap) (n : Int) :
    ∃ b1 b2 b3, codon_is seq n b1 b2 b3 := by
  have key : ∀ m, ∃ b, base_pred b seq m = 1 := by
    intro m
    rcases base_cases seq m with h | h | h | h
    · exact ⟨A, h.1⟩
    · exact ⟨C, h.2.1⟩
    · exact ⟨G, h.2.2.1⟩
    · exact ⟨T, h.2.2.2⟩
  obtain ⟨b1, h1⟩ := key n
  obtain ⟨b2, h2⟩ := key (n + 1)
  obtain ⟨b3, h3⟩ := key (n + 2)
  exact ⟨b1, b2, b3, h1, h2, h3⟩

/-- A table id the routines do not test for is treated as table 1. -/
theorem table_irrelevant (seq : Bitmap) (n tt init : Int)
    (h : tt ∉ special_tables) :
    is_stop seq n tt = is_stop seq n 1 ∧
    is_start seq n tt = is_start seq n 1 ∧
    amino seq n tt init = amino seq n 1 init := by
  simp only [special_tables, List.mem_cons, List.mem_singleton, List.not_mem_nil,
    or_false, not_or] at h
  obtain ⟨h1, h2, h3, h4, h5, h6, h9, h10, h11, h12, h13, h14, h15, h16, h21,
    h22, h23, h24, h25⟩ := h
  have hr : ¬ (tt ≥ 2 ∧ tt ≤ 5) := by omega
  have hs : is_stop seq n tt = is_stop seq n 1 := by
    simp [is_stop, h2, h6, h9, h10, h13, h14, h15, h16, h21, h22, h23, h24, h25, hr]
  have ht : is_start seq n tt = is_start seq n 1 := by
    simp [is_start, h2, h4, h5, h9, h11, h13, h21, h23, h24, h25]
  refine ⟨hs, ht, ?_⟩
  simp [amino, amino_t, amino_c, amino_a, hs, ht, h2, h3, h5, h6, h9, h10, h12,
    h13, h14, h15, h16, h21, h22, h24, h25]

/-- The initiator flag matters to `amino` only through the test `== 1`. -/
theorem amino_init_norm (seq : Bitmap) (n tt init : Int) :
    amino seq n tt init = amino seq n tt (if init = 1 then 1 else 0) := by
  by_cases h : init = 1
  · simp [h]
  · simp [amino, h]

set_option maxRecDepth 100000 in
set_option maxHeartbeats 4000000 in
/-- On each of the 64 codons, under each table id the routines test for and
either value of the initiator test, `amino` does not return `'X'`. -/
theorem amino_pack_never_X (b1 b2 b3 : Base) :
    ∀ tt ∈ special_tables, ∀ init ∈ ([0, 1] : List Int),
      amino (pack [b1, b2, b3]) 0 tt init ≠ 'X' := by
  cases b1 <;> cases b2 <;> cases b3 <;> decide

/-- The closing `return 'X'` of `amino` is never reached. -/
theorem amino_never_X (seq : Bitmap) (n tt init : Int) :
    amino seq n tt init ≠ 'X' := by
  obtain ⟨b1, b2, b3, hc⟩ := codon_exists seq n
  have hinit : (if init = 1 then (1 : Int) else 0) ∈ ([0, 1] : List Int) := by
    split_ifs <;> simp
  rw [amino_init_norm]
  by_cases hS : tt ∈ special_tables
  · rw [(codon_routines_congr seq (pack [b1, b2, b3]) n 0 tt _ b1 b2 b3 hc
      (codon_is_pack b1 b2 b3)).2.2]
    exact amino_pack_never_X b1 b2 b3 tt hS _ hinit
  · rw [(table_irrelevant seq n tt _ hS).2.2,
      (codon_routines_congr seq (pack [b1, b2, b3]) n 0 1 _ b1 b2 b3 hc
        (codon_is_pack b1 b2 b3)).2.2]
    exact amino_pack_never_X b1 b2 b3 1 (by decide) _ hinit

/-- What one character does to the reader state, for a character in the
range `'A'..'z'`: the bit pair of `stored_base` goes to bits `bctr`,
`bctr+1`, the ambiguity bit `len` is set for a symbol other than
a, c, g, t, u, and the two counters advance. -/
theorem read_seq_training_char_eq (c : Char) (st : ReadState)
    (hc : ¬ (c < 'A' ∨ c > 'z')) :
    (read_seq_training_char c st).seq = store_base (stored_base c) st.seq st.bctr ∧
    (read_seq_training_char c st).useq =
      (if (stored_code c).2.2 = 1 then set st.useq st.len else st.useq) ∧
    (read_seq_training_char c st).bctr = st.bctr + 2 ∧
    (read_seq_training_char c st).len = st.len + 1 := by
  simp only [read_seq_training_char, if_neg hc]
  by_cases hg : c = 'g' ∨ c = 'G'
  · rcases hg with rfl | rfl <;> simp [stored_base, stored_code, store_base]
  by_cases ht : c = 't' ∨ c = 'T' ∨ c = 'u' ∨ c = 'U'
  · rcases ht with rfl | rfl | rfl | rfl <;>
      simp [stored_base, stored_code, store_base]
  by_cases hcc : c = 'c' ∨ c = 'C'
  · rcases hcc with rfl | rfl <;> simp [stored_base, stored_code, store_base]
  by_cases ha : c = 'a' ∨ c = 'A'
  · rcases ha with rfl | rfl <;> simp [stored_base, stored_code, store_base]
  · have ha' : c ≠ 'a' ∧ c ≠ 'A' := by
      constructor <;> (intro h; exact ha (by simp [h]))
    simp [stored_base, stored_code, store_base, hg, ht, hcc, ha, ha']

/-- The same for the copy of the loop body in `next_seq_multi`. -/
theorem next_seq_multi_char_eq (c : Char) (st : ReadState) :
    next_seq_multi_char c st = read_seq_training_char c st := rfl

end Prodigal

namespace Prodigal
open Base

/-! ## Claims on the readers' encoding and on the extra stop codons -/

/-- C11, as stated, fails on a symbol other than a, c, g, t, u: both readers
store `N` with the ambiguity bit set and the bit pair (0,1) of C, not the
pair (1,1) of T. -/
theorem encode_other_symbol_counterexample :
    (test (read_seq_training_char 'N' read_init).seq 0 = 0 ∧
     test (read_seq_training_char 'N' read_init).seq 1 = 1 ∧
     test (read_seq_training_char 'N' read_init).useq 0 = 1 ∧
     is_t (read_seq_training_char 'N' read_init).seq 0 = 0 ∧
     is_c (read_seq_training_char 'N' read_init).seq 0 = 1) ∧
    (test (next_seq_multi_char 'N' read_init).seq 0 = 0 ∧
     test (next_seq_multi_char 'N' read_init).seq 1 = 1 ∧
     test (next_seq_multi_char 'N' read_init).useq 0 = 1 ∧
     is_t (next_seq_multi_char 'N' read_init).seq 0 = 0 ∧
     is_c (next_seq_multi_char 'N' read_init).seq 0 = 1) := by
  decide

/-- C11 (amended): on buffers whose next bit pair and ambiguity bit are still
clear, both readers store a/A as (0,0), c/C as (0,1), g/G as (1,0) and
t/T/u/U as (1,1) with the ambiguity bit clear, and every other symbol of the
range `'A'..'z'` with the ambiguity bit set and the C bit pair (0,1); the bit
counter advances by 2 and the base counter by 1. -/
theorem encode_char_stored_code (c : Char) (st : ReadState)
    (hc : ¬ (c < 'A' ∨ c > 'z')) (h0 : st.seq st.bctr = false)
    (h1 : st.seq (st.bctr + 1) = false) (hu : st.useq st.len = false) :
    ((test (read_seq_training_char c st).seq st.bctr,
      test (read_seq_training_char c st).seq (st.bctr + 1),
      test (read_seq_training_char c st).useq st.len) = stored_code c ∧
     (read_seq_training_char c st).bctr = st.bctr + 2 ∧
     (read_seq_training_char c st).len = st.len + 1) ∧
    ((test (next_seq_multi_char c st).seq st.bctr,
      test (next_seq_multi_char c st).seq (st.bctr + 1),
      test (next_seq_multi_char c st).useq st.len) = stored_code c ∧
     (next_seq_multi_char c st).bctr = st.bctr + 2 ∧
     (next_seq_multi_char c st).len = st.len + 1) := by
  rw [next_seq_multi_char_eq]
  obtain ⟨e1, e2, e3, e4⟩ := read_seq_training_char_eq c st hc
  refine ⟨⟨?_, e3, e4⟩, ⟨?_, e3, e4⟩⟩ <;>
  · rw [e1, e2]
    simp only [stored_base, stored_code]
    split_ifs <;> simp_all [store_base, test, set]

/-- Witness for C11 (amended): `g` read into zeroed buffers is stored as
(1,0) with the ambiguity bit clear. -/
theorem encode_char_stored_code_witness :
    (test (read_seq_training_char 'g' read_init).seq 0,
     test (read_seq_training_char 'g' read_init).seq (0 + 1),
     test (read_seq_training_char 'g' read_init).useq 0) = (1, 0, 0) :=
  (encode_char_stored_code 'g' read_init (by decide) rfl rfl rfl).1.1

/-- C12, as stated, fails: three table ids, not two, have a stop codon
outside TAA, TAG, TGA (table 2 has AGA and AGG, table 22 has TCA, table 23
has TTA). -/
theorem extra_stops_counterexample :
    is_stop (pack [A, G, A]) 0 2 = 1 ∧ is_stop (pack [A, G, G]) 0 2 = 1 ∧
    is_stop (pack [T, C, A]) 0 22 = 1 ∧ is_stop (pack [T, T, A]) 0 23 = 1 := by
  decide

/-- C12 (amended): exactly three table ids make `is_stop` answer 1 on a codon
other than TAA, TAG, TGA: table 2 on AGA and AGG, table 22 on TCA and table
23 on TTA; for every other table id `is_stop` answers 0 on all 61 codons
outside the standard three. -/
theorem is_stop_extra_stops (seq : Bitmap) (n tt : Int)
    (h : ¬ codon_is seq n T A A ∧ ¬ codon_is seq n T A G ∧
      ¬ codon_is seq n T G A) :
    (is_stop seq n tt = 1 ↔
      (tt = 2 ∧ (codon_is seq n A G A ∨ codon_is seq n A G G)) ∨
      (tt = 22 ∧ codon_is seq n T C A) ∨
      (tt = 23 ∧ codon_is seq n T T A)) ∧
    (is_stop seq n tt = 1 ∨ is_stop seq n tt = 0) := by
  obtain ⟨hTAA, hTAG, hTGA⟩ := h
  rcases base_cases seq n with ⟨a0, c0, g0, t0⟩ | ⟨a0, c0, g0, t0⟩ |
    ⟨a0, c0, g0, t0⟩ | ⟨a0, c0, g0, t0⟩ <;>
  rcases base_cases seq (n + 1) with ⟨a1, c1, g1, t1⟩ | ⟨a1, c1, g1, t1⟩ |
    ⟨a1, c1, g1, t1⟩ | ⟨a1, c1, g1, t1⟩ <;>
  rcases base_cases seq (n + 2) with ⟨a2, c2, g2, t2⟩ | ⟨a2, c2, g2, t2⟩ |
    ⟨a2, c2, g2, t2⟩ | ⟨a2, c2, g2, t2⟩ <;>
  simp only [codon_is, base_pred, a0, c0, g0, t0, a1, c1, g1, t1, a2, c2, g2,
    t2] at hTAA hTAG hTGA <;>
  simp only [is_stop, first_return, codon_is, base_pred, a0, c0, g0, t0, a1,
    c1, g1, t1, a2, c2, g2, t2] <;>
  simp at hTAA hTAG hTGA ⊢ <;> split_ifs <;> simp_all

/-- Witness for C12 (amended): TCA is a stop under table 22. -/
theorem is_stop_extra_stops_witness :
    is_stop (pack [T, C, A]) 0 22 = 1 ↔
      ((22 : Int) = 2 ∧ (codon_is (pack [T, C, A]) 0 A G A ∨
        codon_is (pack [T, C, A]) 0 A G G)) ∨
      ((22 : Int) = 22 ∧ codon_is (pack [T, C, A]) 0 T C A) ∨
      ((22 : Int) = 23 ∧ codon_is (pack [T, C, A]) 0 T T A) :=
  (is_stop_extra_stops (pack [T, C, A]) 0 22 (by decide)).1

/-- C13, as stated, fails: three ambiguous symbols `NNN`, read and flagged by
the reader, translate to `'P'` (the codon CCC of their stored bit pairs), not
to `'X'`. -/
theorem amino_ambiguous_counterexample :
    is_n (read_seq_training_line ['N', 'N', 'N'] read_init).useq 0 = 1 ∧
    is_n (read_seq_training_line ['N', 'N', 'N'] read_init).useq 1 = 1 ∧
    is_n (read_seq_training_line ['N', 'N', 'N'] read_init).useq 2 = 1 ∧
    amino (read_seq_training_line ['N', 'N', 'N'] read_init).seq 0 11 0 = 'P' := by
  decide

/-- C13 (amended): for every table id, `amino` does not consult the
ambiguity map: a codon read from three symbols of the range `'A'..'z'`, any
of which may be ambiguous, is translated as the codon of the stored bit
pairs, each ambiguous symbol counting as C, and the result is never `'X'`. -/
theorem amino_ignores_ambiguity (c1 c2 c3 : Char) (tt init : Int)
    (h1 : ¬ (c1 < 'A' ∨ c1 > 'z')) (h2 : ¬ (c2 < 'A' ∨ c2 > 'z'))
    (h3 : ¬ (c3 < 'A' ∨ c3 > 'z')) :
    amino (read_seq_training_line [c1, c2, c3] read_init).seq 0 tt init =
      amino (pack [stored_base c1, stored_base c2, stored_base c3]) 0 tt init ∧
    amino (read_seq_training_line [c1, c2, c3] read_init).seq 0 tt init ≠ 'X' := by
  refine ⟨?_, amino_never_X _ _ _ _⟩
  have hseq : (read_seq_training_line [c1, c2, c3] read_init).seq =
      store_base (stored_base c3)
        (store_base (stored_base c2)
          (store_base (stored_base c1) zero_filled 0) 2) 4 := by
    simp only [read_seq_training_line, List.foldl_cons, List.foldl_nil]
    obtain ⟨a1, _, a3, _⟩ := read_seq_training_char_eq c1 read_init h1
    obtain ⟨b1, _, b3, _⟩ := read_seq_training_char_eq c2 _ h2
    obtain ⟨d1, _, _, _⟩ := read_seq_training_char_eq c3 _ h3
    rw [d1, b1, a1, b3, a3]
    rfl
  have hcod : codon_is (read_seq_training_line [c1, c2, c3] read_init).seq 0
      (stored_base c1) (stored_base c2) (stored_base c3) := by
    rw [hseq]
    generalize stored_base c1 = b1
    generalize stored_base c2 = b2
    generalize stored_base c3 = b3
    cases b1 <;> cases b2 <;> cases b3 <;> decide
  exact (codon_routines_congr _ _ 0 0 tt init _ _ _ hcod (codon_is_pack _ _ _)).2.2

/-- Witness for C13 (amended): `ANG` is translated as ACG. -/
theorem amino_ignores_ambiguity_witness :
    amino (read_seq_training_line ['A', 'N', 'G'] read_init).seq 0 11 0 =
      amino (pack [stored_base 'A', stored_base 'N', stored_base 'G']) 0 11 0 :=
  (amino_ignores_ambiguity 'A' 'N' 'G' 11 0 (by decide) (by decide)
    (by decide)).1

end Prodigal

namespace Prodigal
open Base

/-! ## Stop-codon probability -/

/-- Two runs of the loop nest of `prob_stop` whose innermost statements keep
a relation between their accumulators end with related accumulators. -/
theorem codon_loop_rel {σ τ : Type} (R : σ → τ → Prop)
    (body : Bitmap → σ → σ) (body' : Bitmap → τ → τ)
    (h : ∀ c s t, R s t → R (body c s) (body' c t))
    (codon : Bitmap) (s : σ) (t : τ) (h0 : R s t) :
    R (codon_loop body codon s).2 (codon_loop body' codon t).2 := by
  have key : (codon_loop body codon s).1 = (codon_loop body' codon t).1 ∧
      R (codon_loop body codon s).2 (codon_loop body' codon t).2 := by
    unfold codon_loop
    apply for_loop_rel 0 2 _ _
      (fun (x : Bitmap × σ) (y : Bitmap × τ) => x.1 = y.1 ∧ R x.2 y.2)
    · exact ⟨rfl, h0⟩
    intro i1 x1 y1 ⟨e1, r1⟩
    apply for_loop_rel 0 2 _ _
      (fun (x : Bitmap × σ) (y : Bitmap × τ) => x.1 = y.1 ∧ R x.2 y.2)
    · exact ⟨by simp only [e1], r1⟩
    intro i2 x2 y2 ⟨e2, r2⟩
    apply for_loop_rel 0 2 _ _
      (fun (x : Bitmap × σ) (y : Bitmap × τ) => x.1 = y.1 ∧ R x.2 y.2)
    · exact ⟨by simp only [e2], r2⟩
    intro i3 x3 y3 ⟨e3, r3⟩
    apply for_loop_rel 0 2 _ _
      (fun (x : Bitmap × σ) (y : Bitmap × τ) => x.1 = y.1 ∧ R x.2 y.2)
    · exact ⟨by simp only [e3], r3⟩
    intro i4 x4 y4 ⟨e4, r4⟩
    apply for_loop_rel 0 2 _ _
      (fun (x : Bitmap × σ) (y : Bitmap × τ) => x.1 = y.1 ∧ R x.2 y.2)
    · exact ⟨by simp only [e4], r4⟩
    intro i5 x5 y5 ⟨e5, r5⟩
    apply for_loop_rel 0 2 _ _
      (fun (x : Bitmap × σ) (y : Bitmap × τ) => x.1 = y.1 ∧ R x.2 y.2)
    · exact ⟨by simp only [e5], r5⟩
    intro i6 x6 y6 ⟨e6, r6⟩
    refine ⟨by simp only [e6], ?_⟩
    simp only [e6]
    exact h _ _ _ r6
  exact key.2

/-- At GC content 1/2 every codon has probability 1/64. -/
theorem prob_stop_body_half (tt : Int) (codon : Bitmap) (sp : ℚ) :
    prob_stop_body tt (1 / 2) codon sp =
      if is_stop codon 0 tt = 1 then sp + 1 / 64 else sp := by
  unfold prob_stop_body
  split_ifs <;> norm_num

/-- At GC content 1/2, `prob_stop` is the number of stop codons its loop nest
visits, over 64. -/
theorem prob_stop_half_visits (tt : Int) :
    prob_stop tt (1 / 2) = (prob_stop_visits tt : ℚ) / 64 := by
  unfold prob_stop prob_stop_visits
  apply codon_loop_rel (fun (sp : ℚ) (k : Nat) => sp = (k : ℚ) / 64)
  · intro c sp k hk
    rw [prob_stop_body_half, hk]
    split_ifs
    · push_cast
      ring
    · rfl
  · norm_num

set_option maxRecDepth 100000 in
set_option maxHeartbeats 4000000 in
/-- Under each table id the routines test for, the loop nest of `prob_stop`
visits as many stop codons as there are among the 64 codons. -/
theorem prob_stop_visits_special :
    ∀ tt ∈ special_tables, prob_stop_visits tt = stop_count tt := by
  decide

/-- The loop nest of `prob_stop` visits each of the 64 codons once: it counts
as many stops as there are among the 64 codons, under every table id. -/
theorem prob_stop_visits_eq (tt : Int) : prob_stop_visits tt = stop_count tt := by
  by_cases hS : tt ∈ special_tables
  · exact prob_stop_visits_special tt hS
  · have e : ∀ c, is_stop c 0 tt = is_stop c 0 1 :=
      fun c => (table_irrelevant c 0 tt 0 hS).1
    have e1 : prob_stop_visits tt = prob_stop_visits 1 := by
      simp only [prob_stop_visits, e]
    have e2 : stop_count tt = stop_count 1 := by
      simp only [stop_count, e]
    rw [e1, e2]
    exact prob_stop_visits_special 1 (by decide)

/-- C14: in exact arithmetic `prob_stop(tt, 1/2)` is the number of the 64
codons on which `is_stop` answers 1 under table `tt`, over 64, for every
table id; it is 3/64 for the standard tables 1 and 11. -/
theorem prob_stop_half (tt : Int) :
    prob_stop tt (1 / 2) = (stop_count tt : ℚ) / 64 ∧
    prob_stop 1 (1 / 2) = 3 / 64 ∧ prob_stop 11 (1 / 2) = 3 / 64 := by
  have h1 : stop_count 1 = 3 := by decide
  have h11 : stop_count 11 = 3 := by decide
  refine ⟨?_, ?_, ?_⟩
  · rw [prob_stop_half_visits, prob_stop_visits_eq]
  · rw [prob_stop_half_visits, prob_stop_visits_eq, h1]; norm_num
  · rw [prob_stop_half_visits, prob_stop_visits_eq, h11]; norm_num

end Prodigal

namespace Prodigal
open Base

/-! ## GC frame plot -/

/-- A loop of three rounds from 0, unrolled. -/
theorem for_loop_zero_three {σ : Type} (body : Int → σ → σ) (s : σ) :
    for_loop 0 3 body s = body 2 (body 1 (body 0 s)) := by
  simp [for_loop, List.range_succ]

/-- One pass of the prefix-sum loop from position 0 leaves arrays that obey
the recurrences, whatever they held before. -/
theorem gc_frame_pass_rec (seq : Bitmap) (slen : Int) (st0 : (Int → Int) × (Int → Int)) :
    gc_sums_rec seq slen
      (for_loop 0 slen (fun j st =>
        let fwd := st.1
        let bwd := st.2
        let fwd := if j < 3 then upd fwd j (is_gc seq j)
                   else upd fwd j (fwd (j - 3) + is_gc seq j)
        let bwd := if j < 3 then upd bwd (slen - j - 1) (is_gc seq (slen - j - 1))
                   else upd bwd (slen - j - 1)
                     (bwd (slen - j + 2) + is_gc seq (slen - j - 1))
        (fwd, bwd)) st0) := by
  by_cases hs : 0 ≤ slen
  · have := for_loop_inv 0 slen (fun j (st : (Int → Int) × (Int → Int)) =>
        let fwd := st.1
        let bwd := st.2
        let fwd := if j < 3 then upd fwd j (is_gc seq j)
                   else upd fwd j (fwd (j - 3) + is_gc seq j)
        let bwd := if j < 3 then upd bwd (slen - j - 1) (is_gc seq (slen - j - 1))
                   else upd bwd (slen - j - 1)
                     (bwd (slen - j + 2) + is_gc seq (slen - j - 1))
        (fwd, bwd))
      (fun m st =>
        (∀ j, 0 ≤ j → j < m →
          st.1 j = if j < 3 then is_gc seq j else st.1 (j - 3) + is_gc seq j) ∧
        (∀ k, slen - m ≤ k → k < slen →
          st.2 k = if slen - k - 1 < 3 then is_gc seq k else st.2 (k + 3) + is_gc seq k))
      st0 hs
      ⟨fun j h1 h2 => by omega, fun k h1 h2 => by omega⟩
      (by
        intro m st hm0 hm1 ⟨ihf, ihb⟩
        constructor
        · intro j hj0 hj1
          by_cases hjm : j = m
          · subst hjm
            by_cases h3 : j < 3
            · simp [h3, upd]
            · have : j - 3 ≠ j := by omega
              simp [h3, upd, this]
          · have e1 : j - 3 ≠ m := by omega
            have := ihf j hj0 (by omega)
            by_cases h3 : m < 3 <;> simp only [h3, if_true, if_false, upd, hjm, e1] <;> exact this
        · intro k hk0 hk1
          by_cases hkm : k = slen - m - 1
          · subst hkm
            have e : slen - (slen - m - 1) - 1 = m := by omega
            have e2 : slen - m - 1 + 3 = slen - m + 2 := by omega
            have e3 : slen - m + 2 ≠ slen - m - 1 := by omega
            by_cases h3 : m < 3
            · simp [h3, upd, e]
            · simp [h3, upd, e, e2, e3]
          · have e1 : k + 3 ≠ slen - m - 1 := by omega
            have := ihb k (by omega) hk1
            by_cases h3 : m < 3 <;> simp only [h3, if_true, if_false, upd, hkm, e1] <;> exact this)
    refine ⟨this.1, fun k hk0 hk1 => this.2 k (by omega) hk1⟩
  · rw [for_loop_empty _ _ _ _ (by omega)]
    exact ⟨fun j h1 h2 => by omega, fun k h1 h2 => by omega⟩

/-- A pass of the prefix-sum loop over arrays that already obey the
recurrences changes nothing. -/
theorem gc_frame_pass_id (seq : Bitmap) (slen i : Int) (hi : 0 ≤ i)
    (st0 : (Int → Int) × (Int → Int)) (h : gc_sums_rec seq slen st0) :
    for_loop i slen (fun j st =>
        let fwd := st.1
        let bwd := st.2
        let fwd := if j < 3 then upd fwd j (is_gc seq j)
                   else upd fwd j (fwd (j - 3) + is_gc seq j)
        let bwd := if j < 3 then upd bwd (slen - j - 1) (is_gc seq (slen - j - 1))
                   else upd bwd (slen - j - 1)
                     (bwd (slen - j + 2) + is_gc seq (slen - j - 1))
        (fwd, bwd)) st0 = st0 := by
  by_cases hs : i ≤ slen
  · apply for_loop_inv i slen _ (fun _ st => st = st0) st0 hs rfl
    intro j st hj0 hj1 hst
    subst hst
    obtain ⟨hf, hb⟩ := h
    have ef := hf j (by omega) hj1
    have eb := hb (slen - j - 1) (by omega) (by omega)
    have e : slen - (slen - j - 1) - 1 = j := by omega
    have e2 : slen - j - 1 + 3 = slen - j + 2 := by omega
    rw [e, e2] at eb
    have hupd : ∀ (a : Int → Int) (p : Int), upd a p (a p) = a := by
      intro a p
      funext q
      by_cases hq : q = p <;> simp [upd, hq]
    by_cases h3 : j < 3
    · simp only [h3, if_true] at ef eb ⊢
      rw [← ef, ← eb, hupd, hupd]
    · simp only [h3, if_false] at ef eb ⊢
      rw [← ef, ← eb, hupd, hupd]
  · exact for_loop_empty _ _ _ _ (by omega)

/-- The arrays `fwd` and `bwd` of `calc_most_gc_frame` obey the recurrences. -/
theorem gc_frame_sums_rec (seq : Bitmap) (slen : Int) :
    gc_sums_rec seq slen (gc_frame_sums seq slen) := by
  unfold gc_frame_sums
  rw [for_loop_zero_three]
  simp only [zero_add, add_zero]
  have h0 := gc_frame_pass_rec seq slen
    (for_loop 0 slen (fun i st => (upd st.1 i 0, upd st.2 i 0))
      (fun _ => 0, fun _ => 0))
  rw [gc_frame_pass_id seq slen 1 (by decide) _ h0,
    gc_frame_pass_id seq slen 2 (by decide) _ h0]
  exact h0

/-- The windowed total of `calc_most_gc_frame` at a position of the
sequence, in terms of the prefix sums. -/
theorem gc_frame_tot_eq (WINDOW : Int) (seq : Bitmap) (slen p : Int)
    (hp0 : 0 ≤ p) (hp1 : p < slen) :
    gc_frame_tot WINDOW seq slen p =
      (gc_frame_sums seq slen).1 p + (gc_frame_sums seq slen).2 p - is_gc seq p
      - (if p - Int.tdiv WINDOW 2 ≥ 0 then
          (gc_frame_sums seq slen).1 (p - Int.tdiv WINDOW 2) else 0)
      - (if p + Int.tdiv WINDOW 2 < slen then
          (gc_frame_sums seq slen).2 (p + Int.tdiv WINDOW 2) else 0) := by
  unfold gc_frame_tot
  simp only []
  have key := for_loop_inv 0 slen
    (fun i (tot : Int → Int) =>
      let tot := upd tot i ((gc_frame_sums seq slen).1 i +
        (gc_frame_sums seq slen).2 i - is_gc seq i)
      let tot := if i - Int.tdiv WINDOW 2 ≥ 0 then
          upd tot i (tot i - (gc_frame_sums seq slen).1 (i - Int.tdiv WINDOW 2))
        else tot
      let tot := if i + Int.tdiv WINDOW 2 < slen then
          upd tot i (tot i - (gc_frame_sums seq slen).2 (i + Int.tdiv WINDOW 2))
        else tot
      tot)
    (fun m tot => ∀ q, 0 ≤ q → q < m → tot q =
      (gc_frame_sums seq slen).1 q + (gc_frame_sums seq slen).2 q - is_gc seq q
      - (if q - Int.tdiv WINDOW 2 ≥ 0 then
          (gc_frame_sums seq slen).1 (q - Int.tdiv WINDOW 2) else 0)
      - (if q + Int.tdiv WINDOW 2 < slen then
          (gc_frame_sums seq slen).2 (q + Int.tdiv WINDOW 2) else 0))
    (for_loop 0 slen (fun i tot => upd tot i 0) (fun _ => 0)) (by omega)
    (fun q h1 h2 => by omega)
    (by
      intro m tot hm0 hm1 ih q hq0 hq1
      by_cases hq : q = m
      · subst hq
        by_cases c1 : q - Int.tdiv WINDOW 2 ≥ 0 <;>
          by_cases c2 : q + Int.tdiv WINDOW 2 < slen <;>
          simp [c1, c2, upd]
      · have := ih q hq0 (by omega)
        by_cases c1 : m - Int.tdiv WINDOW 2 ≥ 0 <;>
          by_cases c2 : m + Int.tdiv WINDOW 2 < slen <;>
          simp only [c1, c2, if_true, if_false, upd, hq] <;> exact this)
  exact key p hp0 hp1

end Prodigal

namespace Prodigal
open Base

/-! ## GC frame plot: the frame array and the all-G sequence -/

/-- Every full codon triplet of the sequence gets, at its three positions,
the frame `max_fr` picks from the three windowed totals. -/
theorem calc_most_gc_frame_triplet (WINDOW : Int) (seq : Bitmap) (slen : Int)
    (k : Nat) (hk : (k : Int) * 3 < slen - 2) :
    calc_most_gc_frame WINDOW seq slen ((k : Int) * 3) =
      max_fr (gc_frame_tot WINDOW seq slen ((k : Int) * 3))
        (gc_frame_tot WINDOW seq slen ((k : Int) * 3 + 1))
        (gc_frame_tot WINDOW seq slen ((k : Int) * 3 + 2)) ∧
    calc_most_gc_frame WINDOW seq slen ((k : Int) * 3 + 1) =
      max_fr (gc_frame_tot WINDOW seq slen ((k : Int) * 3))
        (gc_frame_tot WINDOW seq slen ((k : Int) * 3 + 1))
        (gc_frame_tot WINDOW seq slen ((k : Int) * 3 + 2)) ∧
    calc_most_gc_frame WINDOW seq slen ((k : Int) * 3 + 2) =
      max_fr (gc_frame_tot WINDOW seq slen ((k : Int) * 3))
        (gc_frame_tot WINDOW seq slen ((k : Int) * 3 + 1))
        (gc_frame_tot WINDOW seq slen ((k : Int) * 3 + 2)) := by
  have hn : k < ((slen - 2 - 0 + 3 - 1) / 3).toNat := by
    have h1 : 0 ≤ (slen - 2 - 0 + 3 - 1) / 3 := by omega
    have := Int.toNat_of_nonneg h1
    omega
  have key := foldl_range_inv
    (fun (gp : Int → Int) (m : Nat) =>
      for_loop 0 3 (fun j gp => upd gp (0 + (m : Int) * 3 + j)
        (max_fr (gc_frame_tot WINDOW seq slen (0 + (m : Int) * 3))
          (gc_frame_tot WINDOW seq slen (0 + (m : Int) * 3 + 1))
          (gc_frame_tot WINDOW seq slen (0 + (m : Int) * 3 + 2)))) gp)
    (fun m gp => ∀ k' : Nat, k' < m → ∀ j : Int, 0 ≤ j → j < 3 →
      gp ((k' : Int) * 3 + j) =
        max_fr (gc_frame_tot WINDOW seq slen ((k' : Int) * 3))
          (gc_frame_tot WINDOW seq slen ((k' : Int) * 3 + 1))
          (gc_frame_tot WINDOW seq slen ((k' : Int) * 3 + 2)))
    (for_loop 0 slen (fun i gp => upd gp i (-1)) (fun _ => 0))
    ((slen - 2 - 0 + 3 - 1) / 3).toNat
    (fun k' h => by omega)
    (by
      intro m gp _ ih k' hk' j hj0 hj3
      beta_reduce
      rw [for_loop_zero_three]
      simp only [zero_add, add_zero]
      by_cases hkm : k' = m
      · subst hkm
        have : j = 0 ∨ j = 1 ∨ j = 2 := by omega
        rcases this with rfl | rfl | rfl <;> simp [upd]
      · have hlt : k' < m := by omega
        have e0 : (k' : Int) * 3 + j ≠ (m : Int) * 3 := by omega
        have e1 : (k' : Int) * 3 + j ≠ (m : Int) * 3 + 1 := by omega
        have e2 : (k' : Int) * 3 + j ≠ (m : Int) * 3 + 2 := by omega
        simp only [upd, e0, e1, e2, if_false]
        exact ih k' hlt j hj0 hj3)
  have key' : ∀ j : Int, 0 ≤ j → j < 3 →
      calc_most_gc_frame WINDOW seq slen ((k : Int) * 3 + j) =
        max_fr (gc_frame_tot WINDOW seq slen ((k : Int) * 3))
          (gc_frame_tot WINDOW seq slen ((k : Int) * 3 + 1))
          (gc_frame_tot WINDOW seq slen ((k : Int) * 3 + 2)) :=
    fun j hj0 hj3 => key k hn j hj0 hj3
  have k0 := key' 0 (by decide) (by decide)
  rw [add_zero] at k0
  exact ⟨k0, key' 1 (by decide) (by decide), key' 2 (by decide) (by decide)⟩

/-- On a sequence whose positions are all G or C, the prefix sums count the
same-phase positions up to (from) each position. -/
theorem gc_sums_all_gc (seq : Bitmap) (slen : Int)
    (st : (Int → Int) × (Int → Int)) (hrec : gc_sums_rec seq slen st)
    (hG : ∀ p, 0 ≤ p → p < slen → is_gc seq p = 1) :
    ∀ j, 0 ≤ j → j < slen →
      st.1 j = j / 3 + 1 ∧ st.2 j = (slen - 1 - j) / 3 + 1 := by
  obtain ⟨hf, hb⟩ := hrec
  have hfwd : ∀ n : Nat, ∀ j, 0 ≤ j → j < slen → j < 3 * (n : Int) →
      st.1 j = j / 3 + 1 := by
    intro n
    induction n with
    | zero => intro j h0 _ h2; simp at h2; omega
    | succ n ih =>
      intro j h0 h1 h2
      rw [hf j h0 h1, hG j h0 h1]
      by_cases h3 : j < 3
      · simp only [h3, if_true]; omega
      · simp only [h3, if_false]
        rw [ih (j - 3) (by omega) (by omega) (by push_cast at h2; omega)]
        omega
  have hbwd : ∀ n : Nat, ∀ k, 0 ≤ k → k < slen → slen - 1 - k < 3 * (n : Int) →
      st.2 k = (slen - 1 - k) / 3 + 1 := by
    intro n
    induction n with
    | zero => intro k _ h1 h2; simp at h2; omega
    | succ n ih =>
      intro k h0 h1 h2
      rw [hb k h0 h1, hG k h0 h1]
      by_cases h3 : slen - k - 1 < 3
      · simp only [h3, if_true]; omega
      · simp only [h3, if_false]
        rw [ih (k + 3) (by omega) (by omega) (by push_cast at h2; omega)]
        omega
  intro j h0 h1
  refine ⟨hfwd (j.toNat + 1) j h0 h1 ?_, hbwd ((slen - 1 - j).toNat + 1) j h0 h1 ?_⟩
  · have := Int.toNat_of_nonneg h0
    push_cast
    omega
  · have := Int.toNat_of_nonneg (show 0 ≤ slen - 1 - j by omega)
    push_cast
    omega

/-- On an all-G sequence, with a half-window that is a multiple of 3, the
three windowed totals of an interior codon triplet are equal and the triplet
is given frame 2. -/
theorem gc_frame_all_G (WINDOW : Int) (seq : Bitmap) (slen i : Int)
    (hG : ∀ p, 0 ≤ p → p < slen → is_g seq p = 1)
    (hW : 0 ≤ WINDOW) (hW3 : (WINDOW / 2) % 3 = 0)
    (hi3 : i % 3 = 0) (hlo : WINDOW / 2 ≤ i) (hhi : i + 2 + WINDOW / 2 < slen) :
    gc_frame_tot WINDOW seq slen i = 2 * (WINDOW / 2 / 3) - 1 ∧
    gc_frame_tot WINDOW seq slen (i + 1) = 2 * (WINDOW / 2 / 3) - 1 ∧
    gc_frame_tot WINDOW seq slen (i + 2) = 2 * (WINDOW / 2 / 3) - 1 ∧
    calc_most_gc_frame WINDOW seq slen i = 2 ∧
    calc_most_gc_frame WINDOW seq slen (i + 1) = 2 ∧
    calc_most_gc_frame WINDOW seq slen (i + 2) = 2 := by
  have hgc : ∀ p, 0 ≤ p → p < slen → is_gc seq p = 1 :=
    fun p h0 h1 => (is_gc_facts seq p).2.1.mpr (Or.inl (hG p h0 h1))
  have hsum := gc_sums_all_gc seq slen _ (gc_frame_sums_rec seq slen) hgc
  have htd : Int.tdiv WINDOW 2 = WINDOW / 2 := Int.tdiv_eq_ediv hW (by decide)
  have hh0 : 0 ≤ WINDOW / 2 := by omega
  have htot : ∀ p, i ≤ p → p ≤ i + 2 →
      gc_frame_tot WINDOW seq slen p = 2 * (WINDOW / 2 / 3) - 1 := by
    intro p hp0 hp1
    rw [gc_frame_tot_eq WINDOW seq slen p (by omega) (by omega), htd]
    have c1 : p - WINDOW / 2 ≥ 0 := by omega
    have c2 : p + WINDOW / 2 < slen := by omega
    rw [if_pos c1, if_pos c2, hgc p (by omega) (by omega),
      (hsum p (by omega) (by omega)).1, (hsum p (by omega) (by omega)).2,
      (hsum (p - WINDOW / 2) (by omega) (by omega)).1,
      (hsum (p + WINDOW / 2) (by omega) (by omega)).2]
    omega
  have t0 := htot i (by omega) (by omega)
  have t1 := htot (i + 1) (by omega) (by omega)
  have t2 := htot (i + 2) (by omega) (by omega)
  have hk : ((i / 3).toNat : Int) * 3 = i := by
    have := Int.toNat_of_nonneg (show 0 ≤ i / 3 by omega)
    omega
  obtain ⟨g0, g1, g2⟩ := calc_most_gc_frame_triplet WINDOW seq slen (i / 3).toNat
    (by rw [hk]; omega)
  rw [hk] at g0 g1 g2
  rw [t0, t1, t2] at g0 g1 g2
  have hm : ∀ t : Int, max_fr t t t = 2 := by
    intro t
    simp [max_fr]
  rw [hm] at g0 g1 g2
  exact ⟨t0, t1, t2, g0, g1, g2⟩

/-- The sequence `seq_all_G` holds G everywhere. -/
theorem seq_all_G_is_g (p : Int) : is_g seq_all_G p = 1 := by
  have h0 : seq_all_G (p * 2) = true := by simp [seq_all_G]
  have h1 : seq_all_G (p * 2 + 1) = false := by
    simp only [seq_all_G, decide_eq_false_iff_not]
    omega
  simp [is_g, test, h0, h1]

end Prodigal

namespace Prodigal
open Base

/-! ## Claims on `max_fr` and `calc_most_gc_frame` -/

/-- C15: for all integers `n1 n2 n3`, `max_fr` returns an index in {0,1,2}
whose argument is maximal: it is at least each of `n1`, `n2`, `n3`. -/
theorem max_fr_maximal (n1 n2 n3 : Int) :
    (max_fr n1 n2 n3 = 0 ∧ n1 ≥ n1 ∧ n1 ≥ n2 ∧ n1 ≥ n3) ∨
    (max_fr n1 n2 n3 = 1 ∧ n2 ≥ n1 ∧ n2 ≥ n2 ∧ n2 ≥ n3) ∨
    (max_fr n1 n2 n3 = 2 ∧ n3 ≥ n1 ∧ n3 ≥ n2 ∧ n3 ≥ n3) := by
  unfold max_fr
  split_ifs <;> simp <;> omega

/-- C16, as stated, fails: with `n1 = n3 > n2` (1, 0, 1) `max_fr` returns 2,
not 0, and with `n2 = n3 > n1` (0, 1, 1) it returns 2, not 1. -/
theorem max_fr_ties_counterexample :
    max_fr 1 0 1 = 2 ∧ max_fr 0 1 1 = 2 := by
  decide

/-- C16 (amended): `max_fr` breaks ties in favour of the third candidate: for
all integers with `n1 = n3 > n2` it returns 2 (the third wins the tie with
the first), and for all integers with `n2 = n3 > n1` it returns 2 (the third
wins the tie with the second). -/
theorem max_fr_ties (n1 n2 n3 : Int) :
    (n1 = n3 ∧ n3 > n2 → max_fr n1 n2 n3 = 2) ∧
    (n2 = n3 ∧ n3 > n1 → max_fr n1 n2 n3 = 2) := by
  unfold max_fr
  constructor <;>
  · rintro ⟨h1, h2⟩
    split_ifs <;> first | rfl | omega

/-- Witness for C16 (amended): the ties (5, 3, 5) and (3, 5, 5). -/
theorem max_fr_ties_witness :
    max_fr 5 3 5 = 2 ∧ max_fr 3 5 5 = 2 :=
  ⟨(max_fr_ties 5 3 5).1 (by decide), (max_fr_ties 3 5 5).2 (by decide)⟩

/-- C17, as stated, fails: on the all-G sequence of length 123 with
`WINDOW = 120`, the interior triplet at positions 60..62 has three equal
windowed totals and is assigned frame 2, not frame 0. -/
theorem gc_frame_all_G_counterexample :
    gc_frame_tot 120 seq_all_G 123 60 = gc_frame_tot 120 seq_all_G 123 61 ∧
    gc_frame_tot 120 seq_all_G 123 61 = gc_frame_tot 120 seq_all_G 123 62 ∧
    calc_most_gc_frame 120 seq_all_G 123 60 = 2 ∧
    calc_most_gc_frame 120 seq_all_G 123 61 = 2 ∧
    calc_most_gc_frame 120 seq_all_G 123 62 = 2 := by
  obtain ⟨t0, t1, t2, g0, g1, g2⟩ := gc_frame_all_G 120 seq_all_G 123 60
    (fun p _ _ => seq_all_G_is_g p) (by decide) (by decide) (by decide)
    (by decide) (by decide)
  have e1 : (60 : Int) + 1 = 61 := by decide
  have e2 : (60 : Int) + 2 = 62 := by decide
  rw [e1] at t1 g1
  rw [e2] at t2 g2
  exact ⟨by rw [t0, t1], by rw [t1, t2], g0, g1, g2⟩

/-- C17 (amended): for a sequence consisting only of G, with `WINDOW/2` a
multiple of 3 (`WINDOW` is 120 upstream), `calc_most_gc_frame` computes equal
windowed totals for the three positions of every interior codon triplet
(those at least `WINDOW/2` from both ends) and assigns that triplet frame 2. -/
theorem gc_frame_all_G_interior (WINDOW : Int) (seq : Bitmap) (slen i : Int)
    (hG : ∀ p, 0 ≤ p → p < slen → is_g seq p = 1)
    (hW : 0 ≤ WINDOW) (hW3 : (WINDOW / 2) % 3 = 0)
    (hi3 : i % 3 = 0) (hlo : WINDOW / 2 ≤ i) (hhi : i + 2 + WINDOW / 2 < slen) :
    gc_frame_tot WINDOW seq slen i = gc_frame_tot WINDOW seq slen (i + 1) ∧
    gc_frame_tot WINDOW seq slen (i + 1) = gc_frame_tot WINDOW seq slen (i + 2) ∧
    calc_most_gc_frame WINDOW seq slen i = 2 ∧
    calc_most_gc_frame WINDOW seq slen (i + 1) = 2 ∧
    calc_most_gc_frame WINDOW seq slen (i + 2) = 2 := by
  obtain ⟨t0, t1, t2, g0, g1, g2⟩ :=
    gc_frame_all_G WINDOW seq slen i hG hW hW3 hi3 hlo hhi
  exact ⟨by rw [t0, t1], by rw [t1, t2], g0, g1, g2⟩

/-- Witness for C17 (amended): the all-G sequence of length 200 with
`WINDOW = 120`, at the triplet 63..65. -/
theorem gc_frame_all_G_interior_witness :
    gc_frame_tot 120 seq_all_G 200 63 = gc_frame_tot 120 seq_all_G 200 (63 + 1) ∧
    gc_frame_tot 120 seq_all_G 200 (63 + 1) =
      gc_frame_tot 120 seq_all_G 200 (63 + 2) ∧
    calc_most_gc_frame 120 seq_all_G 200 63 = 2 ∧
    calc_most_gc_frame 120 seq_all_G 200 (63 + 1) = 2 ∧
    calc_most_gc_frame 120 seq_all_G 200 (63 + 2) = 2 :=
  gc_frame_all_G_interior 120 seq_all_G 200 63 (fun p _ _ => seq_all_G_is_g p)
    (by decide) (by decide) (by decide) (by decide) (by decide)

end Prodigal

namespace Prodigal
open Base

/-! ## k-mer background -/

/-- A result within the `int` range is held as it is. -/
theorem int32_of_range (x : Int) (h0 : -2147483648 ≤ x) (h1 : x < 2147483648) :
    int32 x = x := by
  unfold int32
  omega

/-- A word of `len ≤ 15` bases is indexed by a number from 0 to `4^len - 1`:
no bit of `index` is lost. -/
theorem mer_index_lt (len : Int) (seq : Bitmap) (pos : Int) (hlen : 0 ≤ len)
    (hlen15 : len ≤ 15) :
    ∃ n : Nat, mer_index len seq pos = (n : Int) ∧ n < 4 ^ len.toNat := by
  have h2 : int32 (2 * len) = 2 * len := int32_of_range _ (by omega) (by omega)
  have key := for_loop_inv 0 (2 * len)
    (fun i (index : Nat) =>
      (index ||| ((test seq (int32 (int32 (pos * 2) + i))).toNat <<< i.toNat))
        % 4294967296)
    (fun i index => index < 2 ^ i.toNat) 0 (by omega) (by simp)
    (by
      intro i index hi0 _ ih
      have e : (i + 1).toNat = i.toNat + 1 := by
        have := Int.toNat_of_nonneg hi0
        have := Int.toNat_of_nonneg (show 0 ≤ i + 1 by omega)
        omega
      rw [e]
      apply lt_of_le_of_lt (Nat.mod_le _ _)
      apply Nat.or_lt_two_pow
      · calc index < 2 ^ i.toNat := ih
          _ < 2 ^ (i.toNat + 1) := Nat.pow_lt_pow_right (by decide) (Nat.lt_succ_self _)
      · have ht : (test seq (int32 (int32 (pos * 2) + i))).toNat ≤ 1 := by
          unfold test
          split_ifs <;> simp
        rw [Nat.shiftLeft_eq]
        calc (test seq (int32 (int32 (pos * 2) + i))).toNat * 2 ^ i.toNat
            ≤ 1 * 2 ^ i.toNat := Nat.mul_le_mul_right _ ht
          _ < 2 ^ (i.toNat + 1) := by
            rw [Nat.one_mul]
            exact Nat.pow_lt_pow_right (by decide) (Nat.lt_succ_self _))
  have e : (2 * len).toNat = 2 * len.toNat := by
    have := Int.toNat_of_nonneg hlen
    have := Int.toNat_of_nonneg (show 0 ≤ 2 * len by omega)
    omega
  have e4 : (4 : Nat) ^ len.toNat = 2 ^ (2 * len.toNat) := by
    rw [pow_mul]
    rfl
  beta_reduce at key
  rw [e, ← e4] at key
  have h15 : len.toNat ≤ 15 := by omega
  have hcap : (4 : Nat) ^ len.toNat ≤ 4 ^ 15 := Nat.pow_le_pow_right (by decide) h15
  unfold mer_index
  rw [h2]
  have h415 : (4 : Nat) ^ 15 = 1073741824 := by norm_num
  rw [h415] at hcap
  refine ⟨_, int32_of_range _ (by omega) (by omega), key⟩

/-- Counting the offsets below `n + 1` that satisfy a test. -/
theorem countP_range_succ (p : Nat → Bool) (n : Nat) :
    (List.range (n + 1)).countP p =
      (List.range n).countP p + (if p n = true then 1 else 0) := by
  rw [List.range_succ, List.countP_append]
  simp [List.countP_cons]

/-- The counts of the values a function takes on `0 .. n-1`, summed over a
range of values that holds them all, give `n`. -/
theorem sum_countP_fibers (f : Nat → Nat) (N n : Nat) (hf : ∀ i, f i < N) :
    ∑ b in Finset.range N,
      (List.range n).countP (fun i => ((f i : Nat) : Int) = ((b : Nat) : Int)) = n := by
  induction n with
  | zero => simp
  | succ n ih =>
    simp only [countP_range_succ, Finset.sum_add_distrib, ih]
    congr 1
    have : ∀ b : Nat, (if decide (((f n : Nat) : Int) = ((b : Nat) : Int)) = true
        then 1 else 0) = (if f n = b then 1 else 0) := by
      intro b
      simp
    simp only [this]
    rw [Finset.sum_ite_eq]
    simp [hf n]

/-- The increment `a[i]++` seen from any index. -/
theorem upd_incr (c : Int → Int) (a b : Int) :
    upd c a (c a + 1) b = c b + (if b = a then 1 else 0) := by
  by_cases h : b = a
  · subst h
    simp [upd]
  · simp [upd, h]

/-- Two increments in a row seen from any index. -/
theorem upd_incr2 (c : Int → Int) (a a' b : Int) :
    upd (upd c a (c a + 1)) a' ((upd c a (c a + 1)) a' + 1) b =
      c b + (if b = a then 1 else 0) + (if b = a' then 1 else 0) := by
  rw [upd_incr (upd c a (c a + 1)) a' b, upd_incr c a b]

/-- A loop from 0 as a fold over the round numbers. -/
theorem for_loop_zero_eq {σ : Type} (hi : Int) (body : Int → σ → σ) (s : σ) :
    for_loop 0 hi body s =
      (List.range hi.toNat).foldl (fun (acc : σ) (k : Nat) => body (k : Int) acc) s := by
  simp only [for_loop, sub_zero, zero_add]

/-- The table size, the counts and the total that `calc_mer_bg` computes,
for a word length up to 15 and a total count within the `int` range: no `int`
wraps around. -/
theorem calc_mer_bg_counts_eq (len : Int) (seq rseq : Bitmap) (slen : Int)
    (hlen : 0 ≤ len) (hlen15 : len ≤ 15) (hslen : len ≤ slen + 1)
    (hfit : 2 * (slen - len + 1) < 2147483648) :
    (calc_mer_bg_counts len seq rseq slen).1 = ((4 ^ len.toNat : Nat) : Int) ∧
    (∀ b, (calc_mer_bg_counts len seq rseq slen).2.1 b =
      (mer_count len seq slen b : Int) + (mer_count len rseq slen b : Int)) ∧
    (calc_mer_bg_counts len seq rseq slen).2.2 = 2 * (slen - len + 1) := by
  have hsize : for_loop 1 (len + 1) (fun _ size => int32 (size * 4)) (1 : Int) =
      ((4 ^ len.toNat : Nat) : Int) := by
    have := for_loop_inv 1 (len + 1) (fun _ (size : Int) => int32 (size * 4))
      (fun i size => size = ((4 ^ (i - 1).toNat : Nat) : Int)) 1 (by omega)
      (by simp)
      (by
        intro i size hi0 hi1 ih
        have e : (i + 1 - 1).toNat = (i - 1).toNat + 1 := by
          have := Int.toNat_of_nonneg (show 0 ≤ i - 1 by omega)
          have := Int.toNat_of_nonneg (show 0 ≤ i + 1 - 1 by omega)
          omega
        have h14 : (i - 1).toNat ≤ 14 := by omega
        have hfits : int32 (size * 4) = size * 4 := by
          have hcap : (4 : Nat) ^ (i - 1).toNat ≤ 4 ^ 14 :=
            Nat.pow_le_pow_right (by decide) h14
          have h414 : (4 : Nat) ^ 14 = 268435456 := by norm_num
          rw [h414] at hcap
          rw [ih]
          generalize (4 : Nat) ^ (i - 1).toNat = P at hcap
          apply int32_of_range <;> omega
        beta_reduce
        rw [hfits, e, ih]
        push_cast
        ring)
    simpa using this
  have hzero : ∀ size : Int, for_loop 0 size
      (fun i (counts : Int → Int) => upd counts i 0) (fun _ => 0) = fun _ => 0 := by
    intro size
    apply for_loop_rel 0 size _ (fun _ (u : Unit) => u)
      (fun (c : Int → Int) (_ : Unit) => c = fun _ => 0) _ ()
    · rfl
    · intro i st _ h
      subst h
      funext q
      simp [upd]
  have hn : (((slen - len + 1).toNat : Nat) : Int) = slen - len + 1 := by
    have := Int.toNat_of_nonneg (show 0 ≤ slen - len + 1 by omega)
    omega
  have hcount := foldl_range_inv
    (fun (st : (Int → Int) × Int) (k : Nat) =>
      (upd (upd st.1 (mer_index len seq (k : Int))
          (int32 (st.1 (mer_index len seq (k : Int)) + 1)))
        (mer_index len rseq (k : Int))
        (int32 ((upd st.1 (mer_index len seq (k : Int))
          (int32 (st.1 (mer_index len seq (k : Int)) + 1)))
          (mer_index len rseq (k : Int)) + 1)),
       int32 (st.2 + 2)))
    (fun m st =>
      (∀ b, st.1 b =
        (((List.range m).countP
          fun (i : Nat) => mer_index len seq (i : Int) = b : Nat) : Int) +
        (((List.range m).countP
          fun (i : Nat) => mer_index len rseq (i : Int) = b : Nat) : Int)) ∧
      st.2 = 2 * (m : Int))
    ((fun _ => 0 : Int → Int), (0 : Int)) (slen - len + 1).toNat
    (by simp)
    (by
      intro m st hm ⟨ihc, ihg⟩
      have hm' : (m : Int) < slen - len + 1 := by omega
      have hle : ∀ (s : Bitmap) (b : Int),
          (((List.range m).countP
            fun (i : Nat) => mer_index len s (i : Int) = b : Nat) : Int) ≤ (m : Int) := by
        intro s b
        have := List.countP_le_length
          (fun (i : Nat) => decide (mer_index len s (i : Int) = b)) (l := List.range m)
        rw [List.length_range] at this
        exact_mod_cast this
      have hrange : ∀ b, 0 ≤ st.1 b ∧ st.1 b ≤ 2 * (m : Int) := by
        intro b
        rw [ihc b]
        have h1 := hle seq b
        have h2 := hle rseq b
        omega
      have f1 : int32 (st.1 (mer_index len seq (m : Int)) + 1) =
          st.1 (mer_index len seq (m : Int)) + 1 := by
        have := hrange (mer_index len seq (m : Int))
        exact int32_of_range _ (by omega) (by omega)
      have f2 : int32 (upd st.1 (mer_index len seq (m : Int))
            (st.1 (mer_index len seq (m : Int)) + 1)
            (mer_index len rseq (m : Int)) + 1) =
          upd st.1 (mer_index len seq (m : Int))
            (st.1 (mer_index len seq (m : Int)) + 1)
            (mer_index len rseq (m : Int)) + 1 := by
        have := hrange (mer_index len rseq (m : Int))
        apply int32_of_range <;> rw [upd_incr] <;> split_ifs <;> omega
      have f3 : int32 (st.2 + 2) = st.2 + 2 := by
        apply int32_of_range <;> omega
      dsimp only
      rw [f1, f2, f3]
      refine ⟨?_, by rw [ihg]; push_cast; ring⟩
      intro b
      rw [upd_incr2, ihc b, countP_range_succ, countP_range_succ]
      simp only [decide_eq_true_eq]
      have e1 : (b = mer_index len seq (m : Int)) ↔
          (mer_index len seq (m : Int) = b) := eq_comm
      have e2 : (b = mer_index len rseq (m : Int)) ↔
          (mer_index len rseq (m : Int) = b) := eq_comm
      simp only [e1, e2]
      push_cast
      split_ifs <;> ring)
  refine ⟨hsize, ?_, ?_⟩
  · intro b
    have := hcount.1 b
    unfold calc_mer_bg_counts mer_count
    simp only [hzero, for_loop_zero_eq]
    exact this
  · have := hcount.2
    rw [hn] at this
    unfold calc_mer_bg_counts
    simp only [hzero, for_loop_zero_eq]
    exact this

/-- The entries of `bg` that `calc_mer_bg` writes: count over total. -/
theorem calc_mer_bg_entry (len : Int) (seq rseq : Bitmap) (slen : Int)
    (bg : Int → ℚ) (b : Int) (hb0 : 0 ≤ b)
    (hb1 : b < (calc_mer_bg_counts len seq rseq slen).1) :
    calc_mer_bg len seq rseq slen bg b =
      ((calc_mer_bg_counts len seq rseq slen).2.1 b : ℚ) /
        ((calc_mer_bg_counts len seq rseq slen).2.2 : ℚ) := by
  unfold calc_mer_bg
  have key := for_loop_inv 0 (calc_mer_bg_counts len seq rseq slen).1
    (fun i (bg : Int → ℚ) =>
      upd bg i ((((calc_mer_bg_counts len seq rseq slen).2.1 i : ℚ) * 1) /
        (((calc_mer_bg_counts len seq rseq slen).2.2 : ℚ) * 1)))
    (fun m bg => ∀ q, 0 ≤ q → q < m → bg q =
      ((calc_mer_bg_counts len seq rseq slen).2.1 q : ℚ) /
        ((calc_mer_bg_counts len seq rseq slen).2.2 : ℚ))
    bg (by omega) (fun q h1 h2 => by omega)
    (by
      intro m st _ _ ih q hq0 hq1
      by_cases hq : q = m
      · subst hq
        simp [upd]
      · simp only [upd, hq, if_false]
        exact ih q hq0 (by omega))
  exact key b hb0 hb1

end Prodigal

namespace Prodigal
open Base

/-! ## Claim on `calc_mer_bg` -/

/-- C18, as stated, fails at `len = 16`, where the `int`s overflow:
`mer_index(16, AAAAAAAAAAAAAAAT, 0)` is -1073741824, outside `0 .. 4^16 - 1`,
and `size` wraps around to 0, so that `calc_mer_bg` writes no entry of `bg`.
On the 16 bases A..A with the reverse strand T..T, bin 0 is the index of the
one offset of `seq`, yet `bg[0]` stays what it was (here 0). -/
theorem calc_mer_bg_overflow_counterexample :
    mer_index 16 seq_A15T 0 = -1073741824 ∧
    (calc_mer_bg_counts 16 zero_filled seq_all_T 16).1 = 0 ∧
    mer_count 16 zero_filled 16 0 = 1 ∧ mer_count 16 seq_all_T 16 0 = 0 ∧
    calc_mer_bg 16 zero_filled seq_all_T 16 (fun _ => 0) 0 *
        ((2 * (16 - 16 + 1) : Int) : ℚ) ≠
      (mer_count 16 zero_filled 16 0 : ℚ) + (mer_count 16 seq_all_T 16 0 : ℚ) := by
  have hsz : (calc_mer_bg_counts 16 zero_filled seq_all_T 16).1 = 0 := by decide
  have h1 : mer_count 16 zero_filled 16 0 = 1 := by decide
  have h0 : mer_count 16 seq_all_T 16 0 = 0 := by decide
  refine ⟨by decide, hsz, h1, h0, ?_⟩
  have hbg : calc_mer_bg 16 zero_filled seq_all_T 16 (fun _ => 0) 0 = 0 := by
    unfold calc_mer_bg
    rw [hsz, for_loop_empty _ _ _ _ (le_refl 0)]
  rw [hbg, h1, h0]
  norm_num

/-- C18 (amended): for every word length `1 ≤ len ≤ 15` and sequence length
`slen ≥ len` whose total count `2*(slen-len+1)` is below `2^31` (so that no
`int` of the routine overflows), in exact arithmetic, `bg[b]` times the total
count `2*(slen-len+1)` is the number of offsets `i` in `0 .. slen-len` with
`mer_index(len, seq, i) = b` plus the number with
`mer_index(len, rseq, i) = b`, for every bin `b` in `0 .. 4^len - 1`; and the
`4^len` bins sum to 1. -/
theorem calc_mer_bg_frequencies (len : Int) (seq rseq : Bitmap) (slen : Int)
    (bg : Int → ℚ) (hlen : 1 ≤ len) (hlen15 : len ≤ 15) (hslen : len ≤ slen)
    (hfit : 2 * (slen - len + 1) < 2147483648) :
    (∀ b : Int, 0 ≤ b → b < 4 ^ len.toNat →
      calc_mer_bg len seq rseq slen bg b * ((2 * (slen - len + 1) : Int) : ℚ) =
        (mer_count len seq slen b : ℚ) + (mer_count len rseq slen b : ℚ)) ∧
    ∑ b in Finset.range (4 ^ len.toNat),
      calc_mer_bg len seq rseq slen bg ((b : Nat) : Int) = 1 := by
  obtain ⟨hsize, hcnt, hglob⟩ :=
    calc_mer_bg_counts_eq len seq rseq slen (by omega) hlen15 (by omega) hfit
  have hg0 : ((2 * (slen - len + 1) : Int) : ℚ) ≠ 0 := by
    have : (2 * (slen - len + 1) : Int) ≠ 0 := by omega
    exact_mod_cast this
  have hentry : ∀ b : Int, 0 ≤ b → b < 4 ^ len.toNat →
      calc_mer_bg len seq rseq slen bg b =
        ((mer_count len seq slen b : ℚ) + (mer_count len rseq slen b : ℚ)) /
          ((2 * (slen - len + 1) : Int) : ℚ) := by
    intro b hb0 hb1
    rw [calc_mer_bg_entry len seq rseq slen bg b hb0
      (by rw [hsize]; exact_mod_cast hb1), hcnt b, hglob]
    push_cast
    rfl
  constructor
  · intro b hb0 hb1
    rw [hentry b hb0 hb1]
    exact div_mul_cancel₀ _ hg0
  · have hsum : ∀ s : Bitmap, ∑ b in Finset.range (4 ^ len.toNat),
        (mer_count len s slen ((b : Nat) : Int) : ℚ) =
          (((slen - len + 1).toNat : Nat) : ℚ) := by
      intro s
      have hidx : ∀ i : Nat,
          (((mer_index len s (i : Int)).toNat : Nat) : Int) =
            mer_index len s (i : Int) ∧
          (mer_index len s (i : Int)).toNat < 4 ^ len.toNat := by
        intro i
        obtain ⟨n, hn, hlt⟩ := mer_index_lt len s (i : Int) (by omega) hlen15
        rw [hn, Int.toNat_ofNat]
        exact ⟨rfl, hlt⟩
      have := sum_countP_fibers (fun i => (mer_index len s (i : Int)).toNat)
        (4 ^ len.toNat) (slen - len + 1).toNat (fun i => (hidx i).2)
      simp only [fun i => (hidx i).1] at this
      unfold mer_count
      exact_mod_cast this
    have hn : (((slen - len + 1).toNat : Nat) : ℚ) = ((slen - len + 1 : Int) : ℚ) := by
      have := Int.toNat_of_nonneg (show 0 ≤ slen - len + 1 by omega)
      exact_mod_cast this
    have : ∀ b ∈ Finset.range (4 ^ len.toNat),
        calc_mer_bg len seq rseq slen bg ((b : Nat) : Int) =
          ((mer_count len seq slen ((b : Nat) : Int) : ℚ) +
            (mer_count len rseq slen ((b : Nat) : Int) : ℚ)) /
            ((2 * (slen - len + 1) : Int) : ℚ) := by
      intro b hb
      apply hentry
      · exact Int.natCast_nonneg b
      · have := Finset.mem_range.mp hb
        exact_mod_cast this
    rw [Finset.sum_congr rfl this, ← Finset.sum_div, Finset.sum_add_distrib,
      hsum seq, hsum rseq, hn]
    rw [div_eq_one_iff_eq hg0]
    push_cast
    ring

/-- Witness for C18 (amended): single bases (`len = 1`) of ACGT and its
reverse complement, bin 0 (A): one A on each strand out of 8 counts. -/
theorem calc_mer_bg_frequencies_witness :
    calc_mer_bg 1 seq_ACGT (reverse_seq seq_ACGT zero_filled zero_filled 4) 4
        (fun _ => 0) 0 * ((2 * (4 - 1 + 1) : Int) : ℚ) =
      (mer_count 1 seq_ACGT 4 0 : ℚ) +
        (mer_count 1 (reverse_seq seq_ACGT zero_filled zero_filled 4) 4 0 : ℚ) :=
  (calc_mer_bg_frequencies 1 seq_ACGT
    (reverse_seq seq_ACGT zero_filled zero_filled 4) 4 (fun _ => 0)
    (by decide) (by decide) (by decide) (by decide)).1 0 (by decide) (by decide)

end Prodigal

namespace Prodigal
open Base

/-! ## Shine-Dalgarno scoring: the search loops -/

/-- Invariant rule for `for_loop_down`: `P i` says that the rounds above `i`
are done. -/
theorem for_loop_down_inv {σ : Type} (hi lo : Int) (body : Int → σ → σ)
    (P : Int → σ → Prop) (s : σ) (hle : lo ≤ hi + 1) (h0 : P hi s)
    (hstep : ∀ i st, lo ≤ i → i ≤ hi → P i st → P (i - 1) (body i st)) :
    P (lo - 1) (for_loop_down hi lo body s) := by
  have hn := Int.toNat_of_nonneg (show 0 ≤ hi - lo + 1 by omega)
  have key := foldl_range_inv (fun (acc : σ) (k : Nat) => body (hi - (k : Int)) acc)
    (fun k st => P (hi - (k : Int)) st) s (hi - lo + 1).toNat (by simpa using h0)
    (by
      intro k st hk hP
      have := hstep (hi - k) st (by omega) (by omega) hP
      have e : hi - ((k + 1 : Nat) : Int) = hi - (k : Int) - 1 := by
        push_cast
        ring
      rw [e]
      exact this)
  have e : hi - (((hi - lo + 1).toNat : Nat) : Int) = lo - 1 := by omega
  have key' : P (hi - (((hi - lo + 1).toNat : Nat) : Int))
      (for_loop_down hi lo body s) := key
  rw [e] at key'
  exact key'

/-- The weight comparison that closes a round never lowers the weight of
`max_val`, keeps the new class when it weighs more, and on equal weights
keeps the higher class index. -/
theorem sd_update_facts {α : Type} [LinearOrder α] (rwt : Int → α)
    (c mv : Int) :
    (sd_update rwt c mv = c ∨ sd_update rwt c mv = mv) ∧
    rwt mv ≤ rwt (sd_update rwt c mv) ∧
    rwt c ≤ rwt (sd_update rwt c mv) ∧
    (rwt mv = rwt (sd_update rwt c mv) → mv ≤ sd_update rwt c mv) ∧
    (rwt c = rwt (sd_update rwt c mv) → c ≤ sd_update rwt c mv) := by
  by_cases h1 : rwt c < rwt mv
  · have e : sd_update rwt c mv = mv := by
      unfold sd_update
      rw [if_pos h1]
    rw [e]
    refine ⟨Or.inr rfl, le_refl _, le_of_lt h1, fun _ => le_refl _, ?_⟩
    intro h
    exact absurd h (ne_of_lt h1)
  · by_cases h2 : rwt c = rwt mv ∧ c < mv
    · have e : sd_update rwt c mv = mv := by
        unfold sd_update
        rw [if_neg h1, if_pos h2]
      rw [e]
      exact ⟨Or.inr rfl, le_refl _, le_of_eq h2.1, fun _ => le_refl _,
        fun _ => le_of_lt h2.2⟩
    · have e : sd_update rwt c mv = c := by
        unfold sd_update
        rw [if_neg h1, if_neg h2]
      rw [e]
      have hle : rwt mv ≤ rwt c := not_lt.mp h1
      refine ⟨Or.inl rfl, hle, le_refl _, ?_, fun _ => le_refl _⟩
      intro h
      by_contra hlt
      exact h2 ⟨h.symm, by omega⟩

/-- A `for_loop_down` whose range is empty leaves the state alone. -/
theorem for_loop_down_empty {σ : Type} (hi lo : Int) (body : Int → σ → σ)
    (s : σ) (h : hi < lo) : for_loop_down hi lo body s = s := by
  have : (hi - lo + 1).toNat = 0 := by
    apply Int.toNat_eq_zero.mpr
    omega
  simp [for_loop_down, this]

/-- The search invariant only depends on which rounds are done. -/
theorem sd_search_inv_congr {α : Type} [LinearOrder α] (rwt : Int → α)
    (cand : Int → Int → Int → Option Int) (S S' : Int → Int → Prop)
    (st : Int × Int) (hS : ∀ i j, S i j ↔ S' i j)
    (h : sd_search_inv rwt cand S st) : sd_search_inv rwt cand S' st := by
  obtain ⟨h1, h2, h3, h4⟩ := h
  refine ⟨?_, h2, h3, fun i j cv c hs hc => h4 i j cv c ((hS i j).mpr hs) hc⟩
  rcases h1 with h | ⟨i, j, cv, hs, hc⟩
  · exact Or.inl h
  · exact Or.inr ⟨i, j, cv, (hS i j).mp hs, hc⟩

/-- One round keeps the search invariant, the round joining the rounds done,
provided its candidate class does not depend on the stale `cur_val`. -/
theorem sd_round_inv {α : Type} [LinearOrder α] (rwt : Int → α)
    (cand : Int → Int → Int → Option Int) (S : Int → Int → Prop)
    (st : Int × Int) (i0 j0 : Int)
    (hind : ∀ cv cv', cand i0 j0 cv = cand i0 j0 cv')
    (h : sd_search_inv rwt cand S st) :
    sd_search_inv rwt cand (fun i j => S i j ∨ (i = i0 ∧ j = j0))
      (sd_round rwt (cand i0 j0 st.2) st) := by
  obtain ⟨h1, h2, h3, h4⟩ := h
  cases hc : cand i0 j0 st.2 with
  | none =>
    simp only [sd_round]
    refine ⟨?_, h2, h3, ?_⟩
    · rcases h1 with h | ⟨i, j, cv, hs, hcv⟩
      · exact Or.inl h
      · exact Or.inr ⟨i, j, cv, Or.inl hs, hcv⟩
    · intro i j cv c hs hcv
      rcases hs with hs | ⟨rfl, rfl⟩
      · exact h4 i j cv c hs hcv
      · rw [hind cv st.2, hc] at hcv
        cases hcv
  | some c0 =>
    simp only [sd_round]
    obtain ⟨u1, u2, u3, u4, u5⟩ := sd_update_facts rwt c0 st.1
    refine ⟨?_, le_trans h2 u2, ?_, ?_⟩
    · rcases u1 with e | e
      · rw [e]
        exact Or.inr ⟨i0, j0, st.2, Or.inr ⟨rfl, rfl⟩, hc⟩
      · rw [e]
        rcases h1 with h | ⟨i, j, cv, hs, hcv⟩
        · exact Or.inl h
        · exact Or.inr ⟨i, j, cv, Or.inl hs, hcv⟩
    · intro h0
      have e1 : rwt st.1 = rwt (sd_update rwt c0 st.1) :=
        le_antisymm u2 (h0 ▸ h2)
      have e0 : rwt 0 = rwt st.1 := h0.trans e1.symm
      exact le_trans (h3 e0) (u4 e1)
    · intro i j cv c hs hcv
      rcases hs with hs | ⟨rfl, rfl⟩
      · obtain ⟨w1, w2⟩ := h4 i j cv c hs hcv
        refine ⟨le_trans w1 u2, ?_⟩
        intro h0
        have e1 : rwt st.1 = rwt (sd_update rwt c0 st.1) :=
          le_antisymm u2 (h0 ▸ w1)
        have e0 : rwt c = rwt st.1 := h0.trans e1.symm
        exact le_trans (w2 e0) (u4 e1)
      · rw [hind cv st.2, hc] at hcv
        cases hcv
        exact ⟨u3, u5⟩

/-- The search loops of either scorer, over any candidate code whose class
does not depend on the stale `cur_val`: the class returned is 0 or the class
of a sub-window visited, weighs at least as much as class 0 and as the class
of every sub-window visited, and has the higher index on equal weight. -/
theorem sd_search_spec {α : Type} [LinearOrder α] (rwt : Int → α)
    (cand : Int → Int → Int → Option Int) (limit lo : Int)
    (hind : ∀ i j cv cv', lo ≤ i → i ≤ limit → 0 ≤ j → j ≤ limit - i →
      cand i j cv = cand i j cv') :
    sd_search_inv rwt cand
      (fun i j => lo ≤ i ∧ i ≤ limit ∧ 0 ≤ j ∧ j ≤ limit - i)
      (for_loop_down limit lo (fun i st =>
        for_loop 0 (limit - i + 1) (fun j st =>
          sd_round rwt (cand i j st.2) st) st) ((0 : Int), (0 : Int))) := by
  have hbase : sd_search_inv rwt cand (fun _ _ => False) ((0 : Int), (0 : Int)) :=
    ⟨Or.inl rfl, le_refl _, fun _ => le_refl _, fun _ _ _ _ hs _ => hs.elim⟩
  by_cases hle : lo ≤ limit + 1
  · have key := for_loop_down_inv limit lo
      (fun i st => for_loop 0 (limit - i + 1) (fun j st =>
        sd_round rwt (cand i j st.2) st) st)
      (fun I st => sd_search_inv rwt cand
        (fun i j => I < i ∧ lo ≤ i ∧ i ≤ limit ∧ 0 ≤ j ∧ j ≤ limit - i) st)
      ((0 : Int), (0 : Int)) hle
      (sd_search_inv_congr rwt cand _ _ _ (fun i j => by
        constructor
        · intro h; exact h.elim
        · rintro ⟨h1, _, h3, _⟩; omega) hbase)
      (by
        intro i st hi0 hi1 hP
        have inner := for_loop_inv 0 (limit - i + 1)
          (fun j st => sd_round rwt (cand i j st.2) st)
          (fun J st => sd_search_inv rwt cand
            (fun i' j' => (i < i' ∧ lo ≤ i' ∧ i' ≤ limit ∧ 0 ≤ j' ∧ j' ≤ limit - i') ∨
              (i' = i ∧ 0 ≤ j' ∧ j' < J)) st)
          st (by omega)
          (sd_search_inv_congr rwt cand _ _ _ (fun i' j' => by
            constructor
            · intro h; exact Or.inl h
            · rintro (h | ⟨_, h2, h3⟩)
              · exact h
              · omega) hP)
          (by
            intro j st' hj0 hj1 hQ
            have := sd_round_inv rwt cand _ st' i j
              (fun cv cv' => hind i j cv cv' hi0 hi1 hj0 (by omega)) hQ
            refine sd_search_inv_congr rwt cand _ _ _ (fun i' j' => ?_) this
            constructor
            · rintro ((h | ⟨h1, h2, h3⟩) | ⟨h1, h2⟩)
              · exact Or.inl h
              · exact Or.inr ⟨h1, h2, by omega⟩
              · exact Or.inr ⟨h1, by omega, by omega⟩
            · rintro (h | ⟨h1, h2, h3⟩)
              · exact Or.inl (Or.inl h)
              · by_cases hj : j' = j
                · exact Or.inr ⟨h1, hj⟩
                · exact Or.inl (Or.inr ⟨h1, h2, by omega⟩))
        refine sd_search_inv_congr rwt cand _ _ _ (fun i' j' => ?_) inner
        constructor
        · rintro (⟨h1, h2, h3, h4, h5⟩ | ⟨h1, h2, h3⟩)
          · exact ⟨by omega, h2, h3, h4, h5⟩
          · subst h1
            exact ⟨by omega, hi0, hi1, h2, by omega⟩
        · rintro ⟨h1, h2, h3, h4, h5⟩
          by_cases hi' : i' = i
          · subst hi'
            exact Or.inr ⟨rfl, h4, by omega⟩
          · exact Or.inl ⟨by omega, h2, h3, h4, h5⟩)
    refine sd_search_inv_congr rwt cand _ _ _ (fun i j => ?_) key
    constructor
    · rintro ⟨_, h2, h3, h4, h5⟩
      exact ⟨h2, h3, h4, h5⟩
    · rintro ⟨h2, h3, h4, h5⟩
      exact ⟨by omega, h2, h3, h4, h5⟩
  · rw [for_loop_down_empty _ _ _ _ (by omega)]
    refine sd_search_inv_congr rwt cand _ _ _ (fun i j => ?_) hbase
    constructor
    · intro h; exact h.elim
    · rintro ⟨h1, h2, _, _⟩; omega

end Prodigal

namespace Prodigal
open Base

/-! ## Shine-Dalgarno scoring: the `match` array and the candidate classes -/

/-- Two folds whose steps agree on the elements of the list agree. -/
theorem foldl_congr_mem {σ β : Type} (F F' : σ → β → σ) (l : List β) (s : σ)
    (h : ∀ k ∈ l, ∀ st, F st k = F' st k) : l.foldl F s = l.foldl F' s := by
  induction l generalizing s with
  | nil => rfl
  | cons a rest ih =>
    simp only [List.foldl_cons]
    rw [h a (List.mem_cons_self _ _) s]
    exact ih _ (fun k hk st => h k (List.mem_cons_of_mem _ hk) st)

/-- Two loops whose bodies agree on the rounds of the range agree. -/
theorem for_loop_congr {σ : Type} (lo hi : Int) (body body' : Int → σ → σ)
    (s : σ) (h : ∀ i st, lo ≤ i → i < hi → body i st = body' i st) :
    for_loop lo hi body s = for_loop lo hi body' s := by
  unfold for_loop
  apply foldl_congr_mem
  intro k hk st
  have hk' := List.mem_range.mp hk
  by_cases hle : 0 ≤ hi - lo
  · have := Int.toNat_of_nonneg hle
    exact h _ st (by omega) (by omega)
  · have : (hi - lo).toNat = 0 := Int.toNat_eq_zero.mpr (by omega)
    omega

/-- A loop that stores `f i` at index `i` in every round. -/
theorem for_loop_upd {β : Type} (lo hi : Int) (body : Int → (Int → β) → (Int → β))
    (f : Int → β) (m0 : Int → β)
    (hb : ∀ i m, lo ≤ i → i < hi → body i m = upd m i (f i)) :
    ∀ k, for_loop lo hi body m0 k = if lo ≤ k ∧ k < hi then f k else m0 k := by
  by_cases hle : lo ≤ hi
  · apply for_loop_inv lo hi body
      (fun idx m => ∀ k, m k = if lo ≤ k ∧ k < idx then f k else m0 k) m0 hle
    · intro k
      have : ¬ (lo ≤ k ∧ k < lo) := by omega
      rw [if_neg this]
    · intro i m hi0 hi1 ih k
      rw [hb i m hi0 hi1]
      by_cases hk : k = i
      · subst hk
        have : lo ≤ k ∧ k < k + 1 := by omega
        simp [upd, this]
      · simp only [upd, hk, if_false]
        rw [ih k]
        have : (lo ≤ k ∧ k < i + 1) ↔ (lo ≤ k ∧ k < i) := by omega
        simp only [this]
  · intro k
    rw [for_loop_empty _ _ _ _ (by omega)]
    have : ¬ (lo ≤ k ∧ k < hi) := by omega
    rw [if_neg this]

/-- The search loops only visit windows inside the six offsets. -/
theorem imin_six_le (x : Int) : imin 6 x ≤ 6 ∧ imin 6 x ≤ x := by
  unfold imin
  split_ifs <;> omega

/-- With `pos ≥ 0`, the `match` array of `shine_dalgarno_exact` is, below
`limit`, the pattern of the hits of the window. -/
theorem sd_exact_match_eq (seq : Bitmap) (pos start : Int) (match0 : Int → Int)
    (hpos : 0 ≤ pos) (k : Int) (hk0 : 0 ≤ k)
    (hk1 : k < imin 6 (start - 4 - pos)) :
    sd_exact_match seq pos start match0 k =
      sd_exact_pattern (sd_hit seq pos) k := by
  unfold sd_exact_match
  rw [for_loop_upd 0 (imin 6 (start - 4 - pos)) _
    (fun i => if i % 3 = 0 ∧ is_a seq (pos + i) = 1 then 2
      else if i % 3 ≠ 0 ∧ is_g seq (pos + i) = 1 then 3 else -10)]
  · have : 0 ≤ k ∧ k < imin 6 (start - 4 - pos) := ⟨hk0, hk1⟩
    rw [if_pos this]
    simp only [sd_exact_pattern, sd_hit]
    by_cases h3 : k % 3 = 0 <;> by_cases ha : is_a seq (pos + k) = 1 <;>
      by_cases hg : is_g seq (pos + k) = 1 <;> simp [h3, ha, hg]
  · intro i m hi0 _
    have h1 : ¬ pos + i < 0 := by omega
    have htm : Int.tmod i 3 = i % 3 := Int.tmod_eq_emod hi0 (by decide)
    rw [if_neg h1, htm]
    split_ifs <;> rfl

/-- With `pos ≥ 0`, the `match` array of `shine_dalgarno_mm` is, below
`limit`, the pattern of the hits of the window. -/
theorem sd_mm_match_eq (seq : Bitmap) (pos start : Int) (match0 : Int → Int)
    (hpos : 0 ≤ pos) (k : Int) (hk0 : 0 ≤ k)
    (hk1 : k < imin 6 (start - 4 - pos)) :
    sd_mm_match seq pos start match0 k = sd_mm_pattern (sd_hit seq pos) k := by
  unfold sd_mm_match
  rw [for_loop_upd 0 (imin 6 (start - 4 - pos)) _
    (fun i => if i % 3 = 0 then (if is_a seq (pos + i) = 1 then 2 else -3)
      else (if is_g seq (pos + i) = 1 then 3 else -2))]
  · have : 0 ≤ k ∧ k < imin 6 (start - 4 - pos) := ⟨hk0, hk1⟩
    rw [if_pos this]
    simp only [sd_mm_pattern, sd_hit]
    by_cases h3 : k % 3 = 0 <;> by_cases ha : is_a seq (pos + k) = 1 <;>
      by_cases hg : is_g seq (pos + k) = 1 <;> simp [h3, ha, hg]
  · intro i m hi0 _
    have h1 : ¬ pos + i < 0 := by omega
    have htm : Int.tmod i 3 = i % 3 := Int.tmod_eq_emod hi0 (by decide)
    rw [if_neg h1, htm]
    split_ifs <;> rfl

/-- A hit pattern only matters at the offsets 0..5. -/
theorem hits_eq (hit : Int → Bool) (k : Int) (hk0 : 0 ≤ k) (hk1 : k < 6) :
    hit k = hits (hit 0) (hit 1) (hit 2) (hit 3) (hit 4) (hit 5) k := by
  have : k = 0 ∨ k = 1 ∨ k = 2 ∨ k = 3 ∨ k = 4 ∨ k = 5 := by omega
  rcases this with rfl | rfl | rfl | rfl | rfl | rfl <;> rfl

/-- The sum and mismatch count of a sub-window only read the `match` entries
inside it (exact scorer). -/
theorem sd_exact_window_congr (m m' : Int → Int) (i j : Int)
    (h : ∀ k, j ≤ k → k < j + i → m k = m' k) :
    sd_exact_window m i j = sd_exact_window m' i j := by
  unfold sd_exact_window
  apply for_loop_congr
  intro k st hk0 hk1
  rw [h k hk0 hk1]

/-- The sum and mismatch count of a sub-window only read the `match` entries
inside it (mismatch scorer). -/
theorem sd_mm_window_congr (m m' : Int → Int) (i j : Int)
    (h : ∀ k, j ≤ k → k < j + i → m k = m' k) :
    sd_mm_window m i j = sd_mm_window m' i j := by
  unfold sd_mm_window
  apply for_loop_congr
  intro k st hk0 hk1
  rw [h k hk0 hk1]

end Prodigal

namespace Prodigal
open Base

/-! ## Shine-Dalgarno scoring: the class of a sub-window -/

set_option maxRecDepth 100000 in
set_option maxHeartbeats 4000000 in
/-- Over every hit pattern and every sub-window the exact scorer can visit:
a sub-window without mismatch scores 6, 8, 9, 11, 12 or 14. -/
theorem sd_exact_window_scores :
    ∀ b0 b1 b2 b3 b4 b5 : Bool, ∀ w ∈ sd_exact_windows,
      (sd_exact_window (sd_exact_pattern (hits b0 b1 b2 b3 b4 b5)) w.1 w.2).2 > 0 ∨
      (sd_exact_window (sd_exact_pattern (hits b0 b1 b2 b3 b4 b5)) w.1 w.2).1 ∈
        ([6, 8, 9, 11, 12, 14] : List Int) := by
  decide

set_option maxRecDepth 100000 in
set_option maxHeartbeats 4000000 in
/-- Over every hit pattern and every sub-window the mismatch scorer can
visit: a sub-window with exactly one mismatch scores below 6, or 6, 7 or 9. -/
theorem sd_mm_window_scores :
    ∀ b0 b1 b2 b3 b4 b5 : Bool, ∀ w ∈ sd_mm_windows,
      (sd_mm_window (sd_mm_pattern (hits b0 b1 b2 b3 b4 b5)) w.1 w.2).2 ≠ 1 ∨
      (sd_mm_window (sd_mm_pattern (hits b0 b1 b2 b3 b4 b5)) w.1 w.2).1 < 6 ∨
      (sd_mm_window (sd_mm_pattern (hits b0 b1 b2 b3 b4 b5)) w.1 w.2).1 ∈
        ([6, 7, 9] : List Int) := by
  decide

/-- The distance flag of the exact scorer is 0, 1, 2 or 3. -/
theorem sd_exact_dis_flag_range (rdis i : Int) :
    sd_exact_dis_flag rdis i ∈ ([0, 1, 2, 3] : List Int) := by
  unfold sd_exact_dis_flag
  split_ifs <;> simp

/-- The distance flag of the mismatch scorer is 0, 1, 2 or 3. -/
theorem sd_mm_dis_flag_range (rdis : Int) :
    sd_mm_dis_flag rdis ∈ ([0, 1, 2, 3] : List Int) := by
  unfold sd_mm_dis_flag
  split_ifs <;> simp

/-- On the scores and flags that occur, a branch of the exact motif table
fires: the class does not depend on the stale `cur_val`. -/
theorem sd_exact_cur_val_indep (ctr flag cv cv' : Int)
    (hc : ctr ∈ ([6, 8, 9, 11, 12, 14] : List Int))
    (hf : flag ∈ ([0, 1, 2, 3] : List Int)) :
    sd_exact_cur_val ctr flag cv = sd_exact_cur_val ctr flag cv' := by
  simp only [List.mem_cons, List.mem_singleton, List.not_mem_nil, or_false] at hc hf
  rcases hc with rfl | rfl | rfl | rfl | rfl | rfl <;>
    rcases hf with rfl | rfl | rfl | rfl <;>
    simp [sd_exact_cur_val]

/-- On the scores and flags that occur, a branch of the mismatch motif table
fires: the class does not depend on the stale `cur_val`. -/
theorem sd_mm_cur_val_indep (ctr flag cv cv' : Int)
    (hc : ctr < 6 ∨ ctr ∈ ([6, 7, 9] : List Int))
    (hf : flag ∈ ([0, 1, 2, 3] : List Int)) :
    sd_mm_cur_val ctr flag cv = sd_mm_cur_val ctr flag cv' := by
  rcases hc with hlt | hc
  · simp [sd_mm_cur_val, hlt]
  · simp only [List.mem_cons, List.mem_singleton, List.not_mem_nil, or_false] at hc hf
    rcases hc with rfl | rfl | rfl <;>
      rcases hf with rfl | rfl | rfl | rfl <;>
      simp [sd_mm_cur_val]

end Prodigal

namespace Prodigal
open Base

/-! ## Claims on the Shine-Dalgarno scorers -/

/-- With `pos ≥ 0`, the class a sub-window of the exact scorer brings to the
weight comparison does not depend on the stale `cur_val`. -/
theorem sd_exact_candidate_indep (seq : Bitmap) (pos start : Int)
    (match0 : Int → Int) (hpos : 0 ≤ pos) (i j cv cv' : Int) (hi0 : 3 ≤ i)
    (hi1 : i ≤ imin 6 (start - 4 - pos)) (hj0 : 0 ≤ j)
    (hj1 : j ≤ imin 6 (start - 4 - pos) - i) :
    sd_exact_candidate (sd_exact_match seq pos start match0) pos start i j cv =
      sd_exact_candidate (sd_exact_match seq pos start match0) pos start i j cv' := by
  have hl := (imin_six_le (start - 4 - pos)).1
  have hw : sd_exact_window (sd_exact_match seq pos start match0) i j =
      sd_exact_window (sd_exact_pattern (hits (sd_hit seq pos 0) (sd_hit seq pos 1)
        (sd_hit seq pos 2) (sd_hit seq pos 3) (sd_hit seq pos 4)
        (sd_hit seq pos 5))) i j := by
    apply sd_exact_window_congr
    intro k hk0 hk1
    rw [sd_exact_match_eq seq pos start match0 hpos k (by omega) (by omega)]
    simp only [sd_exact_pattern]
    rw [hits_eq (sd_hit seq pos) k (by omega) (by omega)]
  have hmem : (i, j) ∈ sd_exact_windows := by
    have hi : i = 3 ∨ i = 4 ∨ i = 5 ∨ i = 6 := by omega
    rcases hi with rfl | rfl | rfl | rfl
    · have hj : j = 0 ∨ j = 1 ∨ j = 2 ∨ j = 3 := by omega
      rcases hj with rfl | rfl | rfl | rfl <;> decide
    · have hj : j = 0 ∨ j = 1 ∨ j = 2 := by omega
      rcases hj with rfl | rfl | rfl <;> decide
    · have hj : j = 0 ∨ j = 1 := by omega
      rcases hj with rfl | rfl <;> decide
    · have hj : j = 0 := by omega
      subst hj
      decide
  have hs := sd_exact_window_scores (sd_hit seq pos 0) (sd_hit seq pos 1)
    (sd_hit seq pos 2) (sd_hit seq pos 3) (sd_hit seq pos 4) (sd_hit seq pos 5)
    (i, j) hmem
  rw [← hw] at hs
  unfold sd_exact_candidate
  simp only []
  rcases hs with hs | hs
  · rw [if_pos hs, if_pos hs]
  · by_cases h1 : (sd_exact_window (sd_exact_match seq pos start match0) i j).2 > 0
    · rw [if_pos h1, if_pos h1]
    · rw [if_neg h1, if_neg h1]
      split_ifs
      · rfl
      · rw [sd_exact_cur_val_indep _ _ cv cv' hs (sd_exact_dis_flag_range _ _)]

/-- With `pos ≥ 0`, the class a sub-window of the mismatch scorer brings to
the weight comparison does not depend on the stale `cur_val`. -/
theorem sd_mm_candidate_indep (seq : Bitmap) (pos start : Int)
    (match0 : Int → Int) (hpos : 0 ≤ pos) (i j cv cv' : Int) (hi0 : 5 ≤ i)
    (hi1 : i ≤ imin 6 (start - 4 - pos)) (hj0 : 0 ≤ j)
    (hj1 : j ≤ imin 6 (start - 4 - pos) - i) :
    sd_mm_candidate (sd_mm_match seq pos start match0) pos start i j cv =
      sd_mm_candidate (sd_mm_match seq pos start match0) pos start i j cv' := by
  have hl := (imin_six_le (start - 4 - pos)).1
  have hw : sd_mm_window (sd_mm_match seq pos start match0) i j =
      sd_mm_window (sd_mm_pattern (hits (sd_hit seq pos 0) (sd_hit seq pos 1)
        (sd_hit seq pos 2) (sd_hit seq pos 3) (sd_hit seq pos 4)
        (sd_hit seq pos 5))) i j := by
    apply sd_mm_window_congr
    intro k hk0 hk1
    rw [sd_mm_match_eq seq pos start match0 hpos k (by omega) (by omega)]
    simp only [sd_mm_pattern]
    rw [hits_eq (sd_hit seq pos) k (by omega) (by omega)]
  have hmem : (i, j) ∈ sd_mm_windows := by
    have : (i = 5 ∧ j = 0) ∨ (i = 5 ∧ j = 1) ∨ (i = 6 ∧ j = 0) := by omega
    rcases this with ⟨rfl, rfl⟩ | ⟨rfl, rfl⟩ | ⟨rfl, rfl⟩ <;> decide
  have hs := sd_mm_window_scores (sd_hit seq pos 0) (sd_hit seq pos 1)
    (sd_hit seq pos 2) (sd_hit seq pos 3) (sd_hit seq pos 4) (sd_hit seq pos 5)
    (i, j) hmem
  rw [← hw] at hs
  unfold sd_mm_candidate
  simp only []
  rcases hs with hs | hs
  · rw [if_pos hs, if_pos hs]
  · by_cases h1 : (sd_mm_window (sd_mm_match seq pos start match0) i j).2 ≠ 1
    · rw [if_pos h1, if_pos h1]
    · rw [if_neg h1, if_neg h1]
      split_ifs
      · rfl
      · rw [sd_mm_cur_val_indep _ _ cv cv' hs (sd_mm_dis_flag_range _)]

/-- C19: for `pos ≥ 0` and any linearly ordered weights `rwt`, the class `r`
returned by `shine_dalgarno_exact`, and likewise by `shine_dalgarno_mm`, has
maximal weight among the candidates: `rwt[r] ≥ rwt[c]` for the class `c` of
every sub-window that reaches the weight comparison, and `rwt[r] ≥ rwt[0]`. -/
theorem sd_max_weight {α : Type} [LinearOrder α] (seq : Bitmap)
    (pos start : Int) (rwt : Int → α) (match0 : Int → Int) (hpos : 0 ≤ pos) :
    (rwt 0 ≤ rwt (shine_dalgarno_exact seq pos start rwt match0) ∧
     ∀ i j cv c, 3 ≤ i → i ≤ imin 6 (start - 4 - pos) → 0 ≤ j →
       j ≤ imin 6 (start - 4 - pos) - i →
       sd_exact_candidate (sd_exact_match seq pos start match0) pos start i j cv
         = some c →
       rwt c ≤ rwt (shine_dalgarno_exact seq pos start rwt match0)) ∧
    (rwt 0 ≤ rwt (shine_dalgarno_mm seq pos start rwt match0) ∧
     ∀ i j cv c, 5 ≤ i → i ≤ imin 6 (start - 4 - pos) → 0 ≤ j →
       j ≤ imin 6 (start - 4 - pos) - i →
       sd_mm_candidate (sd_mm_match seq pos start match0) pos start i j cv
         = some c →
       rwt c ≤ rwt (shine_dalgarno_mm seq pos start rwt match0)) := by
  obtain ⟨_, e2, _, e4⟩ := sd_search_spec rwt
    (fun i j cv => sd_exact_candidate (sd_exact_match seq pos start match0)
      pos start i j cv) (imin 6 (start - 4 - pos)) 3
    (fun i j cv cv' h1 h2 h3 h4 =>
      sd_exact_candidate_indep seq pos start match0 hpos i j cv cv' h1 h2 h3 h4)
  obtain ⟨_, m2, _, m4⟩ := sd_search_spec rwt
    (fun i j cv => sd_mm_candidate (sd_mm_match seq pos start match0)
      pos start i j cv) (imin 6 (start - 4 - pos)) 5
    (fun i j cv cv' h1 h2 h3 h4 =>
      sd_mm_candidate_indep seq pos start match0 hpos i j cv cv' h1 h2 h3 h4)
  exact ⟨⟨e2, fun i j cv c h1 h2 h3 h4 hc => (e4 i j cv c ⟨h1, h2, h3, h4⟩ hc).1⟩,
    ⟨m2, fun i j cv c h1 h2 h3 h4 hc => (m4 i j cv c ⟨h1, h2, h3, h4⟩ hc).1⟩⟩

/-- Witness for C19: on AGGAGGTTTTTTATG with `pos = 0`, `start = 12` and
each class weighted by its index, the full hexamer is a candidate of class 27
and the class returned weighs at least 27. -/
theorem sd_max_weight_witness :
    sd_exact_candidate (sd_exact_match seq_AGGAGG 0 12 (fun _ => 0)) 0 12 6 0 0
      = some 27 ∧
    (27 : Int) ≤ shine_dalgarno_exact seq_AGGAGG 0 12 (fun k => k) (fun _ => 0) :=
  ⟨by decide,
   (sd_max_weight seq_AGGAGG 0 12 (fun k => k) (fun _ => 0) (by decide)).1.2
     6 0 0 27 (by decide) (by decide) (by decide) (by decide) (by decide)⟩

/-- C20, as stated, fails: on AGGAGGTTTTTTATG with `pos = 0`, `start = 12`
and all weights equal, the candidates 0 (initial), 13 (the 3-mer AGG at
offset 0) and 27 (the hexamer) share the highest weight, and
`shine_dalgarno_exact` returns 27, not the lowest index 0. -/
theorem sd_exact_tie_counterexample :
    sd_exact_candidate (sd_exact_match seq_AGGAGG 0 12 (fun _ => 0)) 0 12 3 0 0
      = some 13 ∧
    sd_exact_candidate (sd_exact_match seq_AGGAGG 0 12 (fun _ => 0)) 0 12 6 0 0
      = some 27 ∧
    shine_dalgarno_exact seq_AGGAGG 0 12 (fun _ => (0 : Int)) (fun _ => 0) = 27 := by
  decide

/-- C20 (amended): for `pos ≥ 0`, when several candidate classes of
`shine_dalgarno_exact` share the highest weight in `rwt` (class 0 being the
initial candidate), the class returned is the one with the highest class
index among them: it is class 0 or the class of a sub-window, and no
candidate of the same weight has a higher index. -/
theorem sd_exact_tie_highest {α : Type} [LinearOrder α] (seq : Bitmap)
    (pos start : Int) (rwt : Int → α) (match0 : Int → Int) (hpos : 0 ≤ pos) :
    (shine_dalgarno_exact seq pos start rwt match0 = 0 ∨
     ∃ i j cv, (3 ≤ i ∧ i ≤ imin 6 (start - 4 - pos) ∧ 0 ≤ j ∧
       j ≤ imin 6 (start - 4 - pos) - i) ∧
       sd_exact_candidate (sd_exact_match seq pos start match0) pos start i j cv
         = some (shine_dalgarno_exact seq pos start rwt match0)) ∧
    (rwt 0 = rwt (shine_dalgarno_exact seq pos start rwt match0) →
      0 ≤ shine_dalgarno_exact seq pos start rwt match0) ∧
    ∀ i j cv c, 3 ≤ i → i ≤ imin 6 (start - 4 - pos) → 0 ≤ j →
      j ≤ imin 6 (start - 4 - pos) - i →
      sd_exact_candidate (sd_exact_match seq pos start match0) pos start i j cv
        = some c →
      rwt c = rwt (shine_dalgarno_exact seq pos start rwt match0) →
      c ≤ shine_dalgarno_exact seq pos start rwt match0 := by
  obtain ⟨e1, _, e3, e4⟩ := sd_search_spec rwt
    (fun i j cv => sd_exact_candidate (sd_exact_match seq pos start match0)
      pos start i j cv) (imin 6 (start - 4 - pos)) 3
    (fun i j cv cv' h1 h2 h3 h4 =>
      sd_exact_candidate_indep seq pos start match0 hpos i j cv cv' h1 h2 h3 h4)
  exact ⟨e1, e3, fun i j cv c h1 h2 h3 h4 hc => (e4 i j cv c ⟨h1, h2, h3, h4⟩ hc).2⟩

/-- Witness for C20 (amended): on AGGAGGTTTTTTATG with all weights equal, the
candidate 13 does not exceed the class returned. -/
theorem sd_exact_tie_highest_witness :
    (13 : Int) ≤ shine_dalgarno_exact seq_AGGAGG 0 12 (fun _ => (0 : Int))
      (fun _ => 0) :=
  (sd_exact_tie_highest seq_AGGAGG 0 12 (fun _ => (0 : Int)) (fun _ => 0)
    (by decide)).2.2 3 0 0 13 (by decide) (by decide) (by decide) (by decide)
    (by decide) rfl

end Prodigal

namespace Prodigal
open Base

/-! ## Reverse complement as a buffer transformer, and the residues of `amino` -/

/-- The routine `reverse_seq` leaves `seq` and `useq` as they were, and fills
`rseq` as `reverse_seq` describes. -/
theorem reverse_seq_mem_eq (mem : SeqMem) (len : Int) :
    reverse_seq_mem mem len =
      { seq := mem.seq,
        rseq := reverse_seq mem.seq mem.rseq mem.useq len,
        useq := mem.useq } := by
  unfold reverse_seq_mem reverse_seq
  refine for_loop_rel 0 len _ _
    (fun (m : SeqMem) (r : Bitmap) =>
      m = { seq := mem.seq, rseq := r, useq := mem.useq }) _ _
    (for_loop_rel 0 (len * 2) _ _
      (fun (m : SeqMem) (r : Bitmap) =>
        m = { seq := mem.seq, rseq := r, useq := mem.useq }) mem mem.rseq rfl ?_) ?_
  · intro i st st' h
    subst h
    dsimp only
    split_ifs <;> rfl
  · intro i st st' h
    subst h
    dsimp only
    split_ifs <;> rfl

/-- Each amino-acid letter has a number between 0 and 19. -/
theorem amino_num_letters :
    ∀ c ∈ amino_letters, 0 ≤ amino_num c ∧ amino_num c ≤ 19 := by
  decide

/-- What `amino` returns is `'*'`, an amino-acid letter or `'X'`. -/
theorem amino_star_letter_or_X (seq : Bitmap) (n tt init : Int) :
    amino seq n tt init = '*' ∨ amino seq n tt init ∈ amino_letters ∨
      amino seq n tt init = 'X' := by
  unfold amino
  apply first_return_mem (fun c => c = '*' ∨ c ∈ amino_letters ∨ c = 'X')
  · intro s hmem c hc
    simp only [List.cons_append, List.nil_append, List.mem_cons,
      List.mem_append] at hmem
    rcases hmem with rfl | rfl | ((hm | hm) | hm) | hm
    · split_ifs at hc
      simp only [Option.some.injEq] at hc
      exact Or.inl hc.symm
    · split_ifs at hc
      simp only [Option.some.injEq] at hc
      subst hc
      exact Or.inr (Or.inl (by decide))
    · exact Or.inr (Or.inl (amino_t_letters seq n tt s hm c hc))
    · exact Or.inr (Or.inl (amino_c_letters seq n tt s hm c hc))
    · exact Or.inr (Or.inl (amino_a_letters seq n tt s hm c hc))
    · exact Or.inr (Or.inl (amino_g_letters seq n s hm c hc))
  · exact Or.inr (Or.inr rfl)

/-- C27: after `reverse_seq` on a zero-filled `rseq`, for every position
`0 ≤ i < len`: if `useq` flags `i`, `rseq` holds at `len-1-i` the same base
`seq` holds at `i`; if `i` is not flagged, `rseq` holds there the complement of
that base. The ambiguity map (and `seq`) come out of `reverse_seq` as they
went in, whatever `rseq` held on entry (`rseq0`). -/
theorem reverse_seq_flagged_same_else_complement (seq useq rseq0 : Bitmap)
    (len i : Int) (h0 : 0 ≤ i) (h1 : i < len) (b : Base)
    (hb : base_pred b seq i = 1) :
    (test useq i = 1 →
      base_pred b
        (reverse_seq_mem { seq := seq, rseq := zero_filled, useq := useq } len).rseq
        (len - 1 - i) = 1) ∧
    (test useq i = 0 →
      base_pred b.complement
        (reverse_seq_mem { seq := seq, rseq := zero_filled, useq := useq } len).rseq
        (len - 1 - i) = 1) ∧
    (reverse_seq_mem { seq := seq, rseq := rseq0, useq := useq } len).useq = useq ∧
    (reverse_seq_mem { seq := seq, rseq := rseq0, useq := useq } len).seq = seq := by
  have key := reverse_seq_base seq useq len i h0 h1 b hb
  refine ⟨?_, ?_, ?_, ?_⟩
  · intro hu
    have hu' : useq i = true := by
      by_contra hn
      simp [test, hn] at hu
    rw [reverse_seq_mem_eq]
    simpa [hu'] using key
  · intro hu
    have hu' : ¬ useq i = true := by
      intro hn
      simp [test, hn] at hu
    rw [reverse_seq_mem_eq]
    simpa [hu'] using key
  · rw [reverse_seq_mem_eq]
  · rw [reverse_seq_mem_eq]

/-- Witness for C27: in ACGT with only position 1 flagged, the C at the
flagged position 1 stays a C at the mirrored position 2, and the G at the
unflagged position 2 becomes a C at the mirrored position 1. -/
theorem reverse_seq_flagged_same_else_complement_witness :
    (0 : Int) ≤ 1 ∧ (1 : Int) < 4 ∧ base_pred C seq_ACGT 1 = 1 ∧
    ((test useq_flag1 1 = 1 →
      base_pred C
        (reverse_seq_mem
          { seq := seq_ACGT, rseq := zero_filled, useq := useq_flag1 } 4).rseq
        (4 - 1 - 1) = 1) ∧
    (test useq_flag1 1 = 0 →
      base_pred C.complement
        (reverse_seq_mem
          { seq := seq_ACGT, rseq := zero_filled, useq := useq_flag1 } 4).rseq
        (4 - 1 - 1) = 1) ∧
    (reverse_seq_mem
      { seq := seq_ACGT, rseq := seq_N, useq := useq_flag1 } 4).useq = useq_flag1 ∧
    (reverse_seq_mem
      { seq := seq_ACGT, rseq := seq_N, useq := useq_flag1 } 4).seq = seq_ACGT) :=
  ⟨by decide, by decide, by decide,
   reverse_seq_flagged_same_else_complement seq_ACGT useq_flag1 seq_N 4 1
     (by decide) (by decide) C (by decide)⟩

/-- C28: the closing `return 'X'` of `amino` is unreachable: for every table
id, every `is_init` and every codon, `amino` returns `'*'` or one of the 20
amino-acid letters, never `'X'`; so `amino_num` of a translation other than
`'*'` lies in 0..19. -/
theorem amino_residue_or_stop (seq : Bitmap) (n tt init : Int) :
    (amino seq n tt init = '*' ∨ amino seq n tt init ∈ amino_letters) ∧
    amino seq n tt init ≠ 'X' ∧
    (amino seq n tt init ≠ '*' →
      0 ≤ amino_num (amino seq n tt init) ∧
        amino_num (amino seq n tt init) ≤ 19) := by
  have hX := amino_never_X seq n tt init
  have h3 := amino_star_letter_or_X seq n tt init
  have h2 : amino seq n tt init = '*' ∨ amino seq n tt init ∈ amino_letters := by
    rcases h3 with h | h | h
    · exact Or.inl h
    · exact Or.inr h
    · exact absurd h hX
  refine ⟨h2, hX, ?_⟩
  intro hs
  rcases h2 with h | h
  · exact absurd h hs
  · exact amino_num_letters _ h

/-- C29: a table id outside 1..6, 9..16 and 21..25 is not rejected but
treated as the standard code: for every codon and every `is_init`, `is_stop`,
`is_start` and `amino` return what they return for table id 1. -/
theorem unrecognised_table_as_standard (seq : Bitmap) (n tt init : Int)
    (h : ¬ ((1 ≤ tt ∧ tt ≤ 6) ∨ (9 ≤ tt ∧ tt ≤ 16) ∨ (21 ≤ tt ∧ tt ≤ 25))) :
    is_stop seq n tt = is_stop seq n 1 ∧
    is_start seq n tt = is_start seq n 1 ∧
    amino seq n tt init = amino seq n 1 init := by
  apply table_irrelevant
  simp only [special_tables, List.mem_cons, List.mem_singleton, List.not_mem_nil,
    or_false]
  omega

/-- Witness for C29: table id 7 on the codon ATG of ATGAAATAG, at an
initiator position. -/
theorem unrecognised_table_as_standard_witness :
    ¬ (((1 : Int) ≤ 7 ∧ (7 : Int) ≤ 6) ∨ ((9 : Int) ≤ 7 ∧ (7 : Int) ≤ 16) ∨
        ((21 : Int) ≤ 7 ∧ (7 : Int) ≤ 25)) ∧
    (is_stop seq_ATGAAATAG 0 7 = is_stop seq_ATGAAATAG 0 1 ∧
     is_start seq_ATGAAATAG 0 7 = is_start seq_ATGAAATAG 0 1 ∧
     amino seq_ATGAAATAG 0 7 1 = amino seq_ATGAAATAG 0 1 1) :=
  ⟨by decide, unrecognised_table_as_standard seq_ATGAAATAG 0 7 1 (by decide)⟩

end Prodigal

namespace Prodigal
open Base

/-! ## The scorers on a known hit pattern -/

/-- The sub-windows the search loop of the exact scorer visits are those of
`sd_exact_windows`. -/
theorem sd_exact_windows_mem (limit i j : Int) (hl : limit ≤ 6) (hi0 : 3 ≤ i)
    (hi1 : i ≤ limit) (hj0 : 0 ≤ j) (hj1 : j ≤ limit - i) :
    (i, j) ∈ sd_exact_windows := by
  have hi : i = 3 ∨ i = 4 ∨ i = 5 ∨ i = 6 := by omega
  rcases hi with rfl | rfl | rfl | rfl
  · have hj : j = 0 ∨ j = 1 ∨ j = 2 ∨ j = 3 := by omega
    rcases hj with rfl | rfl | rfl | rfl <;> decide
  · have hj : j = 0 ∨ j = 1 ∨ j = 2 := by omega
    rcases hj with rfl | rfl | rfl <;> decide
  · have hj : j = 0 ∨ j = 1 := by omega
    rcases hj with rfl | rfl <;> decide
  · have hj : j = 0 := by omega
    subst hj
    decide

/-- The sub-windows the search loop of the mismatch scorer visits are those
of `sd_mm_windows`. -/
theorem sd_mm_windows_mem (limit i j : Int) (hl : limit ≤ 6) (hi0 : 5 ≤ i)
    (hi1 : i ≤ limit) (hj0 : 0 ≤ j) (hj1 : j ≤ limit - i) :
    (i, j) ∈ sd_mm_windows := by
  have hi : i = 5 ∨ i = 6 := by omega
  rcases hi with rfl | rfl
  · have hj : j = 0 ∨ j = 1 := by omega
    rcases hj with rfl | rfl <;> decide
  · have hj : j = 0 := by omega
    subst hj
    decide

/-- With `pos ≥ 0`, a sub-window the exact scorer visits brings the class it
would bring on the hit pattern of the window, with `pos` moved to 0. -/
theorem sd_exact_candidate_pattern (seq : Bitmap) (pos start : Int)
    (match0 : Int → Int) (hpos : 0 ≤ pos) (hit : Int → Bool)
    (hh : ∀ k, 0 ≤ k → k < 6 → sd_hit seq pos k = hit k) (i j cv : Int)
    (hi0 : 3 ≤ i) (hi1 : i ≤ imin 6 (start - 4 - pos)) (hj0 : 0 ≤ j)
    (hj1 : j ≤ imin 6 (start - 4 - pos) - i) :
    sd_exact_candidate (sd_exact_match seq pos start match0) pos start i j cv =
      sd_exact_candidate (sd_exact_pattern hit) 0 (start - pos) i j 0 := by
  have hl := (imin_six_le (start - 4 - pos)).1
  have hw : sd_exact_window (sd_exact_match seq pos start match0) i j =
      sd_exact_window (sd_exact_pattern hit) i j := by
    apply sd_exact_window_congr
    intro k hk0 hk1
    rw [sd_exact_match_eq seq pos start match0 hpos k (by omega) (by omega)]
    simp only [sd_exact_pattern]
    rw [hh k (by omega) (by omega)]
  have hr : start - (pos + j + i) = start - pos - (0 + j + i) := by ring
  rw [sd_exact_candidate_indep seq pos start match0 hpos i j cv 0 hi0 hi1 hj0 hj1]
  unfold sd_exact_candidate
  dsimp only
  rw [hw, hr]

/-- With `pos ≥ 0`, a sub-window the mismatch scorer visits brings the class
it would bring on the hit pattern of the window, with `pos` moved to 0. -/
theorem sd_mm_candidate_pattern (seq : Bitmap) (pos start : Int)
    (match0 : Int → Int) (hpos : 0 ≤ pos) (hit : Int → Bool)
    (hh : ∀ k, 0 ≤ k → k < 6 → sd_hit seq pos k = hit k) (i j cv : Int)
    (hi0 : 5 ≤ i) (hi1 : i ≤ imin 6 (start - 4 - pos)) (hj0 : 0 ≤ j)
    (hj1 : j ≤ imin 6 (start - 4 - pos) - i) :
    sd_mm_candidate (sd_mm_match seq pos start match0) pos start i j cv =
      sd_mm_candidate (sd_mm_pattern hit) 0 (start - pos) i j 0 := by
  have hl := (imin_six_le (start - 4 - pos)).1
  have hw : sd_mm_window (sd_mm_match seq pos start match0) i j =
      sd_mm_window (sd_mm_pattern hit) i j := by
    apply sd_mm_window_congr
    intro k hk0 hk1
    rw [sd_mm_match_eq seq pos start match0 hpos k (by omega) (by omega)]
    simp only [sd_mm_pattern]
    rw [hh k (by omega) (by omega)]
  have hr : start - (pos + j + i) = start - pos - (0 + j + i) := by ring
  rw [sd_mm_candidate_indep seq pos start match0 hpos i j cv 0 hi0 hi1 hj0 hj1]
  unfold sd_mm_candidate
  dsimp only
  rw [hw, hr]

/-- With `pos ≥ 0` and the hit pattern `hit` in the window, the class
`shine_dalgarno_exact` returns is 0 or the class of a sub-window of the
pattern, and weighs at least as much as the class of every sub-window
visited. -/
theorem sd_exact_result {α : Type} [LinearOrder α] (seq : Bitmap)
    (pos start : Int) (rwt : Int → α) (match0 : Int → Int) (hpos : 0 ≤ pos)
    (hit : Int → Bool) (hh : ∀ k, 0 ≤ k → k < 6 → sd_hit seq pos k = hit k) :
    (shine_dalgarno_exact seq pos start rwt match0 = 0 ∨
      ∃ w ∈ sd_exact_windows,
        sd_exact_candidate (sd_exact_pattern hit) 0 (start - pos) w.1 w.2 0 =
          some (shine_dalgarno_exact seq pos start rwt match0)) ∧
    ∀ i j c, 3 ≤ i → i ≤ imin 6 (start - 4 - pos) → 0 ≤ j →
      j ≤ imin 6 (start - 4 - pos) - i →
      sd_exact_candidate (sd_exact_pattern hit) 0 (start - pos) i j 0 = some c →
      rwt c ≤ rwt (shine_dalgarno_exact seq pos start rwt match0) := by
  obtain ⟨e1, _, _, e4⟩ := sd_search_spec rwt
    (fun i j cv => sd_exact_candidate (sd_exact_match seq pos start match0)
      pos start i j cv) (imin 6 (start - 4 - pos)) 3
    (fun i j cv cv' h1 h2 h3 h4 =>
      sd_exact_candidate_indep seq pos start match0 hpos i j cv cv' h1 h2 h3 h4)
  have hl := (imin_six_le (start - 4 - pos)).1
  constructor
  · rcases e1 with h0 | ⟨i, j, cv, ⟨h1, h2, h3, h4⟩, hc⟩
    · exact Or.inl h0
    · refine Or.inr ⟨(i, j), sd_exact_windows_mem _ i j hl h1 h2 h3 h4, ?_⟩
      rw [← sd_exact_candidate_pattern seq pos start match0 hpos hit hh i j cv
        h1 h2 h3 h4]
      exact hc
  · intro i j c h1 h2 h3 h4 hc
    rw [← sd_exact_candidate_pattern seq pos start match0 hpos hit hh i j 0
      h1 h2 h3 h4] at hc
    exact (e4 i j 0 c ⟨h1, h2, h3, h4⟩ hc).1

/-- With `pos ≥ 0` and the hit pattern `hit` in the window, the class
`shine_dalgarno_mm` returns is 0 or the class of a sub-window of the pattern,
and weighs at least as much as the class of every sub-window visited. -/
theorem sd_mm_result {α : Type} [LinearOrder α] (seq : Bitmap)
    (pos start : Int) (rwt : Int → α) (match0 : Int → Int) (hpos : 0 ≤ pos)
    (hit : Int → Bool) (hh : ∀ k, 0 ≤ k → k < 6 → sd_hit seq pos k = hit k) :
    (shine_dalgarno_mm seq pos start rwt match0 = 0 ∨
      ∃ w ∈ sd_mm_windows,
        sd_mm_candidate (sd_mm_pattern hit) 0 (start - pos) w.1 w.2 0 =
          some (shine_dalgarno_mm seq pos start rwt match0)) ∧
    ∀ i j c, 5 ≤ i → i ≤ imin 6 (start - 4 - pos) → 0 ≤ j →
      j ≤ imin 6 (start - 4 - pos) - i →
      sd_mm_candidate (sd_mm_pattern hit) 0 (start - pos) i j 0 = some c →
      rwt c ≤ rwt (shine_dalgarno_mm seq pos start rwt match0) := by
  obtain ⟨e1, _, _, e4⟩ := sd_search_spec rwt
    (fun i j cv => sd_mm_candidate (sd_mm_match seq pos start match0)
      pos start i j cv) (imin 6 (start - 4 - pos)) 5
    (fun i j cv cv' h1 h2 h3 h4 =>
      sd_mm_candidate_indep seq pos start match0 hpos i j cv cv' h1 h2 h3 h4)
  have hl := (imin_six_le (start - 4 - pos)).1
  constructor
  · rcases e1 with h0 | ⟨i, j, cv, ⟨h1, h2, h3, h4⟩, hc⟩
    · exact Or.inl h0
    · refine Or.inr ⟨(i, j), sd_mm_windows_mem _ i j hl h1 h2 h3 h4, ?_⟩
      rw [← sd_mm_candidate_pattern seq pos start match0 hpos hit hh i j cv
        h1 h2 h3 h4]
      exact hc
  · intro i j c h1 h2 h3 h4 hc
    rw [← sd_mm_candidate_pattern seq pos start match0 hpos hit hh i j 0
      h1 h2 h3 h4] at hc
    exact (e4 i j 0 c ⟨h1, h2, h3, h4⟩ hc).1

/-- The classes the motif table of the exact scorer gives on the scores and
flags that occur. -/
theorem sd_exact_cur_val_mem (ctr flag cv : Int)
    (hc : ctr ∈ ([6, 8, 9, 11, 12, 14] : List Int))
    (hf : flag ∈ ([0, 1, 2, 3] : List Int)) :
    sd_exact_cur_val ctr flag cv ∈
      ([1, 2, 3, 6, 10, 11, 12, 13, 15, 16, 20, 21, 22, 23, 24, 25, 26, 27] :
        List Int) := by
  simp only [List.mem_cons, List.mem_singleton, List.not_mem_nil, or_false] at hc hf
  rcases hc with rfl | rfl | rfl | rfl | rfl | rfl <;>
    rcases hf with rfl | rfl | rfl | rfl <;>
    simp [sd_exact_cur_val]

/-- The classes the motif table of the mismatch scorer gives on the scores
and flags that occur. -/
theorem sd_mm_cur_val_mem (ctr flag cv : Int)
    (hc : ctr ∈ ([6, 7, 9] : List Int))
    (hf : flag ∈ ([0, 1, 2, 3] : List Int)) :
    sd_mm_cur_val ctr flag cv ∈
      ([2, 3, 4, 5, 7, 8, 9, 14, 17, 18, 19] : List Int) := by
  simp only [List.mem_cons, List.mem_singleton, List.not_mem_nil, or_false] at hc hf
  rcases hc with rfl | rfl | rfl <;>
    rcases hf with rfl | rfl | rfl | rfl <;>
    simp [sd_mm_cur_val]

/-- The class a sub-window of a hit pattern brings to the weight comparison
of the exact scorer is one the motif table names. -/
theorem sd_exact_candidate_class (b0 b1 b2 b3 b4 b5 : Bool) (d cv c : Int)
    (w : Int × Int) (hw : w ∈ sd_exact_windows)
    (hc : sd_exact_candidate (sd_exact_pattern (hits b0 b1 b2 b3 b4 b5)) 0 d
      w.1 w.2 cv = some c) :
    c ∈ ([1, 2, 3, 6, 10, 11, 12, 13, 15, 16, 20, 21, 22, 23, 24, 25, 26, 27] :
      List Int) := by
  have hs := sd_exact_window_scores b0 b1 b2 b3 b4 b5 w hw
  unfold sd_exact_candidate at hc
  dsimp only at hc
  split_ifs at hc with h1 h2
  rcases hs with hs | hs
  · exact absurd hs h1
  · simp only [Option.some.injEq] at hc
    rw [← hc]
    exact sd_exact_cur_val_mem _ _ _ hs (sd_exact_dis_flag_range _ _)

/-- The class a sub-window of a hit pattern brings to the weight comparison
of the mismatch scorer is one the motif table names. -/
theorem sd_mm_candidate_class (b0 b1 b2 b3 b4 b5 : Bool) (d cv c : Int)
    (w : Int × Int) (hw : w ∈ sd_mm_windows)
    (hc : sd_mm_candidate (sd_mm_pattern (hits b0 b1 b2 b3 b4 b5)) 0 d
      w.1 w.2 cv = some c) :
    c ∈ ([2, 3, 4, 5, 7, 8, 9, 14, 17, 18, 19] : List Int) := by
  have hs := sd_mm_window_scores b0 b1 b2 b3 b4 b5 w hw
  unfold sd_mm_candidate at hc
  dsimp only at hc
  split_ifs at hc with h1 h2
  rw [not_or] at h2
  rcases hs with hs | hs | hs
  · exact absurd hs h1
  · exact absurd hs h2.2
  · simp only [Option.some.injEq] at hc
    rw [← hc]
    exact sd_mm_cur_val_mem _ _ _ hs (sd_mm_dis_flag_range _)

set_option maxRecDepth 100000 in
/-- On the window AGGAGG with the start 12 bases after `pos`, the hexamer is
of class 27 and no sub-window is of class 10 (exact scorer). -/
theorem sd_exact_full_hit_table :
    sd_exact_candidate (sd_exact_pattern (fun _ => true)) 0 12 6 0 0 = some 27 ∧
    ∀ w ∈ sd_exact_windows,
      sd_exact_candidate (sd_exact_pattern (fun _ => true)) 0 12 w.1 w.2 0 ≠
        some 10 := by
  decide

set_option maxRecDepth 100000 in
set_option maxHeartbeats 4000000 in
/-- The mismatch scorer on AGGAGG with the single mismatch at offset `m`, the
hexamer ending 5 to 10 bases before the start (`start - pos` from 11 to 16):
for `m` = 2 or 3 the hexamer is of class 19, for the other offsets no
sub-window reaches the weight comparison. -/
theorem sd_mm_single_mismatch_table :
    ∀ m ∈ ([0, 1, 2, 3, 4, 5] : List Int),
    ∀ d ∈ ([11, 12, 13, 14, 15, 16] : List Int),
      (m = 2 ∨ m = 3 →
        sd_mm_candidate (sd_mm_pattern (fun k => decide (k ≠ m))) 0 d 6 0 0 =
          some 19) ∧
      (¬ (m = 2 ∨ m = 3) → ∀ w ∈ sd_mm_windows,
        sd_mm_candidate (sd_mm_pattern (fun k => decide (k ≠ m))) 0 d w.1 w.2 0 =
          none) := by
  decide

end Prodigal

namespace Prodigal
open Base

/-! ## Claims on the classes the scorers return -/

/-- C21: for `pos ≥ 0` and `start-4-pos ≥ 0`, whatever the sequence and the
weight table, `shine_dalgarno_exact` returns one of the classes 0, 1, 2, 3, 6,
10, 11, 12, 13, 15, 16, 20..27 (never a gap class 4, 5, 7, 8, 9, 14, 17, 18,
19) and `shine_dalgarno_mm` returns one of 0, 2, 3, 4, 5, 7, 8, 9, 14, 17, 18,
19. -/
theorem sd_valid_class {α : Type} [LinearOrder α] (seq : Bitmap)
    (pos start : Int) (rwt : Int → α) (match0 : Int → Int) (hpos : 0 ≤ pos)
    (_hlim : 0 ≤ start - 4 - pos) :
    shine_dalgarno_exact seq pos start rwt match0 ∈
      ([0, 1, 2, 3, 6, 10, 11, 12, 13, 15, 16, 20, 21, 22, 23, 24, 25, 26, 27] :
        List Int) ∧
    shine_dalgarno_mm seq pos start rwt match0 ∈
      ([0, 2, 3, 4, 5, 7, 8, 9, 14, 17, 18, 19] : List Int) := by
  have hh := fun k h0 h1 => hits_eq (sd_hit seq pos) k h0 h1
  constructor
  · rcases (sd_exact_result seq pos start rwt match0 hpos _ hh).1 with h0 | ⟨w, hw, hc⟩
    · rw [h0]
      exact List.mem_cons_self _ _
    · exact List.mem_cons_of_mem _ (sd_exact_candidate_class _ _ _ _ _ _ _ _ _ w hw hc)
  · rcases (sd_mm_result seq pos start rwt match0 hpos _ hh).1 with h0 | ⟨w, hw, hc⟩
    · rw [h0]
      exact List.mem_cons_self _ _
    · exact List.mem_cons_of_mem _ (sd_mm_candidate_class _ _ _ _ _ _ _ _ _ w hw hc)

/-- Witness for C21: AGGAGGTTTTTTATG with `pos = 0`, `start = 12` and each
class weighted by its index. -/
theorem sd_valid_class_witness :
    shine_dalgarno_exact seq_AGGAGG 0 12 (fun k => k) (fun _ => 0) ∈
      ([0, 1, 2, 3, 6, 10, 11, 12, 13, 15, 16, 20, 21, 22, 23, 24, 25, 26, 27] :
        List Int) ∧
    shine_dalgarno_mm seq_AGGAGG 0 12 (fun k => k) (fun _ => 0) ∈
      ([0, 2, 3, 4, 5, 7, 8, 9, 14, 17, 18, 19] : List Int) :=
  sd_valid_class seq_AGGAGG 0 12 (fun k => k) (fun _ => 0) (by decide) (by decide)

/-- C22, as stated, fails: on AGGAGGTTTTTTATG with `pos = 0`, `start = 12`
(the hexamer ends 6 bases before the start codon) and a weight table in which
`rwt[10]` is strictly greater than every other entry, `shine_dalgarno_exact`
returns class 27, not class 10. -/
theorem sd_exact_motif_counterexample :
    (is_a seq_AGGAGG 0 = 1 ∧ is_g seq_AGGAGG 1 = 1 ∧ is_g seq_AGGAGG 2 = 1 ∧
     is_a seq_AGGAGG 3 = 1 ∧ is_g seq_AGGAGG 4 = 1 ∧ is_g seq_AGGAGG 5 = 1) ∧
    (∀ c : Int, c ≠ 10 →
      (fun k : Int => if k = 10 then (1 : Int) else 0) c <
        (fun k : Int => if k = 10 then (1 : Int) else 0) 10) ∧
    shine_dalgarno_exact seq_AGGAGG 0 12
      (fun k : Int => if k = 10 then (1 : Int) else 0) (fun _ => 0) = 27 :=
  ⟨by decide, fun c hc => by simp [hc], by decide⟩

/-- C22 (amended): for `pos ≥ 0`, the six bases at `pos..pos+5` being AGGAGG
and `start = pos+12`, `shine_dalgarno_exact` returns class 27 under a weight
table `rwt` in which `rwt[27]` is strictly greater than every other entry, and
under no weight table `rwt2` does it return class 10. -/
theorem sd_exact_motif_class_27 {α : Type} [LinearOrder α] (seq : Bitmap)
    (pos start : Int) (rwt rwt2 : Int → α) (match0 : Int → Int) (hpos : 0 ≤ pos)
    (hA0 : is_a seq pos = 1) (hG1 : is_g seq (pos + 1) = 1)
    (hG2 : is_g seq (pos + 2) = 1) (hA3 : is_a seq (pos + 3) = 1)
    (hG4 : is_g seq (pos + 4) = 1) (hG5 : is_g seq (pos + 5) = 1)
    (hstart : start = pos + 12) (hw : ∀ c, c ≠ 27 → rwt c < rwt 27) :
    shine_dalgarno_exact seq pos start rwt match0 = 27 ∧
    shine_dalgarno_exact seq pos start rwt2 match0 ≠ 10 := by
  have hh : ∀ k, 0 ≤ k → k < 6 → sd_hit seq pos k = (fun _ => true) k := by
    intro k h0 h1
    have hk : k = 0 ∨ k = 1 ∨ k = 2 ∨ k = 3 ∨ k = 4 ∨ k = 5 := by omega
    rcases hk with rfl | rfl | rfl | rfl | rfl | rfl <;>
      simp [sd_hit, hA0, hG1, hG2, hA3, hG4, hG5]
  have hd : start - pos = 12 := by omega
  have hlim : imin 6 (start - 4 - pos) = 6 := by
    unfold imin
    split_ifs <;> omega
  constructor
  · have h27 := (sd_exact_result seq pos start rwt match0 hpos _ hh).2 6 0 27
      (by omega) (by omega) (by omega) (by omega)
      (by rw [hd]; exact sd_exact_full_hit_table.1)
    by_contra hne
    exact absurd (hw _ hne) (not_lt.mpr h27)
  · rcases (sd_exact_result seq pos start rwt2 match0 hpos _ hh).1 with h0 | ⟨w, hw, hc⟩
    · rw [h0]
      decide
    · intro h10
      rw [hd, h10] at hc
      exact sd_exact_full_hit_table.2 w hw hc

/-- Witness for C22 (amended): AGGAGGTTTTTTATG with `pos = 0`, `start = 12`,
a weight table whose only non-zero entry is `rwt[27]`, and one whose only
non-zero entry is `rwt[10]`. -/
theorem sd_exact_motif_class_27_witness :
    shine_dalgarno_exact seq_AGGAGG 0 12
      (fun k : Int => if k = 27 then (1 : Int) else 0) (fun _ => 0) = 27 ∧
    shine_dalgarno_exact seq_AGGAGG 0 12
      (fun k : Int => if k = 10 then (1 : Int) else 0) (fun _ => 0) ≠ 10 :=
  sd_exact_motif_class_27 seq_AGGAGG 0 12
    (fun k : Int => if k = 27 then (1 : Int) else 0)
    (fun k : Int => if k = 10 then (1 : Int) else 0) (fun _ => 0) (by decide)
    (by decide) (by decide) (by decide) (by decide) (by decide) (by decide)
    (by decide) (fun c hc => by simp [hc])

/-- C24, as stated, fails: with `pos = 0` and `start = 9` the upstream region
has `start-4-pos = 5` bases, fewer than 6, yet on AGGAGGTTTTTTATG
`shine_dalgarno_exact` returns class 21 (the 5-mer AGGAG), and on
AGTAGGTTTTTTATG `shine_dalgarno_mm` returns class 5 (the 5-mer AGTAG with its
one interior mismatch); each class is weighted by its index. -/
theorem sd_short_region_counterexample :
    (0 ≤ (9 : Int) - 4 - 0 ∧ (9 : Int) - 4 - 0 < 6) ∧
    shine_dalgarno_exact seq_AGGAGG 0 9 (fun k => k) (fun _ => 0) = 21 ∧
    shine_dalgarno_mm seq_AGTAGG 0 9 (fun k => k) (fun _ => 0) = 5 := by
  decide

/-- C24 (amended): for `pos ≥ 0` and `0 ≤ start-4-pos`, whatever the sequence
and the weight table, `shine_dalgarno_exact` returns class 0 when the upstream
region is shorter than 3 bases (`start-4-pos < 3`), and `shine_dalgarno_mm`
returns class 0 when it is shorter than 5 bases (`start-4-pos < 5`). -/
theorem sd_short_region_class_0 {α : Type} [LinearOrder α] (seq : Bitmap)
    (pos start : Int) (rwt : Int → α) (match0 : Int → Int) (_hpos : 0 ≤ pos)
    (_h0 : 0 ≤ start - 4 - pos) :
    (start - 4 - pos < 3 → shine_dalgarno_exact seq pos start rwt match0 = 0) ∧
    (start - 4 - pos < 5 → shine_dalgarno_mm seq pos start rwt match0 = 0) := by
  have hl := (imin_six_le (start - 4 - pos)).2
  constructor
  · intro h
    unfold shine_dalgarno_exact
    dsimp only
    rw [for_loop_down_empty _ _ _ _ (by omega)]
  · intro h
    unfold shine_dalgarno_mm
    dsimp only
    rw [for_loop_down_empty _ _ _ _ (by omega)]

/-- Witness for C24 (amended): AGGAGGTTTTTTATG with `pos = 0`, `start = 6`:
two bases upstream. -/
theorem sd_short_region_class_0_witness :
    shine_dalgarno_exact seq_AGGAGG 0 6 (fun k => k) (fun _ => 0) = 0 ∧
    shine_dalgarno_mm seq_AGGAGG 0 6 (fun k => k) (fun _ => 0) = 0 :=
  ⟨(sd_short_region_class_0 seq_AGGAGG 0 6 (fun k => k) (fun _ => 0) (by decide)
      (by decide)).1 (by decide),
   (sd_short_region_class_0 seq_AGGAGG 0 6 (fun k => k) (fun _ => 0) (by decide)
      (by decide)).2 (by decide)⟩

/-- C25, as stated, fails: an interior mismatch next to an end is penalised
as well. On ATGAGGTTTTTTATG (only mismatch at offset 1) and on
AGGATGTTTTTTATG (only mismatch at offset 4), with `pos = 0`, `start = 12` (the
window ends 6 bases before the start) and every non-zero class weighted above
class 0, `shine_dalgarno_mm` returns class 0. -/
theorem sd_mm_interior_counterexample :
    (∀ k ∈ ([0, 1, 2, 3, 4, 5] : List Int),
      (sd_hit seq_ATGAGG 0 k = true ↔ k ≠ 1)) ∧
    (∀ k ∈ ([0, 1, 2, 3, 4, 5] : List Int),
      (sd_hit seq_AGGATG 0 k = true ↔ k ≠ 4)) ∧
    (∀ c : Int, c ≠ 0 →
      (fun k : Int => if k = 0 then (0 : Int) else 1) 0 <
        (fun k : Int => if k = 0 then (0 : Int) else 1) c) ∧
    shine_dalgarno_mm seq_ATGAGG 0 12
      (fun k : Int => if k = 0 then (0 : Int) else 1) (fun _ => 0) = 0 ∧
    shine_dalgarno_mm seq_AGGATG 0 12
      (fun k : Int => if k = 0 then (0 : Int) else 1) (fun _ => 0) = 0 :=
  ⟨by decide, by decide, fun c hc => by simp [hc], by decide, by decide⟩

/-- C25 (amended): in `shine_dalgarno_mm`, for `pos ≥ 0`, a six-base window
equal to AGGAGG except at exactly one offset `m`, the window ending 5 to 10
bases before `start`, and a weight table where every non-zero class outweighs
class 0, the result is non-zero if and only if `m` is 2 or 3: a mismatch within
two positions of either end of the window (`m` = 0, 1, 4 or 5) gives class
0. -/
theorem sd_mm_single_mismatch {α : Type} [LinearOrder α] (seq : Bitmap)
    (pos start m : Int) (rwt : Int → α) (match0 : Int → Int) (hpos : 0 ≤ pos)
    (hm0 : 0 ≤ m) (hm1 : m ≤ 5)
    (hhit : ∀ k ∈ ([0, 1, 2, 3, 4, 5] : List Int),
      (sd_hit seq pos k = true ↔ k ≠ m))
    (hd0 : 5 ≤ start - (pos + 6)) (hd1 : start - (pos + 6) ≤ 10)
    (hw : ∀ c, c ≠ 0 → rwt 0 < rwt c) :
    shine_dalgarno_mm seq pos start rwt match0 ≠ 0 ↔ (m = 2 ∨ m = 3) := by
  have hh : ∀ k, 0 ≤ k → k < 6 →
      sd_hit seq pos k = (fun k => decide (k ≠ m)) k := by
    intro k h0 h1
    have hk : k ∈ ([0, 1, 2, 3, 4, 5] : List Int) := by
      simp only [List.mem_cons, List.mem_singleton, List.not_mem_nil, or_false]
      omega
    have := hhit k hk
    by_cases hkm : k = m
    · simp [hkm] at this ⊢
      exact this
    · simp [hkm] at this ⊢
      exact this
  have hmm : m ∈ ([0, 1, 2, 3, 4, 5] : List Int) := by
    simp only [List.mem_cons, List.mem_singleton, List.not_mem_nil, or_false]
    omega
  have hdm : start - pos ∈ ([11, 12, 13, 14, 15, 16] : List Int) := by
    simp only [List.mem_cons, List.mem_singleton, List.not_mem_nil, or_false]
    omega
  have hlim : imin 6 (start - 4 - pos) = 6 := by
    unfold imin
    split_ifs <;> omega
  have htab := sd_mm_single_mismatch_table m hmm (start - pos) hdm
  obtain ⟨r1, r2⟩ := sd_mm_result seq pos start rwt match0 hpos _ hh
  constructor
  · intro hne
    by_contra hm
    rcases r1 with h0 | ⟨w, hw, hc⟩
    · exact hne h0
    · rw [htab.2 hm w hw] at hc
      cases hc
  · intro hm h0
    have h19 := r2 6 0 19 (by omega) (by omega) (by omega) (by omega) (htab.1 hm)
    rw [h0] at h19
    exact absurd (hw 19 (by decide)) (not_lt.mpr h19)

/-- Witness for C25 (amended): AGTAGGTTTTTTATG (only mismatch at offset 2)
with `pos = 0`, `start = 12` and every non-zero class weighted 1 against 0 for
class 0: the result is not class 0. -/
theorem sd_mm_single_mismatch_witness :
    shine_dalgarno_mm seq_AGTAGG 0 12
      (fun k : Int => if k = 0 then (0 : Int) else 1) (fun _ => 0) ≠ 0 :=
  (sd_mm_single_mismatch seq_AGTAGG 0 12 2
    (fun k : Int => if k = 0 then (0 : Int) else 1) (fun _ => 0) (by decide)
    (by decide) (by decide) (by decide) (by decide) (by decide)
    (fun c hc => by simp [hc])).2 (Or.inl rfl)

end Prodigal

namespace Prodigal
open Base

/-! ## GC frame plot: the prefix sums against the naive windowed count -/

/-- A sum over the positions `0 .. n-1` of a function that is zero away from
one point. -/
theorem sum_range_point (f : Int → Int) (a : Int) (n : Nat) :
    (∑ p ∈ Finset.range n, if (p : Int) = a then f (p : Int) else 0) =
      if 0 ≤ a ∧ a < (n : Int) then f a else 0 := by
  induction n with
  | zero =>
    have : ¬ (0 ≤ a ∧ a < ((0 : Nat) : Int)) := by omega
    rw [Finset.sum_range_zero, if_neg this]
  | succ n ih =>
    rw [Finset.sum_range_succ, ih]
    by_cases h : (n : Int) = a
    · subst h
      have h1 : ¬ (0 ≤ (n : Int) ∧ (n : Int) < (n : Int)) := by omega
      have h2 : 0 ≤ (n : Int) ∧ (n : Int) < ((n + 1 : Nat) : Int) := by omega
      rw [if_neg h1, if_pos h2, if_pos rfl, zero_add]
    · have h1 : (0 ≤ a ∧ a < ((n + 1 : Nat) : Int)) ↔ (0 ≤ a ∧ a < (n : Int)) := by
        omega
      rw [if_neg h, add_zero]
      simp only [h1]

/-- The forward prefix sum telescopes: the difference of `fwd` at `q` and at
`q - 3n` (taken as 0 before the sequence) counts the GC positions `q`, `q-3`,
.., `q-3(n-1)`. -/
theorem gc_fwd_window (seq : Bitmap) (slen : Int)
    (st : (Int → Int) × (Int → Int)) (hrec : gc_sums_rec seq slen st)
    (q : Int) (hq : q < slen) (n : Nat) :
    (if 0 ≤ q then st.1 q else 0) -
        (if 0 ≤ q - 3 * (n : Int) then st.1 (q - 3 * (n : Int)) else 0) =
      ∑ t ∈ Finset.range n, gc_at seq slen (q - 3 * (t : Int)) := by
  obtain ⟨hf, _⟩ := hrec
  induction n with
  | zero => simp
  | succ n ih =>
    rw [Finset.sum_range_succ, ← ih]
    have e : q - 3 * ((n + 1 : Nat) : Int) = q - 3 * (n : Int) - 3 := by
      push_cast
      ring
    rw [e]
    generalize q - 3 * (n : Int) = j at *
    unfold gc_at
    by_cases h0 : 0 ≤ j
    · have hj : j < slen := by omega
      have hc : 0 ≤ j ∧ j < slen := ⟨h0, hj⟩
      rw [if_pos hc, if_pos h0, hf j h0 hj]
      by_cases h3 : j < 3
      · have h4 : ¬ 0 ≤ j - 3 := by omega
        rw [if_pos h3, if_neg h4]
        ring
      · have h4 : 0 ≤ j - 3 := by omega
        rw [if_neg h3, if_pos h4]
        ring
    · have hc : ¬ (0 ≤ j ∧ j < slen) := by omega
      have h4 : ¬ 0 ≤ j - 3 := by omega
      rw [if_neg hc, if_neg h0, if_neg h4]
      ring

/-- The backward prefix sum telescopes: the difference of `bwd` at `q` and at
`q + 3n` (taken as 0 after the sequence) counts the GC positions `q`, `q+3`,
.., `q+3(n-1)`. -/
theorem gc_bwd_window (seq : Bitmap) (slen : Int)
    (st : (Int → Int) × (Int → Int)) (hrec : gc_sums_rec seq slen st)
    (q : Int) (hq : 0 ≤ q) (n : Nat) :
    (if q < slen then st.2 q else 0) -
        (if q + 3 * (n : Int) < slen then st.2 (q + 3 * (n : Int)) else 0) =
      ∑ t ∈ Finset.range n, gc_at seq slen (q + 3 * (t : Int)) := by
  obtain ⟨_, hb⟩ := hrec
  induction n with
  | zero => simp
  | succ n ih =>
    rw [Finset.sum_range_succ, ← ih]
    have e : q + 3 * ((n + 1 : Nat) : Int) = q + 3 * (n : Int) + 3 := by
      push_cast
      ring
    rw [e]
    have hj0 : 0 ≤ q + 3 * (n : Int) := by omega
    generalize q + 3 * (n : Int) = j at *
    unfold gc_at
    by_cases h1 : j < slen
    · have hc : 0 ≤ j ∧ j < slen := ⟨hj0, h1⟩
      rw [if_pos hc, if_pos h1, hb j hj0 h1]
      by_cases h3 : slen - j - 1 < 3
      · have h4 : ¬ j + 3 < slen := by omega
        rw [if_pos h3, if_neg h4]
        ring
      · have h4 : j + 3 < slen := by omega
        rw [if_neg h3, if_pos h4]
        ring
    · have hc : ¬ (0 ≤ j ∧ j < slen) := by omega
      have h4 : ¬ j + 3 < slen := by omega
      rw [if_neg hc, if_neg h1, if_neg h4]
      ring

/-- The naive count of GC positions in phase with `q` and less than `3w` away
(`w ≥ 1`), as sums of `is_gc` over the positions `q - 3t` and `q + 3t`,
`t < w`. -/
theorem windowed_count_sum (seq : Bitmap) (slen q : Int) (w : Nat) (hw : 1 ≤ w) :
    (((Finset.range slen.toNat).filter fun (p : Nat) =>
        ((p : Int) - q) % 3 = 0 ∧ |(p : Int) - q| < 3 * (w : Int) ∧
          is_gc seq (p : Int) = 1).card : Int) =
      (∑ t ∈ Finset.range w, gc_at seq slen (q - 3 * (t : Int))) +
      (∑ t ∈ Finset.range w, gc_at seq slen (q + 3 * (t : Int))) -
      gc_at seq slen q := by
  have hpt : ∀ a : Int,
      (∑ p ∈ Finset.range slen.toNat,
        if (p : Int) = a then is_gc seq (p : Int) else 0) = gc_at seq slen a := by
    intro a
    rw [sum_range_point (is_gc seq) a]
    unfold gc_at
    have : (0 ≤ a ∧ a < (slen.toNat : Int)) ↔ (0 ≤ a ∧ a < slen) := by omega
    simp only [this]
  have hcard : ∀ h : Int,
      (((Finset.range slen.toNat).filter fun (p : Nat) =>
        ((p : Int) - q) % 3 = 0 ∧ |(p : Int) - q| < h ∧
          is_gc seq (p : Int) = 1).card : Int) =
      ∑ p ∈ Finset.range slen.toNat,
        if ((p : Int) - q) % 3 = 0 ∧ |(p : Int) - q| < h ∧
          is_gc seq (p : Int) = 1 then (1 : Int) else 0 := by
    intro h
    rw [Finset.card_filter]
    push_cast
    rfl
  induction w, hw using Nat.le_induction with
  | base =>
    rw [hcard, Finset.sum_range_one]
    have e : ∀ p ∈ Finset.range slen.toNat,
        (if ((p : Int) - q) % 3 = 0 ∧ |(p : Int) - q| < 3 * ((1 : Nat) : Int) ∧
          is_gc seq (p : Int) = 1 then (1 : Int) else 0) =
        if (p : Int) = q then is_gc seq (p : Int) else 0 := by
      intro p _
      have hg := (is_gc_facts seq (p : Int)).2.2
      generalize is_gc seq (p : Int) = g at hg ⊢
      simp only [abs_lt]
      push_cast
      split_ifs <;> omega
    rw [Finset.sum_congr rfl e, hpt]
    simp
  | succ w hw ih =>
    rw [hcard]
    rw [hcard] at ih
    have e : ∀ p ∈ Finset.range slen.toNat,
        (if ((p : Int) - q) % 3 = 0 ∧ |(p : Int) - q| < 3 * ((w + 1 : Nat) : Int) ∧
          is_gc seq (p : Int) = 1 then (1 : Int) else 0) =
        (if ((p : Int) - q) % 3 = 0 ∧ |(p : Int) - q| < 3 * (w : Int) ∧
          is_gc seq (p : Int) = 1 then (1 : Int) else 0) +
        (if (p : Int) = q - 3 * (w : Int) then is_gc seq (p : Int) else 0) +
        (if (p : Int) = q + 3 * (w : Int) then is_gc seq (p : Int) else 0) := by
      intro p _
      have hg := (is_gc_facts seq (p : Int)).2.2
      generalize is_gc seq (p : Int) = g at hg ⊢
      simp only [abs_lt]
      push_cast
      split_ifs <;> omega
    rw [Finset.sum_congr rfl e, Finset.sum_add_distrib, Finset.sum_add_distrib, ih,
      hpt, hpt, Finset.sum_range_succ, Finset.sum_range_succ]
    ring

/-- With a half-window `WINDOW/2` that is a positive multiple of 3, the
windowed total `tot[q]` of `calc_most_gc_frame` is the naive windowed count
`T(q)` at every position of the sequence. -/
theorem gc_frame_tot_windowed (WINDOW : Int) (seq : Bitmap) (slen q : Int)
    (hW : 0 < WINDOW / 2) (hW3 : (WINDOW / 2) % 3 = 0) (hq0 : 0 ≤ q)
    (hq1 : q < slen) :
    gc_frame_tot WINDOW seq slen q = (windowed_gc_count WINDOW seq slen q : Int) := by
  have htd : Int.tdiv WINDOW 2 = WINDOW / 2 :=
    Int.tdiv_eq_ediv (by omega) (by decide)
  obtain ⟨w, hw⟩ : ∃ w : Nat, WINDOW / 2 = 3 * (w : Int) :=
    ⟨(WINDOW / 2 / 3).toNat, by omega⟩
  have hw1 : 1 ≤ w := by omega
  have hrec := gc_frame_sums_rec seq slen
  have hF := gc_fwd_window seq slen _ hrec q hq1 w
  have hB := gc_bwd_window seq slen _ hrec q hq0 w
  rw [if_pos hq0] at hF
  rw [if_pos hq1] at hB
  rw [gc_frame_tot_eq WINDOW seq slen q hq0 hq1, htd]
  unfold windowed_gc_count
  rw [hw, windowed_count_sum seq slen q w hw1, ← hF, ← hB]
  unfold gc_at
  rw [if_pos (show 0 ≤ q ∧ q < slen from ⟨hq0, hq1⟩)]
  ring

/-- The positions after the last full codon triplet keep the value -1 the
array `gp` is filled with on entry. -/
theorem calc_most_gc_frame_trailing (WINDOW : Int) (seq : Bitmap) (slen p : Int)
    (hp0 : 0 ≤ p) (hp : slen - slen % 3 ≤ p) (hp1 : p < slen) :
    calc_most_gc_frame WINDOW seq slen p = -1 := by
  have hinit : (for_loop 0 slen (fun i (gp : Int → Int) => upd gp i (-1))
      (fun _ => 0)) p = -1 := by
    rw [for_loop_upd 0 slen _ (fun _ => (-1 : Int)) _ (fun i m _ _ => rfl) p]
    rw [if_pos ⟨hp0, hp1⟩]
  exact foldl_range_inv
    (fun (gp : Int → Int) (m : Nat) =>
      for_loop 0 3 (fun j gp => upd gp (0 + (m : Int) * 3 + j)
        (max_fr (gc_frame_tot WINDOW seq slen (0 + (m : Int) * 3))
          (gc_frame_tot WINDOW seq slen (0 + (m : Int) * 3 + 1))
          (gc_frame_tot WINDOW seq slen (0 + (m : Int) * 3 + 2)))) gp)
    (fun _ gp => gp p = -1)
    (for_loop 0 slen (fun i gp => upd gp i (-1)) (fun _ => 0))
    ((slen - 2 - 0 + 3 - 1) / 3).toNat hinit
    (by
      intro m gp hm ih
      beta_reduce
      rw [for_loop_zero_three]
      simp only [zero_add, add_zero]
      have h1 : 0 ≤ (slen - 2 - 0 + 3 - 1) / 3 := by omega
      have h2 := Int.toNat_of_nonneg h1
      have e0 : p ≠ (m : Int) * 3 := by omega
      have e1 : p ≠ (m : Int) * 3 + 1 := by omega
      have e2 : p ≠ (m : Int) * 3 + 2 := by omega
      simp only [upd, e0, e1, e2, if_false]
      exact ih)

/-- C26: the prefix-sum computation of `calc_most_gc_frame` equals the naive
windowed count. `WINDOW`, the macro of `sequence.h` (120 upstream), is a
parameter whose half is a multiple of 3 and positive, as the half of 120 is.
For every `i ≥ 0` that is a multiple of 3 with `i+2 < slen`, the totals
`tot[i]`, `tot[i+1]`, `tot[i+2]` are the counts `T(i)`, `T(i+1)`, `T(i+2)` and
`gp[i] = gp[i+1] = gp[i+2] = max_fr(T(i), T(i+1), T(i+2))`, where `T(q)` is
the number of positions `p` with `0 ≤ p < slen`, `p` congruent to `q` modulo
3, `|p-q| < WINDOW/2` and `is_gc(seq, p) = 1`; a trailing position `p`
(`slen - slen mod 3 ≤ p < slen`) keeps the value -1. -/
theorem calc_most_gc_frame_windowed (WINDOW : Int) (seq : Bitmap)
    (slen i p : Int) (hW : 0 < WINDOW / 2) (hW3 : (WINDOW / 2) % 3 = 0) :
    (0 ≤ i → i % 3 = 0 → i + 2 < slen →
      (gc_frame_tot WINDOW seq slen i = windowed_gc_count WINDOW seq slen i ∧
       gc_frame_tot WINDOW seq slen (i + 1) =
         windowed_gc_count WINDOW seq slen (i + 1) ∧
       gc_frame_tot WINDOW seq slen (i + 2) =
         windowed_gc_count WINDOW seq slen (i + 2)) ∧
      calc_most_gc_frame WINDOW seq slen i =
        max_fr (windowed_gc_count WINDOW seq slen i)
          (windowed_gc_count WINDOW seq slen (i + 1))
          (windowed_gc_count WINDOW seq slen (i + 2)) ∧
      calc_most_gc_frame WINDOW seq slen (i + 1) =
        calc_most_gc_frame WINDOW seq slen i ∧
      calc_most_gc_frame WINDOW seq slen (i + 2) =
        calc_most_gc_frame WINDOW seq slen i) ∧
    (0 ≤ p → slen - slen % 3 ≤ p → p < slen →
      calc_most_gc_frame WINDOW seq slen p = -1) := by
  constructor
  · intro hi0 hi3 hi
    have t0 := gc_frame_tot_windowed WINDOW seq slen i hW hW3 hi0 (by omega)
    have t1 := gc_frame_tot_windowed WINDOW seq slen (i + 1) hW hW3 (by omega)
      (by omega)
    have t2 := gc_frame_tot_windowed WINDOW seq slen (i + 2) hW hW3 (by omega)
      (by omega)
    have hk : ((i / 3).toNat : Int) * 3 = i := by omega
    have key := calc_most_gc_frame_triplet WINDOW seq slen (i / 3).toNat
      (by rw [hk]; omega)
    rw [hk, t0, t1, t2] at key
    obtain ⟨g0, g1, g2⟩ := key
    exact ⟨⟨t0, t1, t2⟩, g0, by rw [g1, g0], by rw [g2, g0]⟩
  · intro hp0 hp hp1
    exact calc_most_gc_frame_trailing WINDOW seq slen p hp0 hp hp1

/-- Witness for C26: the upstream `WINDOW = 120` on the all-G sequence of
length 200, at the triplet 63..65 and the trailing position 199. -/
theorem calc_most_gc_frame_windowed_witness :
    calc_most_gc_frame 120 seq_all_G 200 63 =
      max_fr (windowed_gc_count 120 seq_all_G 200 63)
        (windowed_gc_count 120 seq_all_G 200 (63 + 1))
        (windowed_gc_count 120 seq_all_G 200 (63 + 2)) ∧
    calc_most_gc_frame 120 seq_all_G 200 199 = -1 :=
  ⟨((calc_most_gc_frame_windowed 120 seq_all_G 200 63 199 (by decide)
      (by decide)).1 (by decide) (by decide) (by decide)).2.1,
   (calc_most_gc_frame_windowed 120 seq_all_G 200 63 199 (by decide)
      (by decide)).2 (by decide) (by decide) (by decide)⟩

end Prodigal
